import Mathlib


/-!
# TinyBASIC interpreter (`src/tbasic.c`): shallow embedding and verified properties

The interpreter executes the program text directly through a cursor `c` into the
source array `s`.  The embedding keeps that shape:

* C objects that `c` can point into are `Region`s; a pointer is a region and an index.
* Every `for (; P(*c); c++);` loop of the source is `scan P` over the characters
  readable from the cursor; reading past the end of an array is undefined
  behaviour (`Res.ub`).
* `short` values are `Int`s wrapped by `wrap16`; `int` is taken to be 32 bits wide.
* `errexit(n)` / `exit(n)` end the run with `Res.exit n`.
* Loops and recursion that the text does not bound take a fuel argument
  (`Res.oof` when it runs out).
* The build flags `PRINT_ERROR` and `TRACE` are off (they only add diagnostics).
-/

namespace TinyBASIC

/-! ## Characters -/

/-- The string terminator. -/
def NUL : Char := Char.ofNat 0

/-- The double quote character. -/
def DQUOTE : Char := Char.ofNat 34

/-- The flow-control byte XOFF (octal 023). -/
def XOFF : Char := Char.ofNat 19

/-- The flow-control byte XON (octal 021). -/
def XON : Char := Char.ofNat 17

/-- Conversion of an `int` to `short`: wrap to signed 16 bits. -/
def wrap16 (x : Int) : Int := (x + 32768) % 65536 - 32768

/-- Largest value of `int`. -/
def INT_MAX : Nat := 2147483647

/-- Size of the call stack array. -/
def CALLSTACK_SIZE : Nat := 32

/-! ## State -/

/-- The arrays a `char *` of the program can point into: the source `s`, the
static input line `buf` of `f_in`, and the constant `ZERO`. -/
inductive Region where
  | src
  | inp
  | zero
deriving DecidableEq, Repr

/-- A `char *`: an array and an index into it. -/
structure Ptr where
  r : Region
  i : Nat
deriving DecidableEq, Repr

/-- The global `callstack`: the depth `i` and the array `stack`. -/
structure Callstack where
  i : Nat
  stack : Nat → Ptr

/-- The globals and statics of the program, with the standard streams and the
sequence of values `rand()` will return. -/
structure State where
  s : List Char
  c : Ptr
  vars : Nat → Int
  callstack : Callstack
  col : Nat
  buf : List Char
  loc : Ptr
  out : List Char
  inp : List Char
  rnd : Nat → Nat
  rndi : Nat

/-- Outcome of running a piece of the program. -/
inductive Res (α : Type) where
  | ok (a : α) (st : State)
  | exit (status : Nat) (st : State)
  | ub
  | oof

/-- Sequencing: continue with `k` after a normal return. -/
def Res.bind {α β : Type} (r : Res α) (k : α → State → Res β) : Res β :=
  match r with
  | .ok a st => k a st
  | .exit n st => .exit n st
  | .ub => .ub
  | .oof => .oof

/-- Exit status of a run that ended in `exit`. -/
def Res.status {α : Type} : Res α → Option Nat
  | .exit n _ => some n
  | _ => none

/-- Final state of a run that returned or exited. -/
def Res.state {α : Type} : Res α → Option State
  | .ok _ st => some st
  | .exit _ st => some st
  | _ => none

/-- Standard output at the end of a run that returned or exited. -/
def Res.output {α : Type} (r : Res α) : Option (List Char) := r.state.map State.out

/-- Value returned by a run that returned normally. -/
def Res.value {α : Type} : Res α → Option α
  | .ok a _ => some a
  | _ => none

/-- Contents of the array a region names. -/
def State.mem (st : State) : Region → List Char
  | .src => st.s
  | .inp => st.buf
  | .zero => [NUL]

/-- The characters readable from a pointer, up to the end of its array. -/
def State.from (st : State) (p : Ptr) : List Char := (st.mem p.r).drop p.i

/-- The characters readable from the cursor `c`. -/
def State.rest (st : State) : List Char := st.from st.c

/-- The state after `c += k`. -/
def State.adv (st : State) (k : Nat) : State := { st with c := ⟨st.c.r, st.c.i + k⟩ }

/-! ## Lexical scanner -/

/-- The loop `for (; p(*c); c++);` over the readable characters: how far the
cursor moves, or `none` when the loop leaves the array. -/
def scan (p : Char → Bool) : List Char → Option Nat
  | [] => none
  | ch :: t => if p ch then (scan p t).map (· + 1) else some 0

/-- Advance the cursor while `p` holds of the character under it. -/
def skipWhile (p : Char → Bool) (st : State) : Res Unit :=
  match scan p st.rest with
  | none => .ub
  | some k => .ok () (st.adv k)

/-- The source's `skpspc`. -/
def skpspc (st : State) : Res Unit := skipWhile (fun ch => ch == ' ') st

/-- The source's `skpto`. -/
def skpto (target : Char) (st : State) : Res Unit := skipWhile (fun ch => ch != target) st

/-- The loop of `strspccmp` with `i1` as an accumulator; `s1` is the text from index `i1` on. -/
def strspccmpFrom : List Char → List Char → Int → Option Int
  | [], _, i1 => some i1
  | p :: ps, s1, i1 =>
    match scan (fun ch => ch == ' ') s1 with
    | none => none
    | some k =>
      match s1.drop k with
      | [] => none
      | ch :: t => if p ≠ ch then some (-1) else strspccmpFrom ps t (i1 + k + 1)

/-- The source's `strspccmp`: `none` is a read past the end of `s1`. -/
def strspccmp (s0 s1 : List Char) : Option Int := strspccmpFrom s0 s1 0

/-- The test `!strncmp(pat, c, n)` with `n` the length of `pat` (no NUL in `pat`). -/
def strncmpEq : List Char → List Char → Option Bool
  | [], _ => some true
  | _ :: _, [] => none
  | p :: ps, ch :: t => if p = ch then strncmpEq ps t else some false

/-- The C library's `isspace` in the C locale. -/
def isspace (ch : Char) : Bool :=
  ch == ' ' || (9 ≤ ch.toNat && ch.toNat ≤ 13)

/-- Value of the run of decimal digits at the head of a text, `none` when the
run reaches the end of the array. -/
def digitsVal : List Char → Nat → Option Nat
  | [], _ => none
  | ch :: t, acc => if ch.isDigit then digitsVal t (acc * 10 + (ch.toNat - 48)) else some acc

/-- The C library's `atoi`: `none` is undefined behaviour (a read past the
array, or a value that does not fit `int`). -/
def atoi (txt : List Char) : Option Int :=
  match scan isspace txt with
  | none => none
  | some k =>
    match txt.drop k with
    | [] => none
    | ch :: t =>
      if ch = '-' then
        (digitsVal t 0).bind fun v => if v ≤ INT_MAX + 1 then some (-(v : Int)) else none
      else if ch = '+' then
        (digitsVal t 0).bind fun v => if v ≤ INT_MAX then some (v : Int) else none
      else
        (digitsVal (ch :: t) 0).bind fun v => if v ≤ INT_MAX then some (v : Int) else none

/-! ## Expression evaluator -/

/-- The source's `factor`; `expr` is the recursive call. -/
def factor (expr : State → Res Int) (st : State) : Res Int :=
  (skpspc st).bind fun _ st =>
  match st.rest with
  | [] => .ub
  | ch :: _ =>
    if ch = '(' then
      (expr (st.adv 1)).bind fun val st =>
      (skpto ')' st).bind fun _ st =>
      .ok val (st.adv 1)
    else if ch.isUpper then
      match strncmpEq ['R', 'N', 'D'] st.rest with
      | none => .ub
      | some true =>
        (skpto '(' st).bind fun _ st =>
        (expr (st.adv 1)).bind fun max st =>
        if max = 0 then .exit 259 st
        else
          let val := wrap16 (Int.tmod (st.rnd st.rndi) max)
          (skpto ')' { st with rndi := st.rndi + 1 }).bind fun _ st =>
          .ok val (st.adv 1)
      | some false =>
        match strncmpEq ['U', 'S', 'R'] st.rest with
        | none => .ub
        | some true => .exit 303 st
        | some false => .ok (st.vars (ch.toNat - 65)) (st.adv 1)
    else if ch.isDigit then
      match atoi st.rest, scan Char.isDigit st.rest with
      | some v, some k => .ok (wrap16 v) (st.adv k)
      | _, _ => .ub
    else .ub

/-- The `while (1)` loop of `term`, `f` being the running product. -/
def termLoop (expr : State → Res Int) : Nat → Int → State → Res Int
  | 0, _, _ => .oof
  | n + 1, f, st =>
    (skpspc st).bind fun _ st =>
    match st.rest with
    | [] => .ub
    | ch :: _ =>
      if ch = '*' then
        (factor expr (st.adv 1)).bind fun g st => termLoop expr n (wrap16 (f * g)) st
      else if ch = '/' then
        (factor expr (st.adv 1)).bind fun g st =>
        if g = 0 then .ub else termLoop expr n (wrap16 (Int.tdiv f g)) st
      else .ok f st

/-- The source's `term`. -/
def term (expr : State → Res Int) (n : Nat) (st : State) : Res Int :=
  (skpspc st).bind fun _ st =>
  (factor expr st).bind fun f st =>
  termLoop expr n f st

/-- The `while (1)` loop of `unsigned_expr`, `t` being the running sum. -/
def unsignedLoop (expr : State → Res Int) (m : Nat) : Nat → Int → State → Res Int
  | 0, _, _ => .oof
  | n + 1, t, st =>
    (skpspc st).bind fun _ st =>
    match st.rest with
    | [] => .ub
    | ch :: _ =>
      if ch = '+' then
        (term expr m (st.adv 1)).bind fun x st => unsignedLoop expr m n (wrap16 (t + x)) st
      else if ch = '-' then
        (term expr m (st.adv 1)).bind fun x st => unsignedLoop expr m n (wrap16 (t - x)) st
      else .ok t st

/-- The source's `unsigned_expr`. -/
def unsigned_expr (expr : State → Res Int) (n : Nat) (st : State) : Res Int :=
  (skpspc st).bind fun _ st =>
  (term expr n st).bind fun t st =>
  unsignedLoop expr n n t st

/-- The source's `expr`. -/
def expr : Nat → State → Res Int
  | 0, _ => .oof
  | n + 1, st =>
    (skpspc st).bind fun _ st =>
    match st.rest with
    | [] => .ub
    | ch :: _ =>
      let sgn : Int := if ch = '-' then -1 else 1
      let st1 := if ch = '+' ∨ ch = '-' then st.adv 1 else st
      (unsigned_expr (expr n) n st1).bind fun u st => .ok (wrap16 (sgn * u)) st

/-! ## Branch resolver -/

/-- The `for` loop of `gotoln`. -/
def gotolnLoop : Nat → Int → State → Res Unit
  | 0, _, _ => .oof
  | n + 1, ln, st =>
    match atoi st.rest with
    | none => .ub
    | some v =>
      if v < ln then (skpto '\n' st).bind fun _ st => gotolnLoop n ln (st.adv 1)
      else .ok () st

/-- The source's `gotoln`. -/
def gotoln (n : Nat) (ln : Int) (st : State) : Res Unit :=
  if ln = 0 then .exit 9 st
  else gotolnLoop n ln { st with c := ⟨.src, 0⟩ }

/-! ## Statement handlers -/

/-- The characters `printf("%hd", val)` writes. -/
def printf_hd (val : Int) : List Char :=
  if val < 0 then '-' :: Nat.toDigits 10 val.natAbs else Nat.toDigits 10 val.toNat

/-- The characters `printf("%.*s", len, start)` writes: at most `len`, up to a NUL. -/
def printf_s (len : Nat) (start : List Char) : List Char :=
  (start.take len).takeWhile (fun ch => ch != NUL)

/-- The label `END` of `f_pr`: line break and column reset. -/
def prEnd (st : State) : Res Unit :=
  .ok () { st with out := st.out ++ ['\r', '\n'], col := 0 }

/-- The `while (1)` loop of `f_pr`, entered at the label `ENDLP`. -/
def prLoop (expr : State → Res Int) : Nat → State → Res Unit
  | 0, _ => .oof
  | n + 1, st =>
    match st.rest with
    | [] => .ub
    | ch :: _ =>
      if ch = '\n' then prEnd st
      else
        (if ch = DQUOTE then
          match scan (fun x => x != DQUOTE) (st.adv 1).rest with
          | none => .ub
          | some len =>
            .ok () { (st.adv (1 + len)) with
                      col := st.col + len, out := st.out ++ printf_s len (st.adv 1).rest }
        else
          (expr st).bind fun val st =>
          .ok () { st with col := st.col + (printf_hd val).length, out := st.out ++ printf_hd val }).bind
        fun _ st =>
        (skipWhile (fun x => x != ',' && x != ';' && x != ':' && x != '\n') st).bind fun _ st =>
        match st.rest with
        | [] => .ub
        | sep :: _ =>
          if sep = ',' then
            let diff := 8 - st.col % 8
            (skpspc ({ st with col := st.col + diff, out := st.out ++ List.replicate diff ' ' }.adv 1)).bind
            fun _ st =>
            match st.rest with
            | [] => .ub
            | x :: _ => if x = '\n' then .ok () st else prLoop expr n st
          else if sep = ';' then
            (skpspc (st.adv 1)).bind fun _ st =>
            match st.rest with
            | [] => .ub
            | x :: _ => if x = '\n' then .ok () st else prLoop expr n st
          else if sep = ':' then prEnd { st with out := st.out ++ [XOFF] }
          else prEnd st

/-- The source's `f_pr`. -/
def f_pr (n : Nat) (st : State) : Res Unit :=
  (skpspc st).bind fun _ st => prLoop (expr n) n st

/-- The characters `fgets(buf, 255, stdin)` takes from the input: at most `k`,
ending with the first newline. -/
def takeLine : Nat → List Char → List Char
  | 0, _ => []
  | _, [] => []
  | k + 1, ch :: t => if ch = '\n' then [ch] else ch :: takeLine k t

/-- The source's `inpln(buf)`: prompt, then `fgets` (at end of input `buf` is left as it is). -/
def inpln (st : State) : State :=
  let line := takeLine 254 st.inp
  if line = [] then { st with out := st.out ++ ['?', XON] }
  else
    { st with out := st.out ++ ['?', XON],
              buf := line ++ NUL :: st.buf.drop (line.length + 1),
              inp := st.inp.drop line.length }

/-- The `while (*c != '\n')` loop of `f_in`.  The body of the loop
`for (c = loc; *c == ' '; c++)` is guarded by a test that fails whenever the
loop condition holds, so the loop only skips spaces. -/
def inLoop (expr : State → Res Int) : Nat → State → Res Unit
  | 0, _ => .oof
  | n + 1, st =>
    match st.rest with
    | [] => .ub
    | ch :: _ =>
      if ch = '\n' then .ok () st
      else if !ch.isUpper then .exit 104 st
      else
        let id := st.c
        match (st.from st.loc) with
        | [] => .ub
        | l :: _ =>
          let st1 := if l = NUL ∨ l = '\n' then { inpln st with loc := ⟨.inp, 0⟩ } else st
          (skpspc { st1 with c := st1.loc }).bind fun _ st2 =>
          match st2.rest with
          | [] => .ub
          | x :: _ =>
            (if x.isUpper then .ok (wrap16 ((x.toNat : Int) - 64)) (st2.adv 1) else expr st2).bind
            fun val st3 =>
            (skipWhile (fun y => y == ' ' || y == ',') { st3 with vars := Function.update st3.vars (ch.toNat - 65) val }).bind
            fun _ st4 =>
            (skpspc { st4 with loc := st4.c, c := ⟨id.r, id.i + 1⟩ }).bind fun _ st5 =>
            match st5.rest with
            | [] => .ub
            | y :: _ =>
              if y ≠ ',' then .exit 123 st5
              else (skpspc (st5.adv 1)).bind fun _ st6 => inLoop expr n st6

/-- The source's `f_in`. -/
def f_in (n : Nat) (st : State) : Res Unit :=
  (skpspc st).bind fun _ st => inLoop (expr n) n st

/-- The source's `f_let`. -/
def f_let (n : Nat) (st : State) : Res Unit :=
  (skpspc st).bind fun _ st =>
  match st.rest with
  | [] => .ub
  | id :: _ =>
    if !id.isUpper then .exit 18 st
    else
      (skpspc (st.adv 1)).bind fun _ st =>
      match st.rest with
      | [] => .ub
      | ch :: _ =>
        if ch ≠ '=' then .exit 20 st
        else
          (skpspc (st.adv 1)).bind fun _ st =>
          (expr n st).bind fun val st =>
          .ok () { st with vars := Function.update st.vars (id.toNat - 65) val }

/-- The source's `f_goto`. -/
def f_goto (n : Nat) (st : State) : Res Unit :=
  (expr n st).bind fun ln st =>
  (gotoln n ln st).bind fun _ st =>
  match atoi st.rest with
  | none => .ub
  | some v => if v ≠ ln then .exit 37 st else .ok () st

/-- The source's `f_gosub`. -/
def f_gosub (n : Nat) (st : State) : Res Unit :=
  if st.callstack.i = CALLSTACK_SIZE - 1 then .exit 188 st
  else
    (expr n st).bind fun ln st =>
    if CALLSTACK_SIZE ≤ st.callstack.i then .ub
    else
      (gotoln n ln { st with callstack :=
          ⟨st.callstack.i + 1, Function.update st.callstack.stack st.callstack.i st.c⟩ }).bind
      fun _ st =>
      match atoi st.rest with
      | none => .ub
      | some v => if v ≠ ln then .exit 46 st else .ok () st

/-- The source's `f_ret`. -/
def f_ret (st : State) : Res Unit :=
  if st.callstack.i = 0 then .exit 133 st
  else if CALLSTACK_SIZE < st.callstack.i then .ub
  else
    .ok () { st with c := st.callstack.stack (st.callstack.i - 1),
                     callstack := ⟨st.callstack.i - 1, st.callstack.stack⟩ }

/-- The `switch (*op)` of `f_if`: whether the relation named by the operator
characters `op0 op1` holds, `none` for a character that is no operator. -/
def relHolds (op0 op1 : Char) (e0 e1 : Int) : Option Bool :=
  if op0 = '=' then some (decide (e0 = e1))
  else if op0 = '<' then
    (if op1 = '=' then some (decide (e0 ≤ e1))
     else if op1 = '>' then some (decide (e0 ≠ e1))
     else some (decide (e0 < e1)))
  else if op0 = '>' then
    (if op1 = '=' then some (decide (e0 ≥ e1))
     else if op1 = '<' then some (decide (e0 ≠ e1))
     else some (decide (e0 > e1)))
  else none

/-- The source's `f_if`; `stmt` is the recursive call of the dispatcher. -/
def f_if (stmt : State → Res Unit) (n : Nat) (st : State) : Res Unit :=
  (skpspc st).bind fun _ st =>
  (expr n st).bind fun e0 st =>
  (skipWhile (fun ch => decide (ch.toNat < 60) || decide (ch.toNat > 62)) st).bind fun _ st =>
  match st.rest with
  | [] => .ub
  | op0 :: opt =>
    match opt with
    | [] => .ub
    | op1 :: _ =>
      let st1 := if op1.toNat > 59 ∧ op1.toNat < 63 then st.adv 2 else st.adv 1
      (expr n st1).bind fun e1 st =>
      (skpspc st).bind fun _ st =>
      match strspccmp ['T', 'H', 'E', 'N'] st.rest with
      | none => .ub
      | some eq =>
        (skpspc (if eq ≥ 0 then st.adv eq.toNat else st)).bind fun _ st =>
        match relHolds op0 op1 e0 e1 with
        | none => .exit 330 st
        | some true => stmt st
        | some false => skpto '\n' st

/-- The source's `f_rem`. -/
def f_rem (st : State) : Res Unit := skpto '\n' st

/-- The `while (1)` loop of the two-argument form of `f_list`. -/
def listLoop : Nat → Int → State → Res Unit
  | 0, _, _ => .oof
  | n + 1, ln1, st =>
    match atoi st.rest with
    | none => .ub
    | some v =>
      if v ≥ ln1 then skpto '\n' st
      else (skpto '\n' st).bind fun _ st => listLoop n ln1 (st.adv 1)

/-- The source's `f_list`. -/
def f_list (n : Nat) (st : State) : Res Unit :=
  (skpspc st).bind fun _ st =>
  match st.rest with
  | [] => .ub
  | ch :: _ =>
    if ch = '\n' then
      (if NUL ∈ st.s then .ok () { st with out := st.out ++ st.s.takeWhile (fun x => x != NUL) }
       else .ub)
    else
      (expr n st).bind fun ln0 st =>
      if ln0 = 0 then .exit 154 st
      else
        (skpspc st).bind fun _ st =>
        match st.rest with
        | [] => .ub
        | sep :: _ =>
          if sep ≠ ',' then
            let ret := st.c
            (gotoln n ln0 st).bind fun _ st =>
            let lnstart := st.rest
            (skpto '\n' st).bind fun _ st1 =>
            .ok () { st1 with out := st1.out ++ printf_s (st1.c.i - st.c.i) lnstart ++ ['\n'],
                              c := ret }
          else
            (expr n (st.adv 1)).bind fun ln1 st =>
            let ret := st.c
            (gotoln n ln0 st).bind fun _ st =>
            let start := st.rest
            (listLoop n ln1 st).bind fun _ st1 =>
            .ok () { st1 with out := st1.out ++ printf_s (st1.c.i - st.c.i) start ++ ['\n'],
                              c := ret }

/-- The source's `f_end`. -/
def f_end (st : State) : Res Unit := .exit 0 st

/-! ## Statement dispatcher and driver -/

/-- The table `KEYWORDS`: pattern and handler, in the order of the source. -/
def KEYWORDS (stmt : State → Res Unit) (n : Nat) : List (List Char × (State → Res Unit)) :=
  [ (['P', 'R', 'I', 'N', 'T'], f_pr n),
    (['P', 'R'], f_pr n),
    (['I', 'N', 'P', 'U', 'T'], f_in n),
    (['L', 'E', 'T'], f_let n),
    (['G', 'O', 'T', 'O'], f_goto n),
    (['G', 'O', 'S', 'U', 'B'], f_gosub n),
    (['R', 'E', 'T', 'U', 'R', 'N'], f_ret),
    (['I', 'F'], f_if stmt n),
    (['R', 'E', 'M'], f_rem),
    (['L', 'I', 'S', 'T'], f_list n),
    (['E', 'N', 'D'], f_end),
    ([], f_let n) ]

/-- The `for` loop of `stmt` over the entries of the table that are left. -/
def dispatch : List (List Char × (State → Res Unit)) → State → Res Unit
  | [], st => .ok () st
  | (kw, f) :: tbl, st =>
    match strspccmp kw st.rest with
    | none => .ub
    | some len => if len ≥ 0 then f (st.adv len.toNat) else dispatch tbl st

/-- The source's `stmt`. -/
def stmt : Nat → State → Res Unit
  | 0, _ => .oof
  | n + 1, st => dispatch (KEYWORDS (stmt n) n) st

/-- The source's `read_prog` for a file that opens: the contents and a NUL. -/
def read_prog (file : List Char) : List Char := file ++ [NUL]

/-- The state at the start of `main`'s loop: zeroed globals and statics,
`loc` pointing at `ZERO`, `c = s`. -/
def initState (file input : List Char) (rnd : Nat → Nat) : State :=
  { s := read_prog file, c := ⟨.src, 0⟩, vars := fun _ => 0,
    callstack := ⟨0, fun _ => ⟨.zero, 1⟩⟩, col := 0,
    buf := List.replicate 255 NUL, loc := ⟨.zero, 0⟩,
    out := [], inp := input, rnd := rnd, rndi := 0 }

/-- The `while (1)` loop of `main`. -/
def mainLoop : Nat → State → Res Unit
  | 0, _ => .oof
  | n + 1, st =>
    (skipWhile (fun ch => !ch.isUpper) st).bind fun _ st =>
    (stmt n st).bind fun _ st =>
    mainLoop n st

/-- The source's `main` on a program file that opens. -/
def main (n : Nat) (file input : List Char) (rnd : Nat → Nat) : Res Unit :=
  mainLoop n (initState file input rnd)

/-! ## Relations between runs -/

/-- Two outcomes of the same kind, with equal values and related states. -/
def Res.Rel {α : Type} (R : State → State → Prop) : Res α → Res α → Prop
  | .ok a s1, .ok b s2 => a = b ∧ R s1 s2
  | .exit m s1, .exit k s2 => m = k ∧ R s1 s2
  | .ub, .ub => True
  | .oof, .oof => True
  | _, _ => False

/-- A relation on states that the evaluator cannot tell apart: related states
show the same text at the cursor, the same variables and the same random
sequence, and stay related when both cursors advance or both draw a number. -/
structure Stable (R : State → State → Prop) : Prop where
  rest : ∀ a b, R a b → a.rest = b.rest
  vars : ∀ a b, R a b → a.vars = b.vars
  rnd : ∀ a b, R a b → a.rnd = b.rnd
  rndi : ∀ a b, R a b → a.rndi = b.rndi
  adv : ∀ a b k, R a b → R (a.adv k) (b.adv k)
  tick : ∀ a b, R a b → R { a with rndi := a.rndi + 1 } { b with rndi := b.rndi + 1 }

/-! ## Texts and values of the specification -/

/-- A run of `k` spaces. -/
def spaces (k : Nat) : List Char := List.replicate k ' '

/-- Value of a string of decimal digits. -/
def decVal (ds : List Char) : Nat := ds.foldl (fun a ch => a * 10 + (ch.toNat - 48)) 0

/-- A decimal literal: a nonempty string of decimal digits. -/
def IsLiteral (ds : List Char) : Prop := ds ≠ [] ∧ ∀ ch ∈ ds, ch.isDigit = true

instance (ds : List Char) : Decidable (IsLiteral ds) := by
  unfold IsLiteral
  infer_instance

/-- The operators of the tighter tier. -/
inductive MulOp where
  | mul
  | div
deriving DecidableEq

/-- The operators of the looser tier. -/
inductive AddOp where
  | add
  | sub
deriving DecidableEq

/-- A decimal literal written between `pre` and `post` spaces. -/
structure LitTxt where
  pre : Nat
  digits : List Char
  post : Nat

/-- A term: literals joined by `*` and `/`. -/
structure TermTxt where
  first : LitTxt
  more : List (MulOp × LitTxt)

/-- An expression without sign and parentheses: terms joined by `+` and `-`. -/
structure ExprTxt where
  first : TermTxt
  more : List (AddOp × TermTxt)

/-- The character of an operator. -/
def MulOp.char : MulOp → Char
  | .mul => '*'
  | .div => '/'

/-- The character of an operator. -/
def AddOp.char : AddOp → Char
  | .add => '+'
  | .sub => '-'

/-- The text of a literal. -/
def LitTxt.text (l : LitTxt) : List Char := spaces l.pre ++ (l.digits ++ spaces l.post)

/-- The text of the operators and literals that follow the first literal of a term. -/
def mulText : List (MulOp × LitTxt) → List Char
  | [] => []
  | (op, l) :: more => op.char :: (l.text ++ mulText more)

/-- The text of a term. -/
def TermTxt.text (t : TermTxt) : List Char := t.first.text ++ mulText t.more

/-- The text of the operators and terms that follow the first term of an expression. -/
def addText : List (AddOp × TermTxt) → List Char
  | [] => []
  | (op, t) :: more => op.char :: (t.text ++ addText more)

/-- The text of an expression. -/
def ExprTxt.text (e : ExprTxt) : List Char := e.first.text ++ addText e.more

/-- Result of one operator of the tighter tier, wrapped to 16 bits; the
division truncates toward zero. -/
def MulOp.apply : MulOp → Int → Int → Int
  | .mul, a, b => wrap16 (a * b)
  | .div, a, b => wrap16 (Int.tdiv a b)

/-- Result of one operator of the looser tier, wrapped to 16 bits. -/
def AddOp.apply : AddOp → Int → Int → Int
  | .add, a, b => wrap16 (a + b)
  | .sub, a, b => wrap16 (a - b)

/-- The value of a term: its operators applied left to right. -/
def TermTxt.val (t : TermTxt) : Int :=
  t.more.foldl (fun acc x => x.1.apply acc (decVal x.2.digits)) (decVal t.first.digits)

/-- The value of an expression: the terms first, then the operators of the
looser tier applied left to right. -/
def ExprTxt.val (e : ExprTxt) : Int :=
  e.more.foldl (fun acc x => x.1.apply acc x.2.val) e.first.val

/-- A literal of at most 32767. -/
def LitTxt.WF (l : LitTxt) : Prop := IsLiteral l.digits ∧ decVal l.digits ≤ 32767

/-- A term of such literals that divides by no zero. -/
def TermTxt.WF (t : TermTxt) : Prop :=
  t.first.WF ∧ ∀ x ∈ t.more, x.2.WF ∧ (x.1 = MulOp.div → decVal x.2.digits ≠ 0)

/-- An expression of such terms. -/
def ExprTxt.WF (e : ExprTxt) : Prop := e.first.WF ∧ ∀ x ∈ e.more, x.2.WF

instance (l : LitTxt) : Decidable l.WF := by
  unfold LitTxt.WF
  infer_instance

instance (t : TermTxt) : Decidable t.WF := by
  unfold TermTxt.WF
  infer_instance

instance (e : ExprTxt) : Decidable e.WF := by
  unfold ExprTxt.WF
  infer_instance

/-- Number of operators of an expression, a bound on the fuel its evaluation takes. -/
def ExprTxt.ops (e : ExprTxt) : Nat :=
  e.first.more.length + e.more.length + (e.more.map fun x => x.2.more.length).sum

/-- The state `st'` is `st` with the cursor moved forward inside its array and
some random numbers drawn; everything else is the same. -/
structure Moved (st st' : State) : Prop where
  s : st'.s = st.s
  region : st'.c.r = st.c.r
  index : st.c.i ≤ st'.c.i
  vars : st'.vars = st.vars
  callstack : st'.callstack = st.callstack
  col : st'.col = st.col
  buf : st'.buf = st.buf
  loc : st'.loc = st.loc
  out : st'.out = st.out
  inp : st'.inp = st.inp
  rnd : st'.rnd = st.rnd
  rndi : st.rndi ≤ st'.rndi

/-- The return cursors that are pending: the first `i` entries of the array. -/
def Callstack.pending (cs : Callstack) : List Ptr := (List.range cs.i).map cs.stack

/-- The patterns of the table `KEYWORDS` that are keywords (all but the empty one). -/
def keywordTexts : List (List Char) :=
  ((KEYWORDS (fun st => .ok () st) 0).map Prod.fst).filter (fun kw => kw ≠ [])

/-- A statement text that has the form of an assignment: after spaces, an
uppercase letter, then after spaces an `=`. -/
def bareAssign (txt : List Char) : Bool :=
  match txt.dropWhile (fun ch => ch == ' ') with
  | [] => false
  | v :: u => v.isUpper && (u.dropWhile (fun ch => ch == ' ')).head? == some '='

/-- The state at the start of a run on a program file, with no input. -/
def progState (file : List Char) : State := initState file [] (fun _ => 0)

/-- The status with which the assignment handler ends a statement text that is
no assignment: 18 when the first character after the spaces is no uppercase
letter, 20 when it is one and no `=` follows it. -/
def unmatchedStatus (txt : List Char) : Nat :=
  match txt.dropWhile (fun ch => ch == ' ') with
  | [] => 18
  | v :: _ => if v.isUpper then 20 else 18

/-- Two states that show the same text at the cursor and have the same
variables, call stack, output, output column and random numbers. -/
structure SameView (a b : State) : Prop where
  rest : a.rest = b.rest
  vars : a.vars = b.vars
  callstack : a.callstack = b.callstack
  out : a.out = b.out
  col : a.col = b.col
  rnd : a.rnd = b.rnd
  rndi : a.rndi = b.rndi

/-- The six relational operators of IF. -/
inductive RelOp where
  | eq
  | lt
  | le
  | ne
  | gt
  | ge
deriving DecidableEq

/-- The text of a relational operator. -/
def RelOp.text : RelOp → List Char
  | .eq => ['=']
  | .lt => ['<']
  | .le => ['<', '=']
  | .ne => ['<', '>']
  | .gt => ['>']
  | .ge => ['>', '=']

/-- The relation a relational operator names. -/
def RelOp.holds : RelOp → Int → Int → Bool
  | .eq, a, b => decide (a = b)
  | .lt, a, b => decide (a < b)
  | .le, a, b => decide (a ≤ b)
  | .ne, a, b => decide (a ≠ b)
  | .gt, a, b => decide (a > b)
  | .ge, a, b => decide (a ≥ b)

/-- The optional keyword THEN: absent, or written with `g1`, `g2`, `g3` spaces
between its letters and `b` spaces after it. -/
def thenText : Option (Nat × Nat × Nat × Nat) → List Char
  | none => []
  | some (g1, g2, g3, b) =>
    'T' :: (spaces g1 ++ 'H' :: (spaces g2 ++ 'E' :: (spaces g3 ++ 'N' :: spaces b)))

/-- A line of a program: the digits of its number and the rest of the line,
without the newline that ends it. -/
structure Line where
  num : List Char
  body : List Char

/-- The text of a line, with its newline. -/
def Line.text (l : Line) : List Char := l.num ++ (l.body ++ ['\n'])

/-- The number of a line. -/
def Line.number (l : Line) : Nat := decVal l.num

/-- A line starts with a decimal number that fits `int`; what follows the
number starts with no digit and holds no newline. -/
def Line.WF (l : Line) : Prop :=
  IsLiteral l.num ∧ decVal l.num ≤ INT_MAX ∧ '\n' ∉ l.body ∧
    ∀ x ∈ l.body.head?, x.isDigit = false

instance (l : Line) : Decidable l.WF := by
  unfold Line.WF
  infer_instance

/-- The text of a program: its lines one after the other. -/
def progText : List Line → List Char
  | [] => []
  | l :: p => l.text ++ progText p

/-- A newline-terminated program whose line numbers increase in source order. -/
def IsProgram (p : List Line) : Prop :=
  (∀ l ∈ p, l.WF) ∧ (p.map Line.number).Pairwise (fun a b => a < b)

instance (p : List Line) : Decidable (IsProgram p) := by
  unfold IsProgram
  infer_instance

/-- Whether a run ended in undefined behaviour. -/
def Res.undefined {α : Type} : Res α → Bool
  | .ub => true
  | _ => false

/-- The program `10 LET A=k`, `20 PRINT A`, `30 END`, with `k` written in decimal. -/
def letPrintEnd (k : Nat) : List Char :=
  "10 LET A=".toList ++ (Nat.toDigits 10 k ++ "\n20 PRINT A\n30 END\n".toList)

/-- The outcome `r2` is `r1` or `r1` ran out of fuel. -/
def Res.le {α : Type} (r1 r2 : Res α) : Prop := r1 = .oof ∨ r1 = r2

/-- The cursor reached by parsing the arguments of a LIST statement and
nothing else: after the spaces when there is no argument, after the spaces
that follow the first expression when there is one argument, after the second
expression when there are two. -/
def listArgsEnd (n : Nat) (st : State) : Option Ptr :=
  match skpspc st with
  | .ok _ s0 =>
    match s0.rest with
    | [] => none
    | ch :: _ =>
      if ch = '\n' then some s0.c
      else
        match expr n s0 with
        | .ok _ s1 =>
          match skpspc s1 with
          | .ok _ s2 =>
            match s2.rest with
            | [] => none
            | sep :: _ =>
              if sep ≠ ',' then some s2.c
              else
                match expr n (s2.adv 1) with
                | .ok _ s3 => some s3.c
                | _ => none
          | _ => none
        | _ => none
  | _ => none

/-- The first `k` characters of the text `t`, with their spaces removed, are the
pattern `p`, and the last of them is no space: it is the character matched
against the last character of the pattern. -/
def Matches (p t : List Char) (k : Nat) : Prop :=
  k ≤ t.length ∧ (t.take k).filter (fun ch => ch != ' ') = p ∧ (t.take k).getLast? ≠ some ' '

instance (p t : List Char) (k : Nat) : Decidable (Matches p t k) := by
  unfold Matches
  infer_instance

/-- The statuses with which a run can end. -/
def statuses : List Nat := [0, 9, 18, 20, 37, 46, 104, 123, 133, 154, 188, 259, 303]

/-- An outcome that, when it is an exit, has one of the statuses of `statuses`. -/
def Res.exitsIn {α : Type} : Res α → Prop
  | .exit m _ => m ∈ statuses
  | _ => True

/-- The 26 variables hold values of the type `short`. -/
def State.shortVars (st : State) : Prop := ∀ i, -32768 ≤ st.vars i ∧ st.vars i ≤ 32767

/-- A value of the type `short` in a state whose variables hold such values. -/
def shortRes (v : Int) (st : State) : Prop := (-32768 ≤ v ∧ v ≤ 32767) ∧ st.shortVars

/-- An outcome that, when it is a normal return, satisfies `P`. -/
def Res.okAll {α : Type} (P : α → State → Prop) : Res α → Prop
  | .ok a st => P a st
  | _ => True

set_option maxRecDepth 100000

/-! ## Basic facts -/

@[simp] theorem Res.bind_ok {α β : Type} (a : α) (st : State) (k : α → State → Res β) :
    (Res.ok a st).bind k = k a st := rfl

@[simp] theorem Res.bind_exit {α β : Type} (n : Nat) (st : State) (k : α → State → Res β) :
    (Res.exit n st : Res α).bind k = .exit n st := rfl

@[simp] theorem Res.bind_ub {α β : Type} (k : α → State → Res β) :
    (Res.ub : Res α).bind k = .ub := rfl

@[simp] theorem Res.bind_oof {α β : Type} (k : α → State → Res β) :
    (Res.oof : Res α).bind k = .oof := rfl

@[simp] theorem State.rest_adv (st : State) (k : Nat) : (st.adv k).rest = st.rest.drop k := by
  simp [State.rest, State.adv, State.from, State.mem, List.drop_drop, Nat.add_comm]

@[simp] theorem State.adv_zero (st : State) : st.adv 0 = st := rfl

@[simp] theorem State.adv_adv (st : State) (a b : Nat) : (st.adv a).adv b = st.adv (a + b) := by
  simp [State.adv, Nat.add_assoc]

theorem scan_append {p : Char → Bool} (w : List Char) (ch : Char) (t : List Char)
    (hw : ∀ x ∈ w, p x = true) (hch : p ch = false) :
    scan p (w ++ ch :: t) = some w.length := by
  induction w with
  | nil => simp [scan, hch]
  | cons x w ih =>
    have hx : p x = true := hw x (List.mem_cons_self _ _)
    have ih2 := ih (fun y hy => hw y (List.mem_cons_of_mem _ hy))
    simp [scan, hx, ih2]

theorem scan_head {p : Char → Bool} (ch : Char) (t : List Char) (hch : p ch = false) :
    scan p (ch :: t) = some 0 := by
  simp [scan, hch]

theorem skipWhile_append {p : Char → Bool} (st : State) (w : List Char) (ch : Char)
    (t : List Char) (h : st.rest = w ++ ch :: t)
    (hw : ∀ x ∈ w, p x = true) (hch : p ch = false) :
    skipWhile p st = .ok () (st.adv w.length) := by
  simp [skipWhile, h, scan_append w ch t hw hch]


/-! ## Two runs of the evaluator on related states -/

theorem Res.Rel.bind {α β : Type} {R : State → State → Prop} {r1 r2 : Res α}
    {k1 k2 : α → State → Res β} (h : Res.Rel R r1 r2)
    (hk : ∀ a s1 s2, R s1 s2 → Res.Rel R (k1 a s1) (k2 a s2)) :
    Res.Rel R (r1.bind k1) (r2.bind k2) := by
  cases r1 <;> cases r2 <;> simp only [Res.Rel] at h <;> try exact h.elim
  · obtain ⟨rfl, h⟩ := h
    exact hk _ _ _ h
  · exact h
  · trivial
  · trivial

theorem skipWhile_rel {R : State → State → Prop} (hR : Stable R) (p : Char → Bool)
    {a b : State} (h : R a b) : Res.Rel R (skipWhile p a) (skipWhile p b) := by
  unfold skipWhile
  rw [hR.rest a b h]
  cases scan p b.rest with
  | none => trivial
  | some k => exact ⟨rfl, hR.adv a b k h⟩

theorem factor_rel {R : State → State → Prop} (hR : Stable R) {e1 e2 : State → Res Int}
    (he : ∀ a b, R a b → Res.Rel R (e1 a) (e2 b)) {a b : State} (h : R a b) :
    Res.Rel R (factor e1 a) (factor e2 b) := by
  unfold factor
  refine Res.Rel.bind (skipWhile_rel hR _ h) ?_
  intro _ s1 s2 h12
  rw [hR.rest s1 s2 h12]
  cases s2.rest with
  | nil => trivial
  | cons ch t =>
    dsimp only
    split_ifs with h1 h2 h3
    · refine Res.Rel.bind (he _ _ (hR.adv _ _ 1 h12)) ?_
      intro v s3 s4 h34
      refine Res.Rel.bind (skipWhile_rel hR _ h34) ?_
      intro _ s5 s6 h56
      exact ⟨rfl, hR.adv _ _ 1 h56⟩
    · cases strncmpEq ['R', 'N', 'D'] (ch :: t) with
      | none => trivial
      | some bR =>
        cases bR with
        | true =>
          dsimp only
          refine Res.Rel.bind (skipWhile_rel hR _ h12) ?_
          intro _ s3 s4 h34
          refine Res.Rel.bind (he _ _ (hR.adv _ _ 1 h34)) ?_
          intro mx s5 s6 h56
          split_ifs with h0
          · exact ⟨rfl, h56⟩
          · have ht := hR.tick _ _ h56
            rw [hR.rnd _ _ h56, hR.rndi _ _ h56] at ht ⊢
            refine Res.Rel.bind (skipWhile_rel hR _ ht) ?_
            intro _ s7 s8 h78
            exact ⟨rfl, hR.adv _ _ 1 h78⟩
        | false =>
          dsimp only
          cases strncmpEq ['U', 'S', 'R'] (ch :: t) with
          | none => trivial
          | some bU =>
            cases bU with
            | true => exact ⟨rfl, h12⟩
            | false => exact ⟨by rw [hR.vars _ _ h12], hR.adv _ _ 1 h12⟩
    · cases atoi (ch :: t) <;> cases scan Char.isDigit (ch :: t) <;> try trivial
      exact ⟨rfl, hR.adv _ _ _ h12⟩
    · trivial

theorem termLoop_rel {R : State → State → Prop} (hR : Stable R) {e1 e2 : State → Res Int}
    (he : ∀ a b, R a b → Res.Rel R (e1 a) (e2 b)) (n : Nat) :
    ∀ (f : Int) (a b : State), R a b → Res.Rel R (termLoop e1 n f a) (termLoop e2 n f b) := by
  induction n with
  | zero => intro f a b _; trivial
  | succ n ih =>
    intro f a b h
    unfold termLoop
    refine Res.Rel.bind (skipWhile_rel hR _ h) ?_
    intro _ s1 s2 h12
    rw [hR.rest s1 s2 h12]
    cases s2.rest with
    | nil => trivial
    | cons ch t =>
      dsimp only
      split_ifs with h1 h2
      · refine Res.Rel.bind (factor_rel hR he (hR.adv _ _ 1 h12)) ?_
        intro g s3 s4 h34
        exact ih _ _ _ h34
      · refine Res.Rel.bind (factor_rel hR he (hR.adv _ _ 1 h12)) ?_
        intro g s3 s4 h34
        split_ifs
        · trivial
        · exact ih _ _ _ h34
      · exact ⟨rfl, h12⟩

theorem term_rel {R : State → State → Prop} (hR : Stable R) {e1 e2 : State → Res Int}
    (he : ∀ a b, R a b → Res.Rel R (e1 a) (e2 b)) (n : Nat) {a b : State} (h : R a b) :
    Res.Rel R (term e1 n a) (term e2 n b) := by
  unfold term
  refine Res.Rel.bind (skipWhile_rel hR _ h) ?_
  intro _ s1 s2 h12
  refine Res.Rel.bind (factor_rel hR he h12) ?_
  intro f s3 s4 h34
  exact termLoop_rel hR he n f _ _ h34

theorem unsignedLoop_rel {R : State → State → Prop} (hR : Stable R) {e1 e2 : State → Res Int}
    (he : ∀ a b, R a b → Res.Rel R (e1 a) (e2 b)) (m n : Nat) :
    ∀ (t : Int) (a b : State), R a b →
      Res.Rel R (unsignedLoop e1 m n t a) (unsignedLoop e2 m n t b) := by
  induction n with
  | zero => intro t a b _; trivial
  | succ n ih =>
    intro t a b h
    unfold unsignedLoop
    refine Res.Rel.bind (skipWhile_rel hR _ h) ?_
    intro _ s1 s2 h12
    rw [hR.rest s1 s2 h12]
    cases s2.rest with
    | nil => trivial
    | cons ch u =>
      dsimp only
      split_ifs with h1 h2
      · refine Res.Rel.bind (term_rel hR he m (hR.adv _ _ 1 h12)) ?_
        intro x s3 s4 h34
        exact ih _ _ _ h34
      · refine Res.Rel.bind (term_rel hR he m (hR.adv _ _ 1 h12)) ?_
        intro x s3 s4 h34
        exact ih _ _ _ h34
      · exact ⟨rfl, h12⟩

theorem unsigned_expr_rel {R : State → State → Prop} (hR : Stable R) {e1 e2 : State → Res Int}
    (he : ∀ a b, R a b → Res.Rel R (e1 a) (e2 b)) (n : Nat) {a b : State} (h : R a b) :
    Res.Rel R (unsigned_expr e1 n a) (unsigned_expr e2 n b) := by
  unfold unsigned_expr
  refine Res.Rel.bind (skipWhile_rel hR _ h) ?_
  intro _ s1 s2 h12
  refine Res.Rel.bind (term_rel hR he n h12) ?_
  intro f s3 s4 h34
  exact unsignedLoop_rel hR he n n f _ _ h34

theorem expr_rel {R : State → State → Prop} (hR : Stable R) (n : Nat) :
    ∀ (a b : State), R a b → Res.Rel R (expr n a) (expr n b) := by
  induction n with
  | zero => intro a b _; trivial
  | succ n ih =>
    intro a b h
    unfold expr
    refine Res.Rel.bind (skipWhile_rel hR _ h) ?_
    intro _ s1 s2 h12
    rw [hR.rest s1 s2 h12]
    cases s2.rest with
    | nil => trivial
    | cons ch u =>
      dsimp only
      refine Res.Rel.bind (unsigned_expr_rel hR ih n ?_) ?_
      · split_ifs
        · exact hR.adv _ _ 1 h12
        · exact h12
      · intro x s3 s4 h34
        exact ⟨rfl, h34⟩

/-! ## Characters and digits -/

theorem isDigit_iff (c : Char) : c.isDigit = true ↔ 48 ≤ c.toNat ∧ c.toNat ≤ 57 := by
  simp [Char.isDigit, Char.toNat, UInt32.le_def, BitVec.le_def, UInt32.toNat]

theorem isUpper_iff (c : Char) : c.isUpper = true ↔ 65 ≤ c.toNat ∧ c.toNat ≤ 90 := by
  simp [Char.isUpper, Char.toNat, UInt32.le_def, BitVec.le_def, UInt32.toNat]

theorem isspace_of_isDigit {c : Char} (h : c.isDigit = true) : isspace c = false := by
  have h1 := (isDigit_iff c).1 h
  have h2 : c ≠ ' ' := by
    rintro rfl
    exact absurd h (by decide)
  simp only [isspace, Bool.or_eq_false_iff, beq_eq_false_iff_ne, ne_eq, h2, not_false_eq_true,
    Bool.and_eq_false_imp, decide_eq_true_eq, decide_eq_false_iff_not, true_and]
  omega

theorem mem_spaces {x : Char} {k : Nat} (h : x ∈ spaces k) : x = ' ' :=
  (List.mem_replicate.1 h).2

@[simp] theorem length_spaces (k : Nat) : (spaces k).length = k := by
  simp [spaces]

theorem scan_spaces (k : Nat) (ch : Char) (t : List Char) (hch : ch ≠ ' ') :
    scan (fun x => x == ' ') (spaces k ++ ch :: t) = some k := by
  have h := scan_append (p := fun x => x == ' ') (spaces k) ch t
    (fun x hx => by simp [mem_spaces hx]) (by simpa using hch)
  simpa using h

theorem skpspc_spaces (st : State) (k : Nat) (ch : Char) (t : List Char)
    (h : st.rest = spaces k ++ ch :: t) (hch : ch ≠ ' ') :
    skpspc st = .ok () (st.adv k) := by
  simp [skpspc, skipWhile, h, scan_spaces k ch t hch]

theorem skpspc_head (st : State) (ch : Char) (t : List Char)
    (h : st.rest = ch :: t) (hch : ch ≠ ' ') :
    skpspc st = .ok () st := by
  have := skpspc_spaces st 0 ch t (by simpa [spaces] using h) hch
  simpa using this

theorem rest_adv_append {st : State} {w t : List Char} (h : st.rest = w ++ t) :
    (st.adv w.length).rest = t := by
  simp [h]

theorem rest_adv_spaces {st : State} {k : Nat} {t : List Char} (h : st.rest = spaces k ++ t) :
    (st.adv k).rest = t := by
  have := rest_adv_append h
  simpa using this

theorem rest_adv_one {st : State} {ch : Char} {t : List Char} (h : st.rest = ch :: t) :
    (st.adv 1).rest = t := by
  simp [h]

theorem digitsVal_append (ds : List Char) (x : Char) (t : List Char)
    (hds : ∀ ch ∈ ds, ch.isDigit = true) (hx : x.isDigit = false) :
    ∀ acc : Nat, digitsVal (ds ++ x :: t) acc
      = some (ds.foldl (fun a ch => a * 10 + (ch.toNat - 48)) acc) := by
  induction ds with
  | nil => intro acc; simp [digitsVal, hx]
  | cons d ds ih =>
    intro acc
    have hd : d.isDigit = true := hds d (List.mem_cons_self _ _)
    simp [digitsVal, hd, ih (fun y hy => hds y (List.mem_cons_of_mem _ hy))]

theorem atoi_literal (ds : List Char) (x : Char) (t : List Char) (hds : IsLiteral ds)
    (hx : x.isDigit = false) (hmax : decVal ds ≤ INT_MAX) :
    atoi (ds ++ x :: t) = some (decVal ds : Int) := by
  obtain ⟨hne, hall⟩ := hds
  cases ds with
  | nil => exact absurd rfl hne
  | cons d ds =>
    have hd : d.isDigit = true := hall d (List.mem_cons_self _ _)
    have h1 : d ≠ '-' := by
      rintro rfl
      exact absurd hd (by decide)
    have h2 : d ≠ '+' := by
      rintro rfl
      exact absurd hd (by decide)
    have h3 := digitsVal_append (d :: ds) x t hall hx 0
    simp only [List.cons_append] at h3
    simp only [atoi, List.cons_append, scan, isspace_of_isDigit hd, Bool.false_eq_true,
      if_false, List.drop_zero, h1, h2, h3, Option.bind]
    simp only [decVal] at hmax
    simp only [hmax, if_true, decVal]

theorem scan_digits (ds : List Char) (x : Char) (t : List Char)
    (hds : ∀ ch ∈ ds, ch.isDigit = true) (hx : x.isDigit = false) :
    scan Char.isDigit (ds ++ x :: t) = some ds.length :=
  scan_append ds x t hds hx

theorem wrap16_of_range {v : Int} (h0 : -32768 ≤ v) (h1 : v ≤ 32767) : wrap16 v = v := by
  unfold wrap16
  omega

/-- `factor` on a literal returns its value and leaves the cursor after the digits. -/
theorem factor_literal (ex : State → Res Int) (st : State) (p : Nat) (ds : List Char) (x : Char)
    (t : List Char) (h : st.rest = spaces p ++ (ds ++ x :: t)) (hds : IsLiteral ds)
    (hx : x.isDigit = false) (hmax : decVal ds ≤ INT_MAX) :
    factor ex st = .ok (wrap16 (decVal ds)) (st.adv (p + ds.length)) := by
  obtain ⟨hne, hall⟩ := hds
  cases ds with
  | nil => exact absurd rfl hne
  | cons d ds =>
    have hd : d.isDigit = true := hall d (List.mem_cons_self _ _)
    have hsp : d ≠ ' ' := by
      rintro rfl
      exact absurd hd (by decide)
    have hpar : d ≠ '(' := by
      rintro rfl
      exact absurd hd (by decide)
    have hup : d.isUpper = false := by
      have h1 := (isDigit_iff d).1 hd
      cases hu : d.isUpper with
      | false => rfl
      | true =>
        have h2 := (isUpper_iff d).1 hu
        omega
    have h' : st.rest = spaces p ++ d :: (ds ++ x :: t) := by simpa using h
    have hr : (st.adv p).rest = (d :: ds) ++ x :: t := by
      simpa using rest_adv_spaces h'
    unfold factor
    rw [skpspc_spaces st p d _ h' hsp]
    simp only [Res.bind_ok]
    rw [hr]
    simp only [List.cons_append, hpar, if_false, hup, Bool.false_eq_true, hd, if_true]
    have ha := atoi_literal (d :: ds) x t ⟨hne, hall⟩ hx hmax
    have hs := scan_digits (d :: ds) x t hall hx
    simp only [List.cons_append] at ha hs
    rw [ha, hs]
    simp

/-! ## Evaluation of sign-free, parenthesis-free expressions -/

theorem mulOp_char_ne_space (op : MulOp) : op.char ≠ ' ' := by
  cases op <;> decide

theorem addOp_char_ne_space (op : AddOp) : op.char ≠ ' ' := by
  cases op <;> decide

theorem mulOp_char_not_digit (op : MulOp) : op.char.isDigit = false := by
  cases op <;> decide

theorem addOp_char_not_digit (op : AddOp) : op.char.isDigit = false := by
  cases op <;> decide

/-- A text that starts with spaces and then a character that is no digit
starts with a character that is no digit. -/
theorem spaces_head_not_digit (k : Nat) (ch : Char) (t : List Char) (hch : ch.isDigit = false) :
    ∃ x u, spaces k ++ ch :: t = x :: u ∧ x.isDigit = false := by
  cases k with
  | zero => exact ⟨ch, t, by simp [spaces], hch⟩
  | succ k => exact ⟨' ', spaces k ++ ch :: t, by simp [spaces, List.replicate_succ], by decide⟩

theorem mulText_head (more : List (MulOp × LitTxt)) (ch : Char) (t : List Char) :
    ∃ x u, mulText more ++ ch :: t = x :: u ∧ (x = ch ∨ ∃ op : MulOp, x = op.char) := by
  cases more with
  | nil => exact ⟨ch, t, by simp [mulText], Or.inl rfl⟩
  | cons y more =>
    obtain ⟨op, l⟩ := y
    exact ⟨op.char, l.text ++ (mulText more ++ ch :: t), by simp [mulText], Or.inr ⟨op, rfl⟩⟩

/-- The loop of `term` on the rest of a well-formed term applies the operators
left to right and stops at the first character that is neither a space nor an
operator of the tier. -/
theorem termLoop_mulText (ex : State → Res Int) (more : List (MulOp × LitTxt)) :
    ∀ (n : Nat) (f : Int) (st : State) (b : Nat) (ch : Char) (t : List Char),
      (∀ x ∈ more, x.2.WF ∧ (x.1 = MulOp.div → decVal x.2.digits ≠ 0)) →
      st.rest = spaces b ++ (mulText more ++ ch :: t) →
      ch ≠ ' ' → ch ≠ '*' → ch ≠ '/' → ch.isDigit = false → more.length < n →
      termLoop ex n f st
        = .ok (more.foldl (fun acc x => x.1.apply acc (decVal x.2.digits)) f)
            (st.adv (b + (mulText more).length)) := by
  induction more with
  | nil =>
    intro n f st b ch t _ h h1 h2 h3 _ hn
    obtain ⟨n, rfl⟩ : ∃ m, n = m + 1 := ⟨n - 1, by simp at hn; omega⟩
    have h' : st.rest = spaces b ++ ch :: t := by simpa [mulText] using h
    unfold termLoop
    rw [skpspc_spaces st b ch t h' h1]
    simp only [Res.bind_ok]
    rw [rest_adv_spaces h']
    simp [h2, h3, mulText]
  | cons y more ih =>
    intro n f st b ch t hwf h h1 h2 h3 h4 hn
    obtain ⟨op, l⟩ := y
    obtain ⟨n, rfl⟩ : ∃ m, n = m + 1 := ⟨n - 1, by simp at hn; omega⟩
    have hy := hwf (op, l) (List.mem_cons_self _ _)
    obtain ⟨⟨hlit, hle⟩, hdiv⟩ := hy
    simp only at hlit hle hdiv
    obtain ⟨y, v, hyv, hy⟩ := mulText_head more ch t
    have hynd : y.isDigit = false := by
      rcases hy with rfl | ⟨o, rfl⟩
      · exact h4
      · exact mulOp_char_not_digit o
    obtain ⟨x, u, hxu, hx⟩ := spaces_head_not_digit l.post y v hynd
    have h' : st.rest = spaces b ++ op.char :: (spaces l.pre ++ (l.digits ++ x :: u)) := by
      rw [h, ← hxu, ← hyv]
      simp [mulText, LitTxt.text]
    have hr1 : (st.adv b).rest = op.char :: (spaces l.pre ++ (l.digits ++ x :: u)) :=
      rest_adv_spaces h'
    have hr2 : ((st.adv b).adv 1).rest = spaces l.pre ++ (l.digits ++ x :: u) :=
      rest_adv_one hr1
    have hfac := factor_literal ex ((st.adv b).adv 1) l.pre l.digits x u hr2 hlit hx
      (by unfold INT_MAX; omega)
    have hr3 : (((st.adv b).adv 1).adv (l.pre + l.digits.length)).rest
        = spaces l.post ++ (mulText more ++ ch :: t) := by
      rw [State.rest_adv, hr2, ← hxu, ← hyv]
      have := List.drop_left (spaces l.pre ++ l.digits) (spaces l.post ++ (mulText more ++ ch :: t))
      simpa using this
    have hw : wrap16 (decVal l.digits : Int) = (decVal l.digits : Int) :=
      wrap16_of_range (by omega) (by omega)
    have hrec := fun g => ih n g _ l.post ch t
      (fun z hz => hwf z (List.mem_cons_of_mem _ hz)) hr3 h1 h2 h3 h4
      (by simp at hn; omega)
    unfold termLoop
    rw [skpspc_spaces st b op.char _ h' (mulOp_char_ne_space op)]
    simp only [Res.bind_ok]
    rw [hr1]
    cases op with
    | mul =>
      simp only [MulOp.char, if_true]
      rw [hfac]
      simp only [Res.bind_ok, hw]
      rw [hrec]
      simp [MulOp.apply, mulText, LitTxt.text, MulOp.char]
      exact congrArg st.adv (by omega)
    | div =>
      have hnz : (decVal l.digits : Int) ≠ 0 := by
        have := hdiv rfl
        exact_mod_cast this
      simp only [MulOp.char, show ('/' : Char) ≠ '*' by decide, if_false, if_true]
      rw [hfac]
      simp only [Res.bind_ok, hw, hnz, if_false]
      rw [hrec]
      simp [MulOp.apply, mulText, LitTxt.text, MulOp.char]
      exact congrArg st.adv (by omega)

/-- `term` on a well-formed term returns its value and leaves the cursor on the
character that follows the term. -/
theorem term_text (ex : State → Res Int) (tm : TermTxt) (n : Nat) (st : State) (ch : Char)
    (t : List Char) (hwf : tm.WF) (h : st.rest = tm.text ++ ch :: t)
    (h1 : ch ≠ ' ') (h2 : ch ≠ '*') (h3 : ch ≠ '/') (h4 : ch.isDigit = false)
    (hn : tm.more.length < n) :
    term ex n st = .ok tm.val (st.adv tm.text.length) := by
  obtain ⟨⟨hlit, hle⟩, hmore⟩ := hwf
  obtain ⟨y, v, hyv, hy⟩ := mulText_head tm.more ch t
  have hynd : y.isDigit = false := by
    rcases hy with rfl | ⟨o, rfl⟩
    · exact h4
    · exact mulOp_char_not_digit o
  obtain ⟨x, u, hxu, hx⟩ := spaces_head_not_digit tm.first.post y v hynd
  have h' : st.rest = spaces tm.first.pre ++ (tm.first.digits ++ x :: u) := by
    rw [h, ← hxu, ← hyv]
    simp [TermTxt.text, LitTxt.text]
  obtain ⟨d, ds, hds⟩ : ∃ d ds, tm.first.digits = d :: ds := by
    cases hd : tm.first.digits with
    | nil => exact absurd hd hlit.1
    | cons d ds => exact ⟨d, ds, rfl⟩
  have hdsp : d ≠ ' ' := by
    rintro rfl
    have := hlit.2 ' ' (by rw [hds]; exact List.mem_cons_self _ _)
    exact absurd this (by decide)
  have h'' : st.rest = spaces tm.first.pre ++ d :: (ds ++ x :: u) := by
    rw [h', hds]
    simp
  have hr1 : (st.adv tm.first.pre).rest = spaces 0 ++ (tm.first.digits ++ x :: u) := by
    rw [rest_adv_spaces h']
    simp [spaces]
  have hfac := factor_literal ex (st.adv tm.first.pre) 0 tm.first.digits x u hr1 hlit hx
    (by unfold INT_MAX; omega)
  have hr2 : ((st.adv tm.first.pre).adv (0 + tm.first.digits.length)).rest
      = spaces tm.first.post ++ (mulText tm.more ++ ch :: t) := by
    rw [State.rest_adv, hr1, ← hxu, ← hyv]
    simp [spaces]
  have hw : wrap16 (decVal tm.first.digits : Int) = (decVal tm.first.digits : Int) :=
    wrap16_of_range (by omega) (by omega)
  have hloop := termLoop_mulText ex tm.more n (decVal tm.first.digits) _ tm.first.post ch t
    hmore hr2 h1 h2 h3 h4 hn
  unfold term
  rw [skpspc_spaces st tm.first.pre d _ h'' hdsp]
  simp only [Res.bind_ok]
  rw [hfac]
  simp only [Res.bind_ok, hw]
  rw [hloop]
  simp [TermTxt.val, TermTxt.text, LitTxt.text]
  exact congrArg st.adv (by omega)

theorem addText_head (more : List (AddOp × TermTxt)) (ch : Char) (t : List Char) :
    ∃ x u, addText more ++ ch :: t = x :: u ∧ (x = ch ∨ ∃ op : AddOp, x = op.char) := by
  cases more with
  | nil => exact ⟨ch, t, by simp [addText], Or.inl rfl⟩
  | cons y more =>
    obtain ⟨op, tm⟩ := y
    exact ⟨op.char, tm.text ++ (addText more ++ ch :: t), by simp [addText], Or.inr ⟨op, rfl⟩⟩

/-- The loop of `unsigned_expr` on the rest of a well-formed expression applies
the operators left to right and stops at the character that follows. -/
theorem unsignedLoop_addText (ex : State → Res Int) (m : Nat) (more : List (AddOp × TermTxt)) :
    ∀ (n : Nat) (acc : Int) (st : State) (ch : Char) (t : List Char),
      (∀ x ∈ more, x.2.WF) → (∀ x ∈ more, x.2.more.length < m) →
      st.rest = addText more ++ ch :: t →
      ch ≠ ' ' → ch ≠ '+' → ch ≠ '-' → ch ≠ '*' → ch ≠ '/' → ch.isDigit = false →
      more.length < n →
      unsignedLoop ex m n acc st
        = .ok (more.foldl (fun a x => x.1.apply a x.2.val) acc) (st.adv (addText more).length) := by
  induction more with
  | nil =>
    intro n acc st ch t _ _ h h1 h2 h3 _ _ _ hn
    obtain ⟨n, rfl⟩ : ∃ k, n = k + 1 := ⟨n - 1, by simp at hn; omega⟩
    have h' : st.rest = ch :: t := by simpa [addText] using h
    unfold unsignedLoop
    rw [skpspc_head st ch t h' h1]
    simp only [Res.bind_ok]
    rw [h']
    simp [h2, h3, addText]
  | cons y more ih =>
    intro n acc st ch t hwf hm h h1 h2 h3 h4 h5 h6 hn
    obtain ⟨op, tm⟩ := y
    obtain ⟨n, rfl⟩ : ∃ k, n = k + 1 := ⟨n - 1, by simp at hn; omega⟩
    have htm : tm.WF := hwf (op, tm) (List.mem_cons_self _ _)
    have htmm : tm.more.length < m := hm (op, tm) (List.mem_cons_self _ _)
    obtain ⟨y, v, hyv, hy⟩ := addText_head more ch t
    have hy1 : y ≠ ' ' ∧ y ≠ '*' ∧ y ≠ '/' ∧ y.isDigit = false := by
      rcases hy with rfl | ⟨o, rfl⟩
      · exact ⟨h1, h4, h5, h6⟩
      · cases o <;> exact ⟨by decide, by decide, by decide, by decide⟩
    have h' : st.rest = op.char :: (tm.text ++ y :: v) := by
      rw [h, ← hyv]
      simp [addText]
    have hr1 : (st.adv 1).rest = tm.text ++ y :: v := rest_adv_one h'
    have hterm := term_text ex tm m (st.adv 1) y v htm hr1 hy1.1 hy1.2.1 hy1.2.2.1 hy1.2.2.2 htmm
    have hr2 : ((st.adv 1).adv tm.text.length).rest = addText more ++ ch :: t := by
      rw [hyv]
      exact rest_adv_append hr1
    have hrec := fun a => ih n a _ ch t (fun z hz => hwf z (List.mem_cons_of_mem _ hz))
      (fun z hz => hm z (List.mem_cons_of_mem _ hz)) hr2 h1 h2 h3 h4 h5 h6
      (by simp at hn; omega)
    unfold unsignedLoop
    rw [skpspc_head st op.char _ h' (addOp_char_ne_space op)]
    simp only [Res.bind_ok]
    rw [h']
    cases op with
    | add =>
      simp only [AddOp.char, if_true]
      rw [hterm]
      simp only [Res.bind_ok]
      rw [hrec]
      simp [AddOp.apply, addText, AddOp.char]
      exact congrArg st.adv (by omega)
    | sub =>
      simp only [AddOp.char, show ('-' : Char) ≠ '+' by decide, if_false, if_true]
      rw [hterm]
      simp only [Res.bind_ok]
      rw [hrec]
      simp [AddOp.apply, addText, AddOp.char]
      exact congrArg st.adv (by omega)

theorem wrap16_range (x : Int) : -32768 ≤ wrap16 x ∧ wrap16 x ≤ 32767 := by
  unfold wrap16
  omega

theorem foldl_invariant {α β : Type} (P : β → Prop) (f : β → α → β) (l : List α)
    (hf : ∀ b a, P (f b a)) : ∀ b, P b → P (l.foldl f b) := by
  induction l with
  | nil => intro b hb; exact hb
  | cons a l ih => intro b _; exact ih _ (hf b a)

theorem mulOp_apply_range (op : MulOp) (a b : Int) :
    -32768 ≤ op.apply a b ∧ op.apply a b ≤ 32767 := by
  cases op <;> exact wrap16_range _

theorem addOp_apply_range (op : AddOp) (a b : Int) :
    -32768 ≤ op.apply a b ∧ op.apply a b ≤ 32767 := by
  cases op <;> exact wrap16_range _

theorem termTxt_val_range (tm : TermTxt) (h : tm.WF) : -32768 ≤ tm.val ∧ tm.val ≤ 32767 := by
  unfold TermTxt.val
  refine foldl_invariant (fun v : Int => -32768 ≤ v ∧ v ≤ 32767) _ _
    (fun _ a => mulOp_apply_range (Prod.fst a) _ _) _ ?_
  have := h.1.2
  constructor <;> omega

theorem exprTxt_val_range (e : ExprTxt) (h : e.WF) : -32768 ≤ e.val ∧ e.val ≤ 32767 := by
  unfold ExprTxt.val
  exact foldl_invariant (fun v : Int => -32768 ≤ v ∧ v ≤ 32767) _ _
    (fun _ a => addOp_apply_range (Prod.fst a) _ _) _ (termTxt_val_range e.first h.1)

theorem le_sum_of_mem_nat (l : List Nat) (a : Nat) (h : a ∈ l) : a ≤ l.sum := by
  induction l with
  | nil => cases h
  | cons b l ih =>
    rcases List.mem_cons.1 h with rfl | h'
    · simp
    · have := ih h'
      simp
      omega

/-- The evaluator on a well-formed expression without sign and parentheses
returns the value of the specification and leaves the cursor on the character
that follows the expression. -/
theorem expr_text (e : ExprTxt) (n : Nat) (st : State) (ch : Char) (t : List Char)
    (hwf : e.WF) (h : st.rest = e.text ++ ch :: t)
    (h1 : ch ≠ ' ') (h2 : ch ≠ '+') (h3 : ch ≠ '-') (h4 : ch ≠ '*') (h5 : ch ≠ '/')
    (h6 : ch.isDigit = false) (hn : e.ops + 2 ≤ n) :
    expr n st = .ok e.val (st.adv e.text.length) := by
  obtain ⟨n, rfl⟩ : ∃ k, n = k + 1 := ⟨n - 1, by omega⟩
  have hlit := hwf.1.1.1
  obtain ⟨d, ds, hds⟩ : ∃ d ds, e.first.first.digits = d :: ds := by
    cases hd : e.first.first.digits with
    | nil => exact absurd hd hlit.1
    | cons d ds => exact ⟨d, ds, rfl⟩
  have hdd : d.isDigit = true := hlit.2 d (by rw [hds]; exact List.mem_cons_self _ _)
  have hd1 : d ≠ ' ' := by
    rintro rfl
    exact absurd hdd (by decide)
  have hd2 : d ≠ '+' := by
    rintro rfl
    exact absurd hdd (by decide)
  have hd3 : d ≠ '-' := by
    rintro rfl
    exact absurd hdd (by decide)
  -- the first term, with its leading spaces taken off
  let tm : TermTxt := ⟨⟨0, e.first.first.digits, e.first.first.post⟩, e.first.more⟩
  have htmwf : tm.WF := hwf.1
  have htmval : tm.val = e.first.val := rfl
  have htxt : e.first.text = spaces e.first.first.pre ++ tm.text := by
    simp [TermTxt.text, LitTxt.text, tm, spaces]
  obtain ⟨y, v, hyv, hy⟩ := addText_head e.more ch t
  have hy1 : y ≠ ' ' ∧ y ≠ '*' ∧ y ≠ '/' ∧ y.isDigit = false := by
    rcases hy with rfl | ⟨o, rfl⟩
    · exact ⟨h1, h4, h5, h6⟩
    · cases o <;> exact ⟨by decide, by decide, by decide, by decide⟩
  have h' : st.rest = spaces e.first.first.pre ++ d :: (ds ++ (spaces e.first.first.post
      ++ (mulText e.first.more ++ (addText e.more ++ ch :: t)))) := by
    rw [h]
    simp [ExprTxt.text, TermTxt.text, LitTxt.text, hds]
  have hr1 : (st.adv e.first.first.pre).rest = tm.text ++ y :: v := by
    rw [rest_adv_spaces h', ← hyv]
    simp [TermTxt.text, LitTxt.text, tm, spaces, hds]
  have hr1' : (st.adv e.first.first.pre).rest = d :: (ds ++ (spaces e.first.first.post
      ++ (mulText e.first.more ++ (addText e.more ++ ch :: t)))) := rest_adv_spaces h'
  have hops1 : e.first.more.length < n := by
    unfold ExprTxt.ops at hn
    omega
  have hops2 : e.more.length < n := by
    unfold ExprTxt.ops at hn
    omega
  have hops3 : ∀ x ∈ e.more, x.2.more.length < n := by
    intro x hx
    have := le_sum_of_mem_nat (e.more.map fun x => x.2.more.length) x.2.more.length
      (List.mem_map.2 ⟨x, hx, rfl⟩)
    unfold ExprTxt.ops at hn
    omega
  have hterm := term_text (expr n) tm n (st.adv e.first.first.pre) y v htmwf hr1
    hy1.1 hy1.2.1 hy1.2.2.1 hy1.2.2.2 hops1
  have hr2 : ((st.adv e.first.first.pre).adv tm.text.length).rest = addText e.more ++ ch :: t := by
    rw [hyv]
    exact rest_adv_append hr1
  have hloop := unsignedLoop_addText (expr n) n e.more n tm.val _ ch t hwf.2 hops3 hr2
    h1 h2 h3 h4 h5 h6 hops2
  have hv := exprTxt_val_range e hwf
  unfold expr
  rw [skpspc_spaces st e.first.first.pre d _ h' hd1]
  simp only [Res.bind_ok]
  rw [hr1']
  simp only [hd2, hd3, if_false, or_self]
  unfold unsigned_expr
  rw [skpspc_head _ d _ hr1' hd1]
  simp only [Res.bind_ok]
  rw [hterm]
  simp only [Res.bind_ok]
  rw [hloop]
  simp only [Res.bind_ok, one_mul, htmval]
  rw [show List.foldl (fun a x => x.1.apply a x.2.val) e.first.val e.more = e.val from rfl,
    wrap16_of_range hv.1 hv.2]
  simp only [State.adv_adv]
  rw [show e.first.first.pre + tm.text.length + (addText e.more).length = e.text.length by
    simp [ExprTxt.text, htxt]; omega]

/-! ## What the evaluator leaves unchanged -/

theorem Moved.refl (st : State) : Moved st st :=
  ⟨rfl, rfl, le_refl _, rfl, rfl, rfl, rfl, rfl, rfl, rfl, rfl, le_refl _⟩

theorem Moved.trans {a b c : State} (h1 : Moved a b) (h2 : Moved b c) : Moved a c :=
  ⟨h2.s.trans h1.s, h2.region.trans h1.region, le_trans h1.index h2.index,
   h2.vars.trans h1.vars, h2.callstack.trans h1.callstack, h2.col.trans h1.col,
   h2.buf.trans h1.buf, h2.loc.trans h1.loc, h2.out.trans h1.out, h2.inp.trans h1.inp,
   h2.rnd.trans h1.rnd, le_trans h1.rndi h2.rndi⟩

theorem Moved.adv (st : State) (k : Nat) : Moved st (st.adv k) :=
  ⟨rfl, rfl, Nat.le_add_right _ _, rfl, rfl, rfl, rfl, rfl, rfl, rfl, rfl, le_refl _⟩

theorem Moved.tick (st : State) : Moved st { st with rndi := st.rndi + 1 } :=
  ⟨rfl, rfl, le_refl _, rfl, rfl, rfl, rfl, rfl, rfl, rfl, rfl, Nat.le_add_right _ _⟩

/-- The characters at the cursor after a move are a suffix of those before. -/
theorem Moved.rest {st st' : State} (h : Moved st st') :
    st'.rest = st.rest.drop (st'.c.i - st.c.i) := by
  have h1 := h.s
  have h2 := h.region
  have h3 := h.index
  have h4 := h.buf
  simp only [State.rest, State.from, List.drop_drop]
  rw [show st.c.i + (st'.c.i - st.c.i) = st'.c.i by omega, h2]
  cases st.c.r <;> simp [State.mem, h1, h4]

theorem stable_moved (st : State) : Stable (fun a b => a = b ∧ Moved st a) where
  rest := fun a b h => by rw [h.1]
  vars := fun a b h => by rw [h.1]
  rnd := fun a b h => by rw [h.1]
  rndi := fun a b h => by rw [h.1]
  adv := fun a b k h => ⟨by rw [h.1], h.2.trans (Moved.adv a k)⟩
  tick := fun a b h => ⟨by rw [h.1], h.2.trans (Moved.tick a)⟩

/-- A run of `expr` that returns has only moved the cursor forward and drawn random numbers. -/
theorem expr_moved {n : Nat} {st st' : State} {v : Int} (h : expr n st = .ok v st') :
    Moved st st' := by
  have := expr_rel (stable_moved st) n st st ⟨rfl, Moved.refl st⟩
  rw [h] at this
  exact this.2.2

/-- A run of `expr` that exits has only moved the cursor forward and drawn random numbers. -/
theorem expr_moved_exit {n : Nat} {st st' : State} {k : Nat} (h : expr n st = .exit k st') :
    Moved st st' := by
  have := expr_rel (stable_moved st) n st st ⟨rfl, Moved.refl st⟩
  rw [h] at this
  exact this.2.2

theorem scan_drop (p : Char → Bool) : ∀ (l : List Char) (k : Nat), scan p l = some k →
    scan p (l.drop k) = some 0 := by
  intro l
  induction l with
  | nil => intro k h; simp [scan] at h
  | cons x l ih =>
    intro k h
    by_cases hx : p x = true
    · simp only [scan, hx, if_true, Option.map_eq_some'] at h
      obtain ⟨j, hj, rfl⟩ := h
      simpa using ih j hj
    · simp only [scan, hx, Bool.false_eq_true, if_false, Option.some.injEq] at h
      subst h
      simp [scan, hx]

/-- Skipping is idempotent. -/
theorem skipWhile_idem (p : Char → Bool) {st st1 : State} (h : skipWhile p st = .ok () st1) :
    skipWhile p st1 = .ok () st1 := by
  unfold skipWhile at h
  cases hs : scan p st.rest with
  | none => rw [hs] at h; cases h
  | some k =>
    rw [hs] at h
    simp only [Res.ok.injEq, true_and] at h
    subst h
    simp [skipWhile, scan_drop p _ _ hs]

/-- The evaluator starts by skipping spaces, so skipping them beforehand changes nothing. -/
theorem expr_after_skpspc (n : Nat) {st st1 : State} (h : skpspc st = .ok () st1) :
    expr n st1 = expr n st := by
  cases n with
  | zero => rfl
  | succ n =>
    have h1 : skpspc st1 = .ok () st1 := skipWhile_idem _ h
    simp only [expr, h, h1, Res.bind_ok]

theorem isUpper_ne_space {v : Char} (hv : v.isUpper = true) : v ≠ ' ' := by
  rintro rfl
  exact absurd hv (by decide)

theorem wrap16_idem (x : Int) : wrap16 (wrap16 x) = wrap16 x :=
  wrap16_of_range (wrap16_range x).1 (wrap16_range x).2

/-! ## One step of the evaluator on a known character -/

theorem factor_var (ex : State → Res Int) (st : State) (v : Char) (t : List Char)
    (h : st.rest = v :: t) (hv : v.isUpper = true)
    (h1 : strncmpEq ['R', 'N', 'D'] (v :: t) = some false)
    (h2 : strncmpEq ['U', 'S', 'R'] (v :: t) = some false) :
    factor ex st = .ok (st.vars (v.toNat - 65)) (st.adv 1) := by
  have hp : v ≠ '(' := by
    rintro rfl
    exact absurd hv (by decide)
  unfold factor
  rw [skpspc_head st v t h (isUpper_ne_space hv)]
  simp only [Res.bind_ok]
  rw [h]
  simp only [hp, if_false, hv, if_true, h1, h2]

theorem termLoop_stop (ex : State → Res Int) (n : Nat) (f : Int) (st : State) (ch : Char)
    (t : List Char) (h : st.rest = ch :: t) (h1 : ch ≠ ' ') (h2 : ch ≠ '*') (h3 : ch ≠ '/') :
    termLoop ex (n + 1) f st = .ok f st := by
  unfold termLoop
  rw [skpspc_head st ch t h h1]
  simp only [Res.bind_ok]
  rw [h]
  simp only [h2, h3, if_false]

theorem unsignedLoop_stop (ex : State → Res Int) (m n : Nat) (f : Int) (st : State) (ch : Char)
    (t : List Char) (h : st.rest = ch :: t) (h1 : ch ≠ ' ') (h2 : ch ≠ '+') (h3 : ch ≠ '-') :
    unsignedLoop ex m (n + 1) f st = .ok f st := by
  unfold unsignedLoop
  rw [skpspc_head st ch t h h1]
  simp only [Res.bind_ok]
  rw [h]
  simp only [h2, h3, if_false]

theorem unsignedLoop_add (ex : State → Res Int) (m n : Nat) (f : Int) (st : State)
    (t : List Char) (h : st.rest = '+' :: t) :
    unsignedLoop ex m (n + 1) f st
      = (term ex m (st.adv 1)).bind fun x st => unsignedLoop ex m n (wrap16 (f + x)) st := by
  conv => lhs; unfold unsignedLoop
  rw [skpspc_head st '+' t h (by decide)]
  simp only [Res.bind_ok]
  rw [h]
  simp only [if_true]

theorem unsignedLoop_sub (ex : State → Res Int) (m n : Nat) (f : Int) (st : State)
    (t : List Char) (h : st.rest = '-' :: t) :
    unsignedLoop ex m (n + 1) f st
      = (term ex m (st.adv 1)).bind fun x st => unsignedLoop ex m n (wrap16 (f - x)) st := by
  conv => lhs; unfold unsignedLoop
  rw [skpspc_head st '-' t h (by decide)]
  simp only [Res.bind_ok]
  rw [h]
  simp only [show ('-' : Char) ≠ '+' by decide, if_false, if_true]

theorem term_head (ex : State → Res Int) (n : Nat) (st : State) (ch : Char) (t : List Char)
    (h : st.rest = ch :: t) (h1 : ch ≠ ' ') :
    term ex n st = (factor ex st).bind fun f st => termLoop ex n f st := by
  unfold term
  rw [skpspc_head st ch t h h1]
  simp only [Res.bind_ok]

theorem unsigned_expr_head (ex : State → Res Int) (n : Nat) (st : State) (ch : Char)
    (t : List Char) (h : st.rest = ch :: t) (h1 : ch ≠ ' ') :
    unsigned_expr ex n st = (term ex n st).bind fun x st => unsignedLoop ex n n x st := by
  unfold unsigned_expr
  rw [skpspc_head st ch t h h1]
  simp only [Res.bind_ok]

theorem expr_head (n : Nat) (st : State) (ch : Char) (t : List Char)
    (h : st.rest = ch :: t) (h1 : ch ≠ ' ') (h2 : ch ≠ '+') (h3 : ch ≠ '-') :
    expr (n + 1) st
      = (unsigned_expr (expr n) n st).bind fun u st => .ok (wrap16 u) st := by
  conv => lhs; unfold expr
  rw [skpspc_head st ch t h h1]
  simp only [Res.bind_ok]
  rw [h]
  simp only [h2, h3, or_self, if_false, one_mul]

/-- A variable that stands alone as an expression evaluates to its value. -/
theorem expr_var (n : Nat) (st : State) (v ch : Char) (t : List Char)
    (h : st.rest = v :: ch :: t) (hv : v.isUpper = true) (hR : v ≠ 'R') (hU : v ≠ 'U')
    (h1 : ch ≠ ' ') (h2 : ch ≠ '*') (h3 : ch ≠ '/') (h4 : ch ≠ '+') (h5 : ch ≠ '-') :
    expr (n + 2) st = .ok (wrap16 (st.vars (v.toNat - 65))) (st.adv 1) := by
  have hs := isUpper_ne_space hv
  have hp : v ≠ '+' := by
    rintro rfl
    exact absurd hv (by decide)
  have hm : v ≠ '-' := by
    rintro rfl
    exact absurd hv (by decide)
  have hr1 : (st.adv 1).rest = ch :: t := rest_adv_one h
  rw [expr_head (n + 1) st v _ h hs hp hm, unsigned_expr_head _ _ st v _ h hs,
    term_head _ _ st v _ h hs,
    factor_var _ st v _ h hv (by simp [strncmpEq, Ne.symm hR]) (by simp [strncmpEq, Ne.symm hU])]
  simp only [Res.bind_ok]
  rw [termLoop_stop _ n _ _ ch t hr1 h1 h2 h3]
  simp only [Res.bind_ok]
  rw [unsignedLoop_stop _ _ n _ _ ch t hr1 h1 h4 h5]
  simp only [Res.bind_ok]

/-- The assignment handler on a letter, an equals sign and an expression that
evaluates: the value is stored in the letter's variable and nothing else changes. -/
theorem f_let_stores (n : Nat) (st st' : State) (a b : Nat) (v : Char) (t : List Char)
    (val : Int) (hv : v.isUpper = true)
    (h : st.rest = spaces a ++ v :: (spaces b ++ '=' :: t))
    (he : expr n (st.adv (a + 1 + b + 1)) = .ok val st') :
    f_let n st = .ok () { st' with vars := Function.update st.vars (v.toNat - 65) val } ∧
      Moved st st' := by
  have hr1 : (st.adv a).rest = v :: (spaces b ++ '=' :: t) := rest_adv_spaces h
  have hr2 : ((st.adv a).adv 1).rest = spaces b ++ '=' :: t := rest_adv_one hr1
  have hr3 : (((st.adv a).adv 1).adv b).rest = '=' :: t := rest_adv_spaces hr2
  have hm := expr_moved he
  have hst : (((st.adv a).adv 1).adv b).adv 1 = st.adv (a + 1 + b + 1) := by
    simp only [State.adv_adv]
  refine ⟨?_, (Moved.adv st _).trans hm⟩
  unfold f_let
  rw [skpspc_spaces st a v _ h (isUpper_ne_space hv)]
  simp only [Res.bind_ok]
  rw [hr1]
  simp only [hv, Bool.not_true, Bool.false_eq_true, if_false]
  rw [skpspc_spaces _ b '=' t hr2 (by decide)]
  simp only [Res.bind_ok]
  rw [hr3]
  simp only [ne_eq, not_true_eq_false, if_false, hst]
  cases hs : skpspc (st.adv (a + 1 + b + 1)) with
  | ok u st1 =>
    simp only [Res.bind_ok]
    rw [expr_after_skpspc n hs, he]
    simp only [Res.bind_ok]
    have hv' : st'.vars = st.vars := hm.vars
    rw [hv']
  | exit k st1 =>
    simp [skpspc, skipWhile] at hs
    split at hs <;> cases hs
  | ub =>
    cases n with
    | zero => simp [expr] at he
    | succ n => simp [expr, hs] at he
  | oof =>
    simp [skpspc, skipWhile] at hs
    split at hs <;> cases hs

theorem expr_A_plus_1 (n : Nat) (st : State) (t : List Char)
    (h : st.rest = 'A' :: '+' :: '1' :: '\n' :: t) :
    expr (n + 3) st = .ok (wrap16 (st.vars 0 + 1)) (st.adv 3) := by
  have hr1 : (st.adv 1).rest = '+' :: '1' :: '\n' :: t := by simp [h]
  have hr2 : (st.adv 2).rest = spaces 0 ++ (['1'] ++ '\n' :: t) := by simp [h, spaces]
  have hr2' : (st.adv 2).rest = '1' :: '\n' :: t := by simp [h]
  have hr3 : (st.adv 3).rest = '\n' :: t := by simp [h]
  have e1 : strncmpEq ['R', 'N', 'D'] ('A' :: '+' :: '1' :: '\n' :: t) = some false := by
    simp [strncmpEq]
  have e2 : strncmpEq ['U', 'S', 'R'] ('A' :: '+' :: '1' :: '\n' :: t) = some false := by
    simp [strncmpEq]
  rw [expr_head (n + 2) st 'A' _ h (by decide) (by decide) (by decide),
    unsigned_expr_head _ _ st 'A' _ h (by decide), term_head _ _ st 'A' _ h (by decide),
    factor_var _ st 'A' _ h (by decide) e1 e2]
  simp only [Res.bind_ok]
  rw [termLoop_stop _ (n + 1) _ _ '+' _ hr1 (by decide) (by decide) (by decide)]
  simp only [Res.bind_ok]
  rw [unsignedLoop_add _ _ (n + 1) _ _ _ hr1]
  simp only [State.adv_adv]
  rw [term_head _ _ _ '1' _ hr2' (by decide),
    factor_literal _ _ 0 ['1'] '\n' t hr2 (by decide) (by decide) (by decide)]
  simp only [Res.bind_ok, State.adv_adv, List.length_singleton]
  rw [termLoop_stop _ (n + 1) _ _ '\n' _ hr3 (by decide) (by decide) (by decide)]
  simp only [Res.bind_ok]
  rw [unsignedLoop_stop _ _ n _ _ '\n' _ hr3 (by decide) (by decide) (by decide)]
  simp only [Res.bind_ok, wrap16_idem]
  have : wrap16 (decVal ['1'] : Int) = 1 := by decide
  rw [this]
  rfl

/-! ## More fuel changes no result -/

theorem Res.le_rfl {α : Type} (r : Res α) : Res.le r r := Or.inr rfl

theorem Res.le_bind {α β : Type} {r1 r2 : Res α} {k1 k2 : α → State → Res β}
    (h : Res.le r1 r2) (hk : ∀ a st, Res.le (k1 a st) (k2 a st)) :
    Res.le (r1.bind k1) (r2.bind k2) := by
  rcases h with rfl | rfl
  · exact Or.inl rfl
  · cases r1 with
    | ok a st => exact hk a st
    | exit k st => exact Or.inr rfl
    | ub => exact Or.inr rfl
    | oof => exact Or.inl rfl

theorem factor_le {e1 e2 : State → Res Int} (he : ∀ st, Res.le (e1 st) (e2 st)) (st : State) :
    Res.le (factor e1 st) (factor e2 st) := by
  unfold factor
  refine Res.le_bind (Res.le_rfl _) ?_
  intro _ s
  cases s.rest with
  | nil => exact Res.le_rfl _
  | cons ch t =>
    dsimp only
    split_ifs
    · exact Res.le_bind (he _) (fun _ _ => Res.le_rfl _)
    · cases strncmpEq ['R', 'N', 'D'] (ch :: t) with
      | none => exact Res.le_rfl _
      | some b =>
        cases b with
        | true =>
          dsimp only
          refine Res.le_bind (Res.le_rfl _) ?_
          intro _ s2
          exact Res.le_bind (he _) (fun _ _ => Res.le_rfl _)
        | false => exact Res.le_rfl _
    · exact Res.le_rfl _
    · exact Res.le_rfl _

theorem termLoop_le {e1 e2 : State → Res Int} (he : ∀ st, Res.le (e1 st) (e2 st)) (n : Nat) :
    ∀ (m : Nat) (f : Int) (st : State), n ≤ m →
      Res.le (termLoop e1 n f st) (termLoop e2 m f st) := by
  induction n with
  | zero => intro m f st _; exact Or.inl rfl
  | succ n ih =>
    intro m f st hm
    obtain ⟨m, rfl⟩ : ∃ k, m = k + 1 := ⟨m - 1, by omega⟩
    unfold termLoop
    refine Res.le_bind (Res.le_rfl _) ?_
    intro _ s
    cases s.rest with
    | nil => exact Res.le_rfl _
    | cons ch t =>
      dsimp only
      split_ifs
      · exact Res.le_bind (factor_le he _) (fun g s2 => ih m _ s2 (by omega))
      · refine Res.le_bind (factor_le he _) ?_
        intro g s2
        split_ifs
        · exact Res.le_rfl _
        · exact ih m _ s2 (by omega)
      · exact Res.le_rfl _

theorem term_le {e1 e2 : State → Res Int} (he : ∀ st, Res.le (e1 st) (e2 st)) {n m : Nat}
    (hm : n ≤ m) (st : State) : Res.le (term e1 n st) (term e2 m st) := by
  unfold term
  refine Res.le_bind (Res.le_rfl _) ?_
  intro _ s
  exact Res.le_bind (factor_le he _) (fun f s2 => termLoop_le he n m f s2 hm)

theorem unsignedLoop_le {e1 e2 : State → Res Int} (he : ∀ st, Res.le (e1 st) (e2 st))
    {k k' : Nat} (hk : k ≤ k') (n : Nat) :
    ∀ (m : Nat) (f : Int) (st : State), n ≤ m →
      Res.le (unsignedLoop e1 k n f st) (unsignedLoop e2 k' m f st) := by
  induction n with
  | zero => intro m f st _; exact Or.inl rfl
  | succ n ih =>
    intro m f st hm
    obtain ⟨m, rfl⟩ : ∃ j, m = j + 1 := ⟨m - 1, by omega⟩
    unfold unsignedLoop
    refine Res.le_bind (Res.le_rfl _) ?_
    intro _ s
    cases s.rest with
    | nil => exact Res.le_rfl _
    | cons ch t =>
      dsimp only
      split_ifs
      · exact Res.le_bind (term_le he hk _) (fun g s2 => ih m _ s2 (by omega))
      · exact Res.le_bind (term_le he hk _) (fun g s2 => ih m _ s2 (by omega))
      · exact Res.le_rfl _

theorem unsigned_expr_le {e1 e2 : State → Res Int} (he : ∀ st, Res.le (e1 st) (e2 st))
    {n m : Nat} (hm : n ≤ m) (st : State) :
    Res.le (unsigned_expr e1 n st) (unsigned_expr e2 m st) := by
  unfold unsigned_expr
  refine Res.le_bind (Res.le_rfl _) ?_
  intro _ s
  exact Res.le_bind (term_le he hm _) (fun f s2 => unsignedLoop_le he hm n m f s2 hm)

theorem expr_le (n : Nat) : ∀ (m : Nat) (st : State), n ≤ m → Res.le (expr n st) (expr m st) := by
  induction n with
  | zero => intro m st _; exact Or.inl rfl
  | succ n ih =>
    intro m st hm
    obtain ⟨m, rfl⟩ : ∃ j, m = j + 1 := ⟨m - 1, by omega⟩
    unfold expr
    refine Res.le_bind (Res.le_rfl _) ?_
    intro _ s
    cases s.rest with
    | nil => exact Res.le_rfl _
    | cons ch t =>
      dsimp only
      exact Res.le_bind (unsigned_expr_le (fun s2 => ih m s2 (by omega)) (by omega) _)
        (fun _ _ => Res.le_rfl _)

/-- A result of `expr` other than running out of fuel is the result with any greater fuel. -/
theorem expr_mono {n m : Nat} {st : State} {r : Res Int} (h : expr n st = r) (hr : r ≠ .oof)
    (hm : n ≤ m) : expr m st = r := by
  rcases expr_le n m st hm with h1 | h1
  · exact absurd (h ▸ h1) hr
  · rw [← h1, h]

theorem gotolnLoop_le (n : Nat) : ∀ (m : Nat) (ln : Int) (st : State), n ≤ m →
    Res.le (gotolnLoop n ln st) (gotolnLoop m ln st) := by
  induction n with
  | zero => intro m ln st _; exact Or.inl rfl
  | succ n ih =>
    intro m ln st hm
    obtain ⟨m, rfl⟩ : ∃ j, m = j + 1 := ⟨m - 1, by omega⟩
    unfold gotolnLoop
    cases atoi st.rest with
    | none => exact Res.le_rfl _
    | some v =>
      dsimp only
      split_ifs
      · exact Res.le_bind (Res.le_rfl _) (fun _ s => ih m ln _ (by omega))
      · exact Res.le_rfl _

theorem gotoln_le {n m : Nat} (hm : n ≤ m) (ln : Int) (st : State) :
    Res.le (gotoln n ln st) (gotoln m ln st) := by
  unfold gotoln
  split_ifs
  · exact Res.le_rfl _
  · exact gotolnLoop_le n m ln _ hm

theorem prLoop_le {e1 e2 : State → Res Int} (he : ∀ st, Res.le (e1 st) (e2 st)) (n : Nat) :
    ∀ (m : Nat) (st : State), n ≤ m → Res.le (prLoop e1 n st) (prLoop e2 m st) := by
  induction n with
  | zero => intro m st _; exact Or.inl rfl
  | succ n ih =>
    intro m st hm
    obtain ⟨m, rfl⟩ : ∃ j, m = j + 1 := ⟨m - 1, by omega⟩
    unfold prLoop
    repeat' first
      | exact Res.le_rfl _
      | exact he _
      | exact ih m _ (by omega)
      | refine Res.le_bind ?_ ?_
      | intro _ _
      | split

theorem f_pr_le {n m : Nat} (hm : n ≤ m) (st : State) : Res.le (f_pr n st) (f_pr m st) := by
  unfold f_pr
  exact Res.le_bind (Res.le_rfl _) (fun _ s => prLoop_le (fun s2 => expr_le n m s2 hm) n m s hm)

theorem inLoop_le {e1 e2 : State → Res Int} (he : ∀ st, Res.le (e1 st) (e2 st)) (n : Nat) :
    ∀ (m : Nat) (st : State), n ≤ m → Res.le (inLoop e1 n st) (inLoop e2 m st) := by
  induction n with
  | zero => intro m st _; exact Or.inl rfl
  | succ n ih =>
    intro m st hm
    obtain ⟨m, rfl⟩ : ∃ j, m = j + 1 := ⟨m - 1, by omega⟩
    unfold inLoop
    repeat' first
      | exact Res.le_rfl _
      | exact he _
      | exact ih m _ (by omega)
      | refine Res.le_bind ?_ ?_
      | intro _ _
      | split

theorem f_in_le {n m : Nat} (hm : n ≤ m) (st : State) : Res.le (f_in n st) (f_in m st) := by
  unfold f_in
  exact Res.le_bind (Res.le_rfl _) (fun _ s => inLoop_le (fun s2 => expr_le n m s2 hm) n m s hm)

theorem f_let_le {n m : Nat} (hm : n ≤ m) (st : State) : Res.le (f_let n st) (f_let m st) := by
  unfold f_let
  refine Res.le_bind (Res.le_rfl _) ?_
  intro _ s
  cases s.rest with
  | nil => exact Res.le_rfl _
  | cons id t =>
    dsimp only
    split_ifs
    · exact Res.le_rfl _
    · refine Res.le_bind (Res.le_rfl _) ?_
      intro _ s2
      cases s2.rest with
      | nil => exact Res.le_rfl _
      | cons ch u =>
        dsimp only
        split_ifs
        · exact Res.le_rfl _
        · refine Res.le_bind (Res.le_rfl _) ?_
          intro _ s3
          exact Res.le_bind (expr_le n m s3 hm) (fun _ _ => Res.le_rfl _)

theorem f_goto_le {n m : Nat} (hm : n ≤ m) (st : State) : Res.le (f_goto n st) (f_goto m st) := by
  unfold f_goto
  refine Res.le_bind (expr_le n m st hm) ?_
  intro ln s
  exact Res.le_bind (gotoln_le hm ln s) (fun _ _ => Res.le_rfl _)

theorem f_gosub_le {n m : Nat} (hm : n ≤ m) (st : State) :
    Res.le (f_gosub n st) (f_gosub m st) := by
  unfold f_gosub
  split_ifs
  · exact Res.le_rfl _
  · refine Res.le_bind (expr_le n m st hm) ?_
    intro ln s
    split_ifs
    · exact Res.le_rfl _
    · exact Res.le_bind (gotoln_le hm ln _) (fun _ _ => Res.le_rfl _)

theorem f_if_le {s1 s2 : State → Res Unit} (hs : ∀ st, Res.le (s1 st) (s2 st)) {n m : Nat}
    (hm : n ≤ m) (st : State) : Res.le (f_if s1 n st) (f_if s2 m st) := by
  unfold f_if
  refine Res.le_bind (Res.le_rfl _) ?_
  intro _ a
  refine Res.le_bind (expr_le n m a hm) ?_
  intro e0 b
  refine Res.le_bind (Res.le_rfl _) ?_
  intro _ c
  cases c.rest with
  | nil => exact Res.le_rfl _
  | cons op0 opt =>
    cases opt with
    | nil => exact Res.le_rfl _
    | cons op1 u =>
      dsimp only
      refine Res.le_bind (expr_le n m _ hm) ?_
      intro e1 d
      refine Res.le_bind (Res.le_rfl _) ?_
      intro _ e
      cases strspccmp ['T', 'H', 'E', 'N'] e.rest with
      | none => exact Res.le_rfl _
      | some eq =>
        dsimp only
        refine Res.le_bind (Res.le_rfl _) ?_
        intro _ f
        cases relHolds op0 op1 e0 e1 with
        | none => exact Res.le_rfl _
        | some b =>
          cases b with
          | true => exact hs f
          | false => exact Res.le_rfl _

theorem listLoop_le (n : Nat) : ∀ (m : Nat) (ln : Int) (st : State), n ≤ m →
    Res.le (listLoop n ln st) (listLoop m ln st) := by
  induction n with
  | zero => intro m ln st _; exact Or.inl rfl
  | succ n ih =>
    intro m ln st hm
    obtain ⟨m, rfl⟩ : ∃ j, m = j + 1 := ⟨m - 1, by omega⟩
    unfold listLoop
    cases atoi st.rest with
    | none => exact Res.le_rfl _
    | some v =>
      dsimp only
      split_ifs
      · exact Res.le_rfl _
      · exact Res.le_bind (Res.le_rfl _) (fun _ s => ih m ln _ (by omega))

theorem f_list_le {n m : Nat} (hm : n ≤ m) (st : State) : Res.le (f_list n st) (f_list m st) := by
  unfold f_list
  refine Res.le_bind (Res.le_rfl _) ?_
  intro _ a
  cases a.rest with
  | nil => exact Res.le_rfl _
  | cons ch t =>
    dsimp only
    split_ifs
    · exact Res.le_rfl _
    · exact Res.le_rfl _
    · refine Res.le_bind (expr_le n m a hm) ?_
      intro ln0 b
      split_ifs
      · exact Res.le_rfl _
      · refine Res.le_bind (Res.le_rfl _) ?_
        intro _ c
        cases c.rest with
        | nil => exact Res.le_rfl _
        | cons sep u =>
          dsimp only
          split_ifs
          · exact Res.le_bind (gotoln_le hm ln0 c) (fun _ _ => Res.le_rfl _)
          · refine Res.le_bind (expr_le n m _ hm) ?_
            intro ln1 d
            refine Res.le_bind (gotoln_le hm ln0 d) ?_
            intro _ e
            exact Res.le_bind (listLoop_le n m ln1 e hm) (fun _ _ => Res.le_rfl _)

theorem dispatch_le (t1 : List (List Char × (State → Res Unit))) :
    ∀ (t2 : List (List Char × (State → Res Unit))),
      List.Forall₂ (fun a b => a.1 = b.1 ∧ ∀ st, Res.le (a.2 st) (b.2 st)) t1 t2 →
      ∀ st : State, Res.le (dispatch t1 st) (dispatch t2 st) := by
  induction t1 with
  | nil =>
    intro t2 h st
    cases h
    exact Res.le_rfl _
  | cons a l1 ih =>
    intro t2 h st
    cases h with
    | cons hab hl =>
      rename_i b l2
      obtain ⟨ka, fa⟩ := a
      obtain ⟨kb, fb⟩ := b
      obtain ⟨hk, hf⟩ := hab
      simp only at hk hf
      subst hk
      unfold dispatch
      cases strspccmp ka st.rest with
      | none => exact Res.le_rfl _
      | some len =>
        dsimp only
        split_ifs
        · exact hf _
        · exact ih l2 hl st

theorem stmt_le (n : Nat) : ∀ (m : Nat) (st : State), n ≤ m → Res.le (stmt n st) (stmt m st) := by
  induction n with
  | zero => intro m st _; exact Or.inl rfl
  | succ n ih =>
    intro m st hm
    obtain ⟨m, rfl⟩ : ∃ j, m = j + 1 := ⟨m - 1, by omega⟩
    have hnm : n ≤ m := by omega
    unfold stmt
    refine dispatch_le _ _ ?_ st
    unfold KEYWORDS
    repeat' constructor
    all_goals first
      | exact fun s => f_pr_le hnm s
      | exact fun s => f_in_le hnm s
      | exact fun s => f_let_le hnm s
      | exact fun s => f_goto_le hnm s
      | exact fun s => f_gosub_le hnm s
      | exact fun s => f_if_le (fun s2 => ih m s2 hnm) hnm s
      | exact fun s => f_list_le hnm s
      | exact fun s => Res.le_rfl _

theorem mainLoop_le (n : Nat) : ∀ (m : Nat) (st : State), n ≤ m →
    Res.le (mainLoop n st) (mainLoop m st) := by
  induction n with
  | zero => intro m st _; exact Or.inl rfl
  | succ n ih =>
    intro m st hm
    obtain ⟨m, rfl⟩ : ∃ j, m = j + 1 := ⟨m - 1, by omega⟩
    unfold mainLoop
    refine Res.le_bind (Res.le_rfl _) ?_
    intro _ a
    exact Res.le_bind (stmt_le n m a (by omega)) (fun _ b => ih m b (by omega))

/-- A result of the dispatcher other than running out of fuel is the result with any greater fuel. -/
theorem stmt_mono {n m : Nat} {st : State} {r : Res Unit} (h : stmt n st = r) (hr : r ≠ .oof)
    (hm : n ≤ m) : stmt m st = r := by
  rcases stmt_le n m st hm with h1 | h1
  · exact absurd (h ▸ h1) hr
  · rw [← h1, h]

/-- A result of the driver loop other than running out of fuel is the result with any greater fuel. -/
theorem mainLoop_mono {n m : Nat} {st : State} {r : Res Unit} (h : mainLoop n st = r)
    (hr : r ≠ .oof) (hm : n ≤ m) : mainLoop m st = r := by
  rcases mainLoop_le n m st hm with h1 | h1
  · exact absurd (h ▸ h1) hr
  · rw [← h1, h]


/-! ## C1: precedence, associativity and wraparound -/

/-- C1: on every expression text made of decimal literals of at most 32767
joined by `+`, `-`, `*`, `/` with optional spaces, without parentheses, leading
sign or division by zero, followed by a newline, `expr` returns the value the
specification gives it (the tighter tier first, each tier left to right, every
intermediate result wrapped to 16 bits, division truncating), with the cursor
left on the newline. -/
theorem expr_precedence_wrap (e : ExprTxt) (st : State) (t : List Char) (n : Nat)
    (hwf : e.WF) (h : st.rest = e.text ++ '\n' :: t) (hn : e.ops + 2 ≤ n) :
    expr n st = .ok e.val (st.adv e.text.length) :=
  expr_text e n st '\n' t hwf h (by decide) (by decide) (by decide) (by decide) (by decide)
    (by decide) hn

/-- The three examples of C1: `32767+1`, `2+3*4` and `10-3-2`. -/
theorem expr_precedence_wrap_witness :
    expr 3 (progState "32767+1\n".toList)
        = .ok (-32768) ((progState "32767+1\n".toList).adv 7) ∧
    expr 4 (progState "2+3*4\n".toList) = .ok 14 ((progState "2+3*4\n".toList).adv 5) ∧
    expr 4 (progState "10-3-2\n".toList) = .ok 5 ((progState "10-3-2\n".toList).adv 6) :=
  ⟨expr_precedence_wrap
      ⟨⟨⟨0, "32767".toList, 0⟩, []⟩, [(AddOp.add, ⟨⟨0, "1".toList, 0⟩, []⟩)]⟩
      (progState "32767+1\n".toList) [NUL] 3 (by decide) (by decide) (by decide),
   expr_precedence_wrap
      ⟨⟨⟨0, "2".toList, 0⟩, []⟩,
        [(AddOp.add, ⟨⟨0, "3".toList, 0⟩, [(MulOp.mul, ⟨0, "4".toList, 0⟩)]⟩)]⟩
      (progState "2+3*4\n".toList) [NUL] 4 (by decide) (by decide) (by decide),
   expr_precedence_wrap
      ⟨⟨⟨0, "10".toList, 0⟩, []⟩,
        [(AddOp.sub, ⟨⟨0, "3".toList, 0⟩, []⟩), (AddOp.sub, ⟨⟨0, "2".toList, 0⟩, []⟩)]⟩
      (progState "10-3-2\n".toList) [NUL] 4 (by decide) (by decide) (by decide)⟩

/-! ## C9: the assignment handler -/

/-- C9: the assignment handler `f_let` on spaces, a variable letter, spaces,
`=` and an expression that evaluates to `val` in the state before the
assignment stores `val` in that variable, leaves every other variable, the call
stack and the output as they were, and leaves the cursor where the evaluation
of the expression left it; on ` A=A+1` the new value of `A` is the old one plus
one, wrapped to 16 bits, and the cursor is left on the newline. -/
theorem f_let_assigns :
    (∀ (n : Nat) (st st' : State) (a b : Nat) (v : Char) (t : List Char) (val : Int),
      v.isUpper = true →
      st.rest = spaces a ++ v :: (spaces b ++ '=' :: t) →
      expr n (st.adv (a + 1 + b + 1)) = .ok val st' →
      ∃ fin, f_let n st = .ok () fin ∧
        fin.vars = Function.update st.vars (v.toNat - 65) val ∧
        fin.callstack = st.callstack ∧ fin.out = st.out ∧ fin.c = st'.c) ∧
    (∀ (n : Nat) (st : State) (t : List Char),
      st.rest = ' ' :: 'A' :: '=' :: 'A' :: '+' :: '1' :: '\n' :: t →
      ∃ fin, f_let (n + 3) st = .ok () fin ∧
        fin.vars = Function.update st.vars 0 (wrap16 (st.vars 0 + 1)) ∧
        fin.callstack = st.callstack ∧ fin.out = st.out ∧ fin.rest = '\n' :: t) := by
  constructor
  · intro n st st' a b v t val hv h he
    obtain ⟨h1, hm⟩ := f_let_stores n st st' a b v t val hv h he
    exact ⟨_, h1, rfl, hm.callstack, hm.out, rfl⟩
  · intro n st t h
    have he : expr (n + 3) (st.adv (1 + 1 + 0 + 1))
        = .ok (wrap16 (st.vars 0 + 1)) ((st.adv 3).adv 3) :=
      expr_A_plus_1 n (st.adv 3) t (by simp [h])
    obtain ⟨h1, hm⟩ := f_let_stores (n + 3) st _ 1 0 'A' _ _ (by decide)
      (by simpa [spaces] using h) he
    refine ⟨_, h1, rfl, hm.callstack, hm.out, ?_⟩
    show ((st.adv 3).adv 3).rest = _
    simp [h]

/-- C9 on the statement `LET A=A+1` of a one-line program, after the keyword. -/
theorem f_let_assigns_witness :
    ∃ fin, f_let 3 ((progState "LET A=A+1\n".toList).adv 3) = .ok () fin ∧
      fin.vars = Function.update (progState "LET A=A+1\n".toList).vars 0 1 ∧
      fin.callstack = (progState "LET A=A+1\n".toList).callstack ∧
      fin.out = [] ∧ fin.c = ⟨.src, 9⟩ :=
  f_let_assigns.1 3 ((progState "LET A=A+1\n".toList).adv 3)
    ((progState "LET A=A+1\n".toList).adv 9) 1 0 'A' "A+1\n\x00".toList 1
    (by decide) (by decide) (by rfl)

/-! ## C3 and C4: the call stack -/

/-- With 31 return cursors pending the guard of `f_gosub` ends the run. -/
theorem f_gosub_guard (n : Nat) (st : State) (h : st.callstack.i = 31) :
    f_gosub n st = .exit 188 st := by
  simp [f_gosub, h, CALLSTACK_SIZE]

/-- C3: in the program `10 GOSUB 10`, run from the start with an empty call
stack, every GOSUB goes to an existing line and no RETURN intervenes; with
any fuel from 40 on the run ends with status 188 when 31 return cursors are
pending, so the 32nd pending GOSUB is the first that fails. -/
theorem gosub_32nd_fails (m : Nat) :
    (main (m + 40) "10 GOSUB 10\n".toList [] (fun _ => 0)).status = some 188 ∧
    (main (m + 40) "10 GOSUB 10\n".toList [] (fun _ => 0)).state.map (fun st => st.callstack.i)
      = some 31 := by
  have h1 : (main 40 "10 GOSUB 10\n".toList [] (fun _ => 0)).status = some 188 := by decide
  have h2 : (main 40 "10 GOSUB 10\n".toList [] (fun _ => 0)).state.map
      (fun st => st.callstack.i) = some 31 := by decide
  have hm : main (m + 40) "10 GOSUB 10\n".toList [] (fun _ => 0)
      = main 40 "10 GOSUB 10\n".toList [] (fun _ => 0) :=
    mainLoop_mono rfl (fun h => by rw [h] at h1; cases h1) (by omega)
  rw [hm]
  exact ⟨h1, h2⟩

theorem gotolnLoop_moved (n : Nat) : ∀ (ln : Int) (st st' : State),
    gotolnLoop n ln st = .ok () st' → Moved st st' := by
  induction n with
  | zero => intro ln st st' h; cases h
  | succ n ih =>
    intro ln st st' h
    unfold gotolnLoop at h
    cases ha : atoi st.rest with
    | none => rw [ha] at h; cases h
    | some v =>
      rw [ha] at h
      dsimp only at h
      split_ifs at h with hv
      · unfold skpto skipWhile at h
        cases hs : scan (fun ch => ch != '\n') st.rest with
        | none => rw [hs] at h; cases h
        | some k =>
          rw [hs] at h
          simp only [Res.bind_ok] at h
          exact ((Moved.adv st k).trans (Moved.adv _ 1)).trans (ih _ _ _ h)
      · cases h
        exact Moved.refl st

/-- A call of `gotoln` that returns has changed the cursor only. -/
theorem gotoln_frame {n : Nat} {ln : Int} {st st' : State} (h : gotoln n ln st = .ok () st') :
    st'.s = st.s ∧ st'.vars = st.vars ∧ st'.callstack = st.callstack ∧ st'.out = st.out
      ∧ st'.col = st.col ∧ st'.c.r = .src := by
  unfold gotoln at h
  split_ifs at h
  have hm := gotolnLoop_moved n ln _ _ h
  exact ⟨hm.s, hm.vars, hm.callstack, hm.out, hm.col, hm.region⟩

theorem pending_succ (i : Nat) (stack : Nat → Ptr) :
    (Callstack.mk (i + 1) stack).pending = (Callstack.mk i stack).pending ++ [stack i] := by
  simp [Callstack.pending, List.range_succ]

theorem pending_update (i : Nat) (stack : Nat → Ptr) (p : Ptr) :
    (Callstack.mk i (Function.update stack i p)).pending = (Callstack.mk i stack).pending := by
  simp only [Callstack.pending]
  apply List.map_congr_left
  intro j hj
  have : j ≠ i := by
    have := List.mem_range.1 hj
    omega
  simp [Function.update, this]

/-- C4: `f_ret` ends the run with status 133 exactly when no return cursor is
pending; otherwise it returns, moves the cursor to the most recently pushed
return cursor and removes that cursor, changing nothing else.  After a
`f_gosub` that returns, `f_ret` puts the cursor where the evaluation of the
GOSUB argument left it, and the pending return cursors and the variables are
those from before the GOSUB. -/
theorem f_ret_pops :
    (∀ st : State, (f_ret st).status = some 133 ↔ st.callstack.pending = []) ∧
    (∀ st : State, st.callstack.pending ≠ [] → st.callstack.i ≤ CALLSTACK_SIZE →
      ∃ st', f_ret st = .ok () st' ∧
        st.callstack.pending.getLast? = some st'.c ∧
        st'.callstack.pending = st.callstack.pending.dropLast ∧
        st'.callstack.i + 1 = st.callstack.i ∧
        st'.vars = st.vars ∧ st'.out = st.out ∧ st'.s = st.s) ∧
    (∀ (n : Nat) (st st1 : State), f_gosub n st = .ok () st1 →
      ∃ ln stE st2, expr n st = .ok ln stE ∧ f_ret st1 = .ok () st2 ∧
        st2.c = stE.c ∧ st2.callstack.pending = st.callstack.pending ∧
        st2.callstack.i = st.callstack.i ∧ st2.vars = st.vars) := by
  have hp : ∀ st : State, st.callstack.pending = [] ↔ st.callstack.i = 0 := by
    intro st
    simp [Callstack.pending]
  refine ⟨?_, ?_, ?_⟩
  · intro st
    rw [hp]
    unfold f_ret
    split_ifs with h1 h2
    · simp [Res.status, h1]
    · simp [Res.status, h1]
    · simp [Res.status, h1]
  · intro st hne hle
    have hi : st.callstack.i ≠ 0 := fun h0 => hne ((hp st).2 h0)
    obtain ⟨j, hj⟩ : ∃ j, st.callstack.i = j + 1 := ⟨st.callstack.i - 1, by omega⟩
    have hcs : st.callstack = ⟨j + 1, st.callstack.stack⟩ := by
      rw [← hj]
    refine ⟨{ st with c := st.callstack.stack (st.callstack.i - 1),
                      callstack := ⟨st.callstack.i - 1, st.callstack.stack⟩ }, ?_, ?_, ?_, ?_,
      rfl, rfl, rfl⟩
    · unfold f_ret
      rw [if_neg hi, if_neg (by omega)]
    · rw [hcs, pending_succ]
      simp [hj]
    · rw [hcs, pending_succ]
      simp [hj]
    · simp only
      omega
  · intro n st st1 h
    unfold f_gosub at h
    split_ifs at h with h31
    cases he : expr n st with
    | exit k s' => rw [he] at h; cases h
    | ub => rw [he] at h; cases h
    | oof => rw [he] at h; cases h
    | ok ln stE =>
      rw [he] at h
      simp only [Res.bind_ok] at h
      have hm := expr_moved he
      split_ifs at h with hfull
      cases hg : gotoln n ln { stE with callstack :=
          ⟨stE.callstack.i + 1, Function.update stE.callstack.stack stE.callstack.i stE.c⟩ } with
      | exit k s' => rw [hg] at h; cases h
      | ub => rw [hg] at h; cases h
      | oof => rw [hg] at h; cases h
      | ok u stG =>
        rw [hg] at h
        simp only [Res.bind_ok] at h
        have hfr := gotoln_frame hg
        have hst1 : st1 = stG := by
          cases ha : atoi stG.rest with
          | none => rw [ha] at h; cases h
          | some v =>
            rw [ha] at h
            dsimp only at h
            split_ifs at h
            cases h
            rfl
        subst hst1
        have hcs : st1.callstack
            = ⟨stE.callstack.i + 1, Function.update stE.callstack.stack stE.callstack.i stE.c⟩ :=
          hfr.2.2.1
        have hiE : stE.callstack = st.callstack := hm.callstack
        refine ⟨ln, stE,
          { st1 with c := st1.callstack.stack (st1.callstack.i - 1),
                     callstack := ⟨st1.callstack.i - 1, st1.callstack.stack⟩ },
          rfl, ?_, ?_, ?_, ?_, ?_⟩
        · unfold f_ret
          rw [if_neg (by rw [hcs]; simp), if_neg (by rw [hcs]; simp only; omega)]
        · simp [hcs]
        · simp only [hcs, Nat.add_sub_cancel]
          rw [pending_update, ← hiE]
        · simp only [hcs, Nat.add_sub_cancel, hiE]
        · simp only [hfr.2.1]
          exact hm.vars

/-- C4 on the GOSUB of the program `10 GOSUB 20`, `20 RETURN`, after the keyword. -/
theorem f_ret_pops_witness :
    ∃ ln stE st2,
      expr 5 ((progState "10 GOSUB 20\n20 RETURN\n".toList).adv 8) = .ok ln stE ∧
      f_ret { (progState "10 GOSUB 20\n20 RETURN\n".toList) with
                c := ⟨.src, 12⟩,
                callstack := ⟨1, Function.update (fun _ => ⟨.zero, 1⟩) 0 ⟨.src, 11⟩⟩ }
        = .ok () st2 ∧
      st2.c = stE.c ∧
      st2.callstack.pending = (progState "10 GOSUB 20\n20 RETURN\n".toList).callstack.pending ∧
      st2.callstack.i = 0 ∧
      st2.vars = (progState "10 GOSUB 20\n20 RETURN\n".toList).vars :=
  f_ret_pops.2.2 5 ((progState "10 GOSUB 20\n20 RETURN\n".toList).adv 8)
    { (progState "10 GOSUB 20\n20 RETURN\n".toList) with
        c := ⟨.src, 12⟩,
        callstack := ⟨1, Function.update (fun _ => ⟨.zero, 1⟩) 0 ⟨.src, 11⟩⟩ }
    (by rfl)

/-! ## C7: statements that match no keyword -/

theorem strspccmp_nil (t : List Char) : strspccmp [] t = some 0 := rfl

/-- When none of the eleven keywords matches, the dispatcher runs the
assignment handler with the cursor unmoved. -/
theorem stmt_no_keyword (n : Nat) (st : State)
    (hkw : ∀ kw ∈ keywordTexts, strspccmp kw st.rest = some (-1)) :
    stmt (n + 1) st = f_let n st := by
  have h1 := hkw ['P', 'R', 'I', 'N', 'T'] (by decide)
  have h2 := hkw ['P', 'R'] (by decide)
  have h3 := hkw ['I', 'N', 'P', 'U', 'T'] (by decide)
  have h4 := hkw ['L', 'E', 'T'] (by decide)
  have h5 := hkw ['G', 'O', 'T', 'O'] (by decide)
  have h6 := hkw ['G', 'O', 'S', 'U', 'B'] (by decide)
  have h7 := hkw ['R', 'E', 'T', 'U', 'R', 'N'] (by decide)
  have h8 := hkw ['I', 'F'] (by decide)
  have h9 := hkw ['R', 'E', 'M'] (by decide)
  have h10 := hkw ['L', 'I', 'S', 'T'] (by decide)
  have h11 := hkw ['E', 'N', 'D'] (by decide)
  simp only [stmt, KEYWORDS, dispatch, h1, h2, h3, h4, h5, h6, h7, h8, h9, h10, h11,
    strspccmp_nil]
  simp

theorem dropWhile_spaces (l : List Char) :
    ∃ a, l = spaces a ++ l.dropWhile (fun ch => ch == ' ') ∧
      ∀ x u, l.dropWhile (fun ch => ch == ' ') = x :: u → x ≠ ' ' := by
  induction l with
  | nil => exact ⟨0, by simp [spaces], by simp⟩
  | cons y l ih =>
    by_cases hy : y = ' '
    · obtain ⟨a, h1, h2⟩ := ih
      refine ⟨a + 1, ?_, ?_⟩
      · subst hy
        simp only [List.dropWhile_cons, beq_self_eq_true, if_true, spaces, List.replicate_succ,
          List.cons_append]
        exact congrArg _ h1
      · intro x u hx
        subst hy
        simp only [List.dropWhile_cons, beq_self_eq_true, if_true] at hx
        exact h2 x u hx
    · refine ⟨0, ?_, ?_⟩
      · simp [spaces, List.dropWhile_cons, hy]
      · intro x u hx
        simp [List.dropWhile_cons, hy] at hx
        rw [← hx.1]
        exact hy

/-- The assignment handler on a line that is no assignment ends the run with
status 18 or 20, having moved nothing but the cursor. -/
theorem f_let_not_assign (n : Nat) (st : State) (line t : List Char)
    (h : st.rest = line ++ '\n' :: t) (hna : bareAssign line = false) :
    ∃ k, f_let n st = .exit (unmatchedStatus line) (st.adv k) := by
  obtain ⟨a, ha, hx⟩ := dropWhile_spaces line
  unfold bareAssign at hna
  unfold unmatchedStatus
  cases hl : line.dropWhile (fun ch => ch == ' ') with
  | nil =>
    rw [hl] at ha
    have h' : st.rest = spaces a ++ '\n' :: t := by
      rw [h, ha]
      simp
    refine ⟨a, ?_⟩
    unfold f_let
    rw [skpspc_spaces st a '\n' t h' (by decide)]
    simp only [Res.bind_ok]
    rw [rest_adv_spaces h']
    simp
  | cons v u =>
    rw [hl] at ha hna
    have hv := hx v u hl
    have h' : st.rest = spaces a ++ v :: (u ++ '\n' :: t) := by
      rw [h, ha]
      simp
    have hr1 : (st.adv a).rest = v :: (u ++ '\n' :: t) := rest_adv_spaces h'
    by_cases hup : v.isUpper = true
    · obtain ⟨b, hb, hy⟩ := dropWhile_spaces u
      simp only [hup, Bool.true_and] at hna
      -- the character after the letter and its spaces is no `=`
      obtain ⟨y, w, hyw, hy1, hy2⟩ : ∃ y w,
          u.dropWhile (fun ch => ch == ' ') ++ '\n' :: t = y :: w ∧ y ≠ ' ' ∧ y ≠ '=' := by
        cases hu : u.dropWhile (fun ch => ch == ' ') with
        | nil => exact ⟨'\n', t, rfl, by decide, by decide⟩
        | cons y w =>
          refine ⟨y, w ++ '\n' :: t, rfl, hy y w hu, ?_⟩
          rw [hu] at hna
          intro hyeq
          subst hyeq
          simp at hna
      have hr2 : ((st.adv a).adv 1).rest = spaces b ++ y :: w := by
        rw [rest_adv_one hr1, ← hyw]
        conv => lhs; rw [hb]
        simp
      refine ⟨a + 1 + b, ?_⟩
      unfold f_let
      rw [skpspc_spaces st a v _ h' hv]
      simp only [Res.bind_ok]
      rw [hr1]
      simp only [hup, Bool.not_true, Bool.false_eq_true, if_false]
      rw [skpspc_spaces _ b y w hr2 hy1]
      simp only [Res.bind_ok]
      rw [rest_adv_spaces hr2]
      simp [hy2, hup]
    · refine ⟨a, ?_⟩
      unfold f_let
      rw [skpspc_spaces st a v _ h' hv]
      simp only [Res.bind_ok]
      rw [hr1]
      simp [hup]

/-- C7 as stated fails: `FOO` matches none of the eleven keywords and is no
assignment, yet the dispatcher ends the run with status 20. -/
theorem stmt_unmatched_counterexample :
    (∀ kw ∈ keywordTexts, strspccmp kw (progState "FOO\n".toList).rest = some (-1)) ∧
    bareAssign "FOO".toList = false ∧
    (stmt 1 (progState "FOO\n".toList)).status = some 20 := by
  refine ⟨by decide, by decide, by decide⟩

/-- C7, amended: a statement text that matches none of the eleven keywords
and is no assignment is passed to the assignment handler through the empty
pattern that ends the table; the run ends with status 18 when the first
character after the spaces is no uppercase letter and with status 20 when it
is one (no `=` follows it); nothing is written and the variables and the call
stack are unchanged when the run ends. -/
theorem stmt_unmatched_fatal (n : Nat) (st : State) (line t : List Char)
    (h : st.rest = line ++ '\n' :: t)
    (hkw : ∀ kw ∈ keywordTexts, strspccmp kw st.rest = some (-1))
    (hna : bareAssign line = false) :
    stmt (n + 1) st = f_let n st ∧
    ∃ fin, stmt (n + 1) st = .exit (unmatchedStatus line) fin ∧
      (unmatchedStatus line = 18 ∨ unmatchedStatus line = 20) ∧
      fin.out = st.out ∧ fin.vars = st.vars ∧ fin.callstack = st.callstack := by
  obtain ⟨k, hk⟩ := f_let_not_assign n st line t h hna
  refine ⟨stmt_no_keyword n st hkw, st.adv k, ?_, ?_, rfl, rfl, rfl⟩
  · rw [stmt_no_keyword n st hkw, hk]
  · unfold unmatchedStatus
    split
    · exact Or.inl rfl
    · split_ifs
      · exact Or.inr rfl
      · exact Or.inl rfl

/-- C7, amended, on the statement `FOO`. -/
theorem stmt_unmatched_fatal_witness :
    stmt 1 (progState "FOO\n".toList) = f_let 0 (progState "FOO\n".toList) ∧
    ∃ fin, stmt 1 (progState "FOO\n".toList) = .exit (unmatchedStatus "FOO".toList) fin ∧
      (unmatchedStatus "FOO".toList = 18 ∨ unmatchedStatus "FOO".toList = 20) ∧
      fin.out = (progState "FOO\n".toList).out ∧ fin.vars = (progState "FOO\n".toList).vars ∧
      fin.callstack = (progState "FOO\n".toList).callstack :=
  stmt_unmatched_fatal 0 (progState "FOO\n".toList) "FOO".toList [NUL]
    (by decide) (by decide) (by decide)

/-! ## Dispatch on a keyword written without spaces -/
theorem stmt_LET (n : Nat) (st : State) (t : List Char) (h : st.rest = 'L' :: 'E' :: 'T' :: t) :
    stmt (n + 1) st = f_let n (st.adv 3) := by
  simp [stmt, dispatch, KEYWORDS, h, strspccmp, strspccmpFrom, scan]

theorem stmt_END (n : Nat) (st : State) (t : List Char) (h : st.rest = 'E' :: 'N' :: 'D' :: t) :
    stmt (n + 1) st = f_end (st.adv 3) := by
  simp [stmt, dispatch, KEYWORDS, h, strspccmp, strspccmpFrom, scan]

theorem stmt_PRINT (n : Nat) (st : State) (t : List Char)
    (h : st.rest = 'P' :: 'R' :: 'I' :: 'N' :: 'T' :: t) :
    stmt (n + 1) st = f_pr n (st.adv 5) := by
  simp [stmt, dispatch, KEYWORDS, h, strspccmp, strspccmpFrom, scan]

/-! ## C8: the bare assignment -/

theorem stable_sameView : Stable SameView where
  rest := fun _ _ h => h.rest
  vars := fun _ _ h => h.vars
  rnd := fun _ _ h => h.rnd
  rndi := fun _ _ h => h.rndi
  adv := fun a b k h =>
    ⟨by rw [State.rest_adv, State.rest_adv, h.rest], h.vars, h.callstack, h.out, h.col, h.rnd,
      h.rndi⟩
  tick := fun a b h =>
    ⟨h.rest, h.vars, h.callstack, h.out, h.col, h.rnd, by
      show a.rndi + 1 = b.rndi + 1
      rw [h.rndi]⟩

/-- The assignment handler cannot tell two states with the same view apart. -/
theorem f_let_sameView (n : Nat) {a b : State} (h : SameView a b) :
    Res.Rel SameView (f_let n a) (f_let n b) := by
  unfold f_let
  refine Res.Rel.bind (skipWhile_rel stable_sameView _ h) ?_
  intro _ s1 s2 h12
  rw [h12.rest]
  cases s2.rest with
  | nil => trivial
  | cons id t =>
    dsimp only
    split_ifs with hid
    · exact ⟨rfl, h12⟩
    · refine Res.Rel.bind (skipWhile_rel stable_sameView _ (stable_sameView.adv _ _ 1 h12)) ?_
      intro _ s3 s4 h34
      rw [h34.rest]
      cases s4.rest with
      | nil => trivial
      | cons ch u =>
        dsimp only
        split_ifs with hch
        · exact ⟨rfl, h34⟩
        · refine Res.Rel.bind
            (skipWhile_rel stable_sameView _ (stable_sameView.adv _ _ 1 h34)) ?_
          intro _ s5 s6 h56
          refine Res.Rel.bind (expr_rel stable_sameView n _ _ h56) ?_
          intro val s7 s8 h78
          exact ⟨rfl, h78.rest, by
            show Function.update s7.vars _ _ = Function.update s8.vars _ _
            rw [h78.vars], h78.callstack, h78.out, h78.col, h78.rnd, h78.rndi⟩

theorem f_let_after_skpspc (n : Nat) {st st1 : State} (h : skpspc st = .ok () st1) :
    f_let n st1 = f_let n st := by
  have h1 : skpspc st1 = .ok () st1 := skipWhile_idem _ h
  simp only [f_let, h, h1, Res.bind_ok]

theorem keywordTexts_eq : keywordTexts =
    [['P', 'R', 'I', 'N', 'T'], ['P', 'R'], ['I', 'N', 'P', 'U', 'T'], ['L', 'E', 'T'],
     ['G', 'O', 'T', 'O'], ['G', 'O', 'S', 'U', 'B'], ['R', 'E', 'T', 'U', 'R', 'N'],
     ['I', 'F'], ['R', 'E', 'M'], ['L', 'I', 'S', 'T'], ['E', 'N', 'D']] := by
  decide

/-- A pattern whose second character is no `=` does not match a letter followed by `=`. -/
theorem strspccmp_assign (p0 p1 : Char) (ps : List Char) (v : Char) (b : Nat) (t : List Char)
    (hp1 : p1 ≠ '=') (hv : v ≠ ' ') :
    strspccmp (p0 :: p1 :: ps) (v :: (spaces b ++ '=' :: t)) = some (-1) := by
  have hs : scan (fun ch => ch == ' ') (v :: (spaces b ++ '=' :: t)) = some 0 := by
    simp [scan, hv]
  have hs2 := scan_spaces b '=' t (by decide)
  unfold strspccmp
  by_cases h0 : p0 = v
  · subst h0
    simp [strspccmpFrom, hs, hs2, hp1]
  · simp [strspccmpFrom, hs, h0]

/-- No keyword of the table matches a bare assignment. -/
theorem no_keyword_matches_assign (v : Char) (b : Nat) (t : List Char) (hv : v ≠ ' ') :
    ∀ kw ∈ keywordTexts, strspccmp kw (v :: (spaces b ++ '=' :: t)) = some (-1) := by
  intro kw hkw
  rw [keywordTexts_eq] at hkw
  simp only [List.mem_cons, List.mem_singleton, List.not_mem_nil, or_false] at hkw
  rcases hkw with rfl | rfl | rfl | rfl | rfl | rfl | rfl | rfl | rfl | rfl | rfl <;>
    exact strspccmp_assign _ _ _ v b t (by decide) hv

/-- C8: for every variable letter `v`, every text `t` after the `=` (so every
expression) and every pair of states that agree on variables, call stack,
output and random numbers, one showing the bare assignment `v = t` at the
cursor and the other `LET v = t`: no keyword of the table matches the bare
assignment, and the dispatcher ends both statements in the same way, with the
same variables, call stack and output and with the same text left at the cursor. -/
theorem bare_assign_as_let (n : Nat) (st1 st2 : State) (v : Char) (a b : Nat) (t : List Char)
    (hv : v.isUpper = true)
    (h1 : st1.rest = v :: (spaces b ++ '=' :: t))
    (h2 : st2.rest = 'L' :: 'E' :: 'T' :: (spaces a ++ v :: (spaces b ++ '=' :: t)))
    (hvars : st1.vars = st2.vars) (hcs : st1.callstack = st2.callstack)
    (hout : st1.out = st2.out) (hcol : st1.col = st2.col)
    (hrnd : st1.rnd = st2.rnd) (hrndi : st1.rndi = st2.rndi) :
    (∀ kw ∈ keywordTexts, strspccmp kw st1.rest = some (-1)) ∧
    stmt (n + 1) st1 = f_let n st1 ∧
    Res.Rel SameView (stmt (n + 1) st1) (stmt (n + 1) st2) := by
  have hsp := isUpper_ne_space hv
  have hkw : ∀ kw ∈ keywordTexts, strspccmp kw st1.rest = some (-1) := by
    rw [h1]
    exact no_keyword_matches_assign v b t hsp
  have hr : (st2.adv 3).rest = spaces a ++ v :: (spaces b ++ '=' :: t) := by
    simp [h2]
  have hsk := skpspc_spaces (st2.adv 3) a v _ hr hsp
  have hr2 : ((st2.adv 3).adv a).rest = v :: (spaces b ++ '=' :: t) := rest_adv_spaces hr
  refine ⟨hkw, stmt_no_keyword n st1 hkw, ?_⟩
  rw [stmt_no_keyword n st1 hkw, stmt_LET n st2 _ h2, ← f_let_after_skpspc n hsk]
  exact f_let_sameView n ⟨by rw [h1, hr2], hvars, hcs, hout, hcol, hrnd, hrndi⟩

/-- C8 on `P=5` and `LET P=5`, `P` being the first letter of two keywords. -/
theorem bare_assign_as_let_witness :
    (∀ kw ∈ keywordTexts, strspccmp kw (progState "P=5\n".toList).rest = some (-1)) ∧
    stmt 4 (progState "P=5\n".toList) = f_let 3 (progState "P=5\n".toList) ∧
    Res.Rel SameView (stmt 4 (progState "P=5\n".toList)) (stmt 4 (progState "LET P=5\n".toList)) :=
  bare_assign_as_let 3 (progState "P=5\n".toList) (progState "LET P=5\n".toList) 'P' 1 0
    "5\n\x00".toList (by decide) (by decide) (by decide) rfl rfl rfl rfl rfl rfl

/-! ## C10: the IF handler -/

/-- A run of `expr` that returns has found a character at the cursor that can start an expression. -/
theorem expr_ok_head {n : Nat} {st st' : State} {v : Int} {x : Char} {t : List Char}
    (he : expr n st = .ok v st') (h : st.rest = x :: t) :
    x = ' ' ∨ x = '+' ∨ x = '-' ∨ x = '(' ∨ x.isUpper = true ∨ x.isDigit = true := by
  by_contra hcon
  simp only [not_or] at hcon
  obtain ⟨h1, h2, h3, h4, h5, h6⟩ := hcon
  cases n with
  | zero => simp [expr] at he
  | succ n =>
    have hs : skpspc st = .ok () st := skpspc_head st x t h h1
    simp only [expr, hs, Res.bind_ok, h, h2, h3, or_self, if_false, unsigned_expr, term, factor,
      h4, h5, h6, Bool.false_eq_true, Res.bind_ub] at he
    cases he

theorem skpspc_then_expr {n : Nat} {st st' : State} {v : Int} (he : expr n st = .ok v st') :
    ∃ st0, skpspc st = .ok () st0 ∧ expr n st0 = .ok v st' ∧ Moved st st0 := by
  cases hs : skpspc st with
  | ok u st0 =>
    refine ⟨st0, rfl, by rw [expr_after_skpspc n hs, he], ?_⟩
    unfold skpspc skipWhile at hs
    split at hs
    · cases hs
    · cases hs
      exact Moved.adv st _
  | exit k st1 =>
    simp [skpspc, skipWhile] at hs
    split at hs <;> cases hs
  | ub =>
    cases n with
    | zero => simp [expr] at he
    | succ n => simp [expr, hs] at he
  | oof =>
    simp [skpspc, skipWhile] at hs
    split at hs <;> cases hs

theorem strspccmpFrom_step (p : Char) (ps : List Char) (k : Nat) (t : List Char) (i : Int)
    (hp : p ≠ ' ') :
    strspccmpFrom (p :: ps) (spaces k ++ p :: t) i = strspccmpFrom ps t (i + k + 1) := by
  have hd : List.drop k (spaces k ++ p :: t) = p :: t := by
    simp
  simp only [strspccmpFrom, scan_spaces k p t hp, hd, ne_eq, not_true_eq_false, if_false]

theorem strspccmp_then (g1 g2 g3 : Nat) (t : List Char) :
    strspccmp ['T', 'H', 'E', 'N']
        ('T' :: (spaces g1 ++ 'H' :: (spaces g2 ++ 'E' :: (spaces g3 ++ 'N' :: t))))
      = some ((4 + g1 + g2 + g3 : Nat) : Int) := by
  unfold strspccmp
  have h0 := strspccmpFrom_step 'T' ['H', 'E', 'N'] 0
    (spaces g1 ++ 'H' :: (spaces g2 ++ 'E' :: (spaces g3 ++ 'N' :: t))) 0 (by decide)
  simp only [spaces, List.replicate_zero, List.nil_append] at h0
  rw [show List.replicate g1 ' ' = spaces g1 from rfl, show List.replicate g2 ' ' = spaces g2 from rfl,
    show List.replicate g3 ' ' = spaces g3 from rfl] at h0
  rw [h0, strspccmpFrom_step 'H' _ g1 _ _ (by decide), strspccmpFrom_step 'E' _ g2 _ _ (by decide),
    strspccmpFrom_step 'N' _ g3 _ _ (by decide)]
  simp only [strspccmpFrom]
  congr 1
  push_cast
  ring

theorem char_eq_of_toNat {c d : Char} (h : c.toNat = d.toNat) : c = d := by
  apply Char.ext
  cases c with | mk cv _ => cases d with | mk dv _ =>
  cases cv with | mk cb => cases dv with | mk db =>
  simp only [Char.toNat, UInt32.toNat] at h
  have hb : cb = db := BitVec.eq_of_toNat_eq h
  subst hb
  rfl

theorem opchar_iff (x : Char) :
    (x.toNat > 59 ∧ x.toNat < 63) ↔ (x = '<' ∨ x = '=' ∨ x = '>') := by
  constructor
  · rintro ⟨h1, h2⟩
    have : x.toNat = 60 ∨ x.toNat = 61 ∨ x.toNat = 62 := by omega
    rcases this with h | h | h
    · exact Or.inl (char_eq_of_toNat h)
    · exact Or.inr (Or.inl (char_eq_of_toNat h))
    · exact Or.inr (Or.inr (char_eq_of_toNat h))
  · rintro (rfl | rfl | rfl) <;> decide

theorem relop_decode (op : RelOp) (x : Char) (u : List Char) (e0 e1 : Int)
    (hx : x ≠ '<' ∧ x ≠ '=' ∧ x ≠ '>') :
    ∃ op0 op1 w, op.text ++ x :: u = op0 :: op1 :: w ∧
      (decide (op0.toNat < 60) || decide (op0.toNat > 62)) = false ∧
      relHolds op0 op1 e0 e1 = some (op.holds e0 e1) ∧
      (if op1.toNat > 59 ∧ op1.toNat < 63 then 2 else 1) = op.text.length := by
  obtain ⟨h1, h2, h3⟩ := hx
  have hx' : ¬ (x.toNat > 59 ∧ x.toNat < 63) := by
    rw [opchar_iff]
    simp [h1, h2, h3]
  cases op
  · exact ⟨'=', x, u, rfl, by decide, by simp [relHolds, RelOp.holds], by
      simp [RelOp.text, hx']⟩
  · exact ⟨'<', x, u, rfl, by decide, by simp [relHolds, RelOp.holds, h2, h3], by
      simp [RelOp.text, hx']⟩
  · exact ⟨'<', '=', x :: u, rfl, by decide, by simp [relHolds, RelOp.holds], by
      simp [RelOp.text]⟩
  · exact ⟨'<', '>', x :: u, rfl, by decide, by simp [relHolds, RelOp.holds], by
      simp [RelOp.text]⟩
  · exact ⟨'>', x, u, rfl, by decide, by simp [relHolds, RelOp.holds, h1, h2], by
      simp [RelOp.text, hx']⟩
  · exact ⟨'>', '=', x :: u, rfl, by decide, by simp [relHolds, RelOp.holds], by
      simp [RelOp.text]⟩

/-- The part of `f_if` between the right expression and the statement: spaces,
the optional THEN, spaces. -/
theorem skip_then (st2 : State) (a : Nat) (th : Option (Nat × Nat × Nat × Nat))
    (line t : List Char) (K : Unit → State → Res Unit)
    (hS : st2.rest = spaces a ++ (thenText th ++ (line ++ '\n' :: t)))
    (hx : line.head? ≠ some ' ')
    (hth : th = none → strspccmp ['T', 'H', 'E', 'N'] (line ++ '\n' :: t) = some (-1)) :
    ((skpspc st2).bind fun _ st =>
      match strspccmp ['T', 'H', 'E', 'N'] st.rest with
      | none => .ub
      | some eq => (skpspc (if eq ≥ 0 then st.adv eq.toNat else st)).bind K)
      = K () (st2.adv (a + (thenText th).length)) := by
  obtain ⟨y, w, hyw, hy⟩ : ∃ y w, line ++ '\n' :: t = y :: w ∧ y ≠ ' ' := by
    cases line with
    | nil => exact ⟨'\n', t, rfl, by decide⟩
    | cons y l =>
      refine ⟨y, l ++ '\n' :: t, rfl, ?_⟩
      rintro rfl
      exact hx rfl
  cases th with
  | none =>
    have hS' : st2.rest = spaces a ++ y :: w := by
      rw [hS, ← hyw]
      simp [thenText]
    have hr : (st2.adv a).rest = y :: w := rest_adv_spaces hS'
    rw [skpspc_spaces st2 a y w hS' hy]
    simp only [Res.bind_ok]
    rw [hr, ← hyw, hth rfl]
    simp only [ge_iff_le, Int.reduceNeg, Int.reduceLE, if_false]
    rw [skpspc_head _ y w hr hy]
    simp [thenText]
  | some g =>
    obtain ⟨g1, g2, g3, b⟩ := g
    have hS' : st2.rest = spaces a ++ 'T' :: (spaces g1 ++ 'H' :: (spaces g2 ++ 'E' ::
        (spaces g3 ++ 'N' :: (spaces b ++ y :: w)))) := by
      rw [hS, ← hyw]
      simp [thenText]
    have hr : (st2.adv a).rest = 'T' :: (spaces g1 ++ 'H' :: (spaces g2 ++ 'E' ::
        (spaces g3 ++ 'N' :: (spaces b ++ y :: w)))) := rest_adv_spaces hS'
    have hA : 'T' :: (spaces g1 ++ 'H' :: (spaces g2 ++ 'E' :: (spaces g3 ++ 'N' ::
        (spaces b ++ y :: w))))
        = ('T' :: (spaces g1 ++ 'H' :: (spaces g2 ++ 'E' :: (spaces g3 ++ ['N']))))
          ++ (spaces b ++ y :: w) := by
      simp
    have hlenA : ('T' :: (spaces g1 ++ 'H' :: (spaces g2 ++ 'E' :: (spaces g3 ++ ['N'])))).length
        = 4 + g1 + g2 + g3 := by
      simp
      omega
    have hr2 : ((st2.adv a).adv (4 + g1 + g2 + g3)).rest = spaces b ++ y :: w := by
      rw [State.rest_adv, hr, hA, ← hlenA]
      exact List.drop_left _ _
    rw [skpspc_spaces st2 a 'T' _ hS' (by decide)]
    simp only [Res.bind_ok]
    rw [hr, strspccmp_then]
    simp only [ge_iff_le, Int.toNat_ofNat, Nat.cast_nonneg, if_true]
    rw [skpspc_spaces _ b y w hr2 hy]
    simp only [State.adv_adv]
    have hl : (thenText (some (g1, g2, g3, b))).length = 4 + g1 + g2 + g3 + b := by
      simp [thenText]
      omega
    rw [hl, show a + (4 + g1 + g2 + g3) + b = a + (4 + g1 + g2 + g3 + b) by omega]
    rfl

/-- The heart of C10: what `f_if` does on `e0 op e1 THEN S`. -/
theorem f_if_eval (stmtF : State → Res Unit) (n : Nat) (st st1 st2 : State) (e0 e1 : Int)
    (op : RelOp) (r1 : List Char) (a : Nat) (th : Option (Nat × Nat × Nat × Nat))
    (line t : List Char)
    (h0 : expr n st = .ok e0 st1)
    (hop : st1.rest = op.text ++ r1)
    (h1 : expr n (st1.adv op.text.length) = .ok e1 st2)
    (hS : st2.rest = spaces a ++ (thenText th ++ (line ++ '\n' :: t)))
    (hx : line.head? ≠ some ' ') (hline : '\n' ∉ line)
    (hth : th = none → strspccmp ['T', 'H', 'E', 'N'] (line ++ '\n' :: t) = some (-1)) :
    f_if stmtF n st =
      if op.holds e0 e1 = true then stmtF (st2.adv (a + (thenText th).length))
      else .ok () (st2.adv (a + (thenText th).length + line.length)) := by
  obtain ⟨st0, hs0, he0, _⟩ := skpspc_then_expr h0
  -- the text after the operator starts an expression
  have hr1 : (st1.adv op.text.length).rest = r1 := rest_adv_append hop
  obtain ⟨x, u, hxu⟩ : ∃ x u, r1 = x :: u := by
    cases hr : r1 with
    | nil =>
      rw [hr] at hr1
      cases n with
      | zero => simp [expr] at h1
      | succ n => simp [expr, skpspc, skipWhile, hr1, scan] at h1
    | cons x u => exact ⟨x, u, rfl⟩
  have hxop : x ≠ '<' ∧ x ≠ '=' ∧ x ≠ '>' := by
    have := expr_ok_head h1 (hr1.trans hxu)
    refine ⟨?_, ?_, ?_⟩ <;> rintro rfl <;> revert this <;> decide
  obtain ⟨op0, op1, w, how, hscan, hrel, hlen⟩ := relop_decode op x u e0 e1 hxop
  have hrest1 : st1.rest = op0 :: op1 :: w := by rw [hop, hxu, how]
  have hsk : skipWhile (fun ch => decide (ch.toNat < 60) || decide (ch.toNat > 62)) st1
      = .ok () st1 := by
    simp [skipWhile, hrest1, scan, hscan]
  have hadv : (if op1.toNat > 59 ∧ op1.toNat < 63 then st1.adv 2 else st1.adv 1)
      = st1.adv op.text.length := by
    rw [← hlen]
    split_ifs <;> rfl
  have hr3 : (st2.adv (a + (thenText th).length)).rest = line ++ '\n' :: t := by
    rw [State.rest_adv, hS]
    have := List.drop_left (spaces a ++ thenText th) (line ++ '\n' :: t)
    simpa using this
  have hskip : skpto '\n' (st2.adv (a + (thenText th).length))
      = .ok () (st2.adv (a + (thenText th).length + line.length)) := by
    have := skipWhile_append (p := fun ch => ch != '\n') _ line '\n' t hr3
      (fun y hy => by
        have : y ≠ '\n' := fun hyn => hline (hyn ▸ hy)
        simpa using this)
      (by simp)
    simpa [skpto] using this
  unfold f_if
  rw [hs0]
  simp only [Res.bind_ok]
  rw [he0]
  simp only [Res.bind_ok]
  rw [hsk]
  simp only [Res.bind_ok]
  rw [hrest1]
  simp only [hadv]
  rw [h1]
  simp only [Res.bind_ok]
  refine (skip_then st2 a th line t _ hS hx hth).trans ?_
  rw [hrel]
  cases op.holds e0 e1 with
  | true => simp
  | false => simp [hskip]


/-- C10: on `e0 op e1 THEN S` (THEN optional, written with any spacing), where
the evaluator returns `e0` and `e1` on the two expressions and `op` is one of
`=`, `<`, `<=`, `<>`, `>`, `>=`, the IF handler runs the dispatcher on `S`, with
output, variables and call stack as they were, when the relation named by `op`
holds of `e0` and `e1`; when it does not hold the handler returns without
running the dispatcher, with output, variables and call stack as they were and
the cursor on the newline that ends the line.  `IF 1=1 THEN PRINT 5` prints `5`
and a line break, `IF 1=2 THEN PRINT 5` prints nothing. -/
theorem f_if_runs_iff_relation :
    (∀ (stmtF : State → Res Unit) (n : Nat) (st st1 st2 : State) (e0 e1 : Int) (op : RelOp)
        (r1 : List Char) (a : Nat) (th : Option (Nat × Nat × Nat × Nat)) (line t : List Char),
      expr n st = .ok e0 st1 →
      st1.rest = op.text ++ r1 →
      expr n (st1.adv op.text.length) = .ok e1 st2 →
      st2.rest = spaces a ++ (thenText th ++ (line ++ '\n' :: t)) →
      line.head? ≠ some ' ' → '\n' ∉ line →
      (th = none → strspccmp ['T', 'H', 'E', 'N'] (line ++ '\n' :: t) = some (-1)) →
      (op.holds e0 e1 = true →
        ∃ atS, f_if stmtF n st = stmtF atS ∧ atS.rest = line ++ '\n' :: t ∧
          atS.out = st.out ∧ atS.vars = st.vars ∧ atS.callstack = st.callstack) ∧
      (op.holds e0 e1 = false →
        ∃ fin, f_if stmtF n st = .ok () fin ∧ fin.rest = '\n' :: t ∧
          fin.out = st.out ∧ fin.vars = st.vars ∧ fin.callstack = st.callstack)) ∧
    (stmt 6 (progState "IF 1=1 THEN PRINT 5\n".toList)).output = some "5\r\n".toList ∧
    (stmt 6 (progState "IF 1=2 THEN PRINT 5\n".toList)).output = some [] := by
  refine ⟨?_, by decide, by decide⟩
  intro stmtF n st st1 st2 e0 e1 op r1 a th line t h0 hop h1 hS hx hline hth
  have hev := f_if_eval stmtF n st st1 st2 e0 e1 op r1 a th line t h0 hop h1 hS hx hline hth
  have hm : Moved st st2 :=
    ((expr_moved h0).trans (Moved.adv st1 _)).trans (expr_moved h1)
  have hr3 : (st2.adv (a + (thenText th).length)).rest = line ++ '\n' :: t := by
    rw [State.rest_adv, hS]
    have := List.drop_left (spaces a ++ thenText th) (line ++ '\n' :: t)
    simpa using this
  constructor
  · intro hrel
    rw [hrel] at hev
    exact ⟨_, hev, hr3, hm.out, hm.vars, hm.callstack⟩
  · intro hrel
    rw [hrel] at hev
    refine ⟨_, hev, ?_, hm.out, hm.vars, hm.callstack⟩
    rw [← State.adv_adv]
    exact rest_adv_append hr3

/-- C10 on `IF 1=1 THEN PRINT 5`, after the keyword IF. -/
theorem f_if_runs_iff_relation_witness :
    (RelOp.eq.holds 1 1 = true →
      ∃ atS, f_if (stmt 5) 5 ((progState "IF 1=1 THEN PRINT 5\n".toList).adv 2) = stmt 5 atS ∧
        atS.rest = "PRINT 5".toList ++ '\n' :: [NUL] ∧
        atS.out = ((progState "IF 1=1 THEN PRINT 5\n".toList).adv 2).out ∧
        atS.vars = ((progState "IF 1=1 THEN PRINT 5\n".toList).adv 2).vars ∧
        atS.callstack = ((progState "IF 1=1 THEN PRINT 5\n".toList).adv 2).callstack) ∧
    (RelOp.eq.holds 1 1 = false →
      ∃ fin, f_if (stmt 5) 5 ((progState "IF 1=1 THEN PRINT 5\n".toList).adv 2) = .ok () fin ∧
        fin.rest = '\n' :: [NUL] ∧
        fin.out = ((progState "IF 1=1 THEN PRINT 5\n".toList).adv 2).out ∧
        fin.vars = ((progState "IF 1=1 THEN PRINT 5\n".toList).adv 2).vars ∧
        fin.callstack = ((progState "IF 1=1 THEN PRINT 5\n".toList).adv 2).callstack) :=
  f_if_runs_iff_relation.1 (stmt 5) 5 ((progState "IF 1=1 THEN PRINT 5\n".toList).adv 2)
    ((progState "IF 1=1 THEN PRINT 5\n".toList).adv 4)
    ((progState "IF 1=1 THEN PRINT 5\n".toList).adv 7) 1 1 RelOp.eq
    "1 THEN PRINT 5\n\x00".toList 0 (some (0, 0, 0, 1)) "PRINT 5".toList [NUL]
    (by rfl) (by decide) (by rfl) (by decide) (by decide) (by decide) (by decide)


/-! ## C5 and C6: branching to a line -/

theorem progText_append (p q : List Line) : progText (p ++ q) = progText p ++ progText q := by
  induction p with
  | nil => rfl
  | cons l p ih => simp [progText, ih]

/-- The number `atoi` reads at the start of a line is the number of the line. -/
theorem atoi_line (l : Line) (t : List Char) (hl : l.WF) :
    atoi (l.text ++ t) = some (l.number : Int) := by
  obtain ⟨hlit, hmax, _, hhead⟩ := hl
  obtain ⟨x, u, hxu, hx⟩ : ∃ x u, l.body ++ '\n' :: t = x :: u ∧ x.isDigit = false := by
    cases hb : l.body with
    | nil => exact ⟨'\n', t, rfl, by decide⟩
    | cons x b => exact ⟨x, b ++ '\n' :: t, rfl, hhead x (by simp [hb])⟩
  have := atoi_literal l.num x u hlit hx hmax
  rw [← hxu] at this
  simpa [Line.text, Line.number] using this

/-- Skipping to the newline from the start of a line stops at the end of the line. -/
theorem skpto_nl_line (st : State) (l : Line) (t : List Char) (hl : l.WF)
    (h : st.rest = l.text ++ t) :
    skpto '\n' st = .ok () (st.adv (l.num.length + l.body.length)) := by
  obtain ⟨hlit, _, hnl, _⟩ := hl
  have h' : st.rest = (l.num ++ l.body) ++ '\n' :: t := by
    rw [h]
    simp [Line.text]
  have := skipWhile_append (p := fun ch => ch != '\n') st (l.num ++ l.body) '\n' t h'
    (fun y hy => by
      have : y ≠ '\n' := by
        rintro rfl
        rcases List.mem_append.1 hy with h1 | h1
        · exact absurd (hlit.2 _ h1) (by decide)
        · exact hnl h1
      simpa using this)
    (by simp)
  simpa [skpto] using this

theorem length_line_text (l : Line) : l.text.length = l.num.length + l.body.length + 1 := by
  simp [Line.text]
  omega

/-- The loop of `gotoln` passes the lines whose number is below the target and
stops at the first line whose number is not. -/
theorem gotolnLoop_finds (ln : Int) (pre : List Line) :
    ∀ (n : Nat) (st : State) (l : Line) (t : List Char),
      (∀ x ∈ pre, x.WF ∧ (x.number : Int) < ln) → l.WF → ln ≤ (l.number : Int) →
      st.rest = progText pre ++ (l.text ++ t) → pre.length < n →
      gotolnLoop n ln st = .ok () (st.adv (progText pre).length) := by
  induction pre with
  | nil =>
    intro n st l t _ hl hge h hn
    obtain ⟨n, rfl⟩ : ∃ m, n = m + 1 := ⟨n - 1, by simp at hn; omega⟩
    have h' : st.rest = l.text ++ t := by simpa [progText] using h
    unfold gotolnLoop
    rw [h', atoi_line l t hl]
    simp only [not_lt.2 hge, if_false]
    simp [progText]
  | cons x pre ih =>
    intro n st l t hpre hl hge h hn
    obtain ⟨n, rfl⟩ : ∃ m, n = m + 1 := ⟨n - 1, by simp at hn; omega⟩
    obtain ⟨hx, hlt⟩ := hpre x (List.mem_cons_self _ _)
    have h' : st.rest = x.text ++ (progText pre ++ (l.text ++ t)) := by
      rw [h]
      simp [progText]
    have hr : ((st.adv (x.num.length + x.body.length)).adv 1).rest
        = progText pre ++ (l.text ++ t) := by
      rw [State.adv_adv, ← length_line_text]
      exact rest_adv_append h'
    unfold gotolnLoop
    rw [h', atoi_line x _ hx]
    simp only [hlt, if_true]
    rw [skpto_nl_line st x _ hx h']
    simp only [Res.bind_ok]
    rw [ih n _ l t (fun y hy => hpre y (List.mem_cons_of_mem _ hy)) hl hge hr
      (by simp at hn; omega)]
    simp only [State.adv_adv, progText, List.length_append, length_line_text]

/-- The lines before a line of a program have smaller numbers. -/
theorem lines_before_lt (pre : List Line) (l : Line) (post : List Line)
    (hp : IsProgram (pre ++ l :: post)) :
    (∀ x ∈ pre, x.WF ∧ x.number < l.number) ∧ l.WF ∧ ∀ y ∈ post, l.number < y.number := by
  obtain ⟨hwf, hinc⟩ := hp
  rw [List.map_append, List.map_cons, List.pairwise_append] at hinc
  obtain ⟨_, h2, h3⟩ := hinc
  refine ⟨fun x hx => ⟨hwf x (List.mem_append_left _ hx), ?_⟩, hwf l (by simp), ?_⟩
  · exact h3 _ (List.mem_map_of_mem _ hx) _ (List.mem_cons_self _ _)
  · intro y hy
    rw [List.pairwise_cons] at h2
    exact h2.1 _ (List.mem_map_of_mem _ hy)

/-- What `f_goto` does once its argument is evaluated, when some line has a
number that is not below the target: the cursor goes to the first such line,
and the run ends with status 37 unless that line has the target as its number. -/
theorem f_goto_eval (n : Nat) (st stE : State) (ln : Int) (pre : List Line) (l : Line)
    (post : List Line) (hp : IsProgram (pre ++ l :: post))
    (hs : st.s = progText (pre ++ l :: post) ++ [NUL])
    (he : expr n st = .ok ln stE) (hln : ln ≠ 0)
    (hpre : ∀ x ∈ pre, (x.number : Int) < ln) (hl : ln ≤ (l.number : Int))
    (hn : pre.length < n) :
    f_goto n st =
      if (l.number : Int) = ln then .ok () { stE with c := ⟨.src, (progText pre).length⟩ }
      else .exit 37 { stE with c := ⟨.src, (progText pre).length⟩ } := by
  obtain ⟨hwfpre, hwfl, _⟩ := lines_before_lt pre l post hp
  have hm := expr_moved he
  have hrest : ({ stE with c := ⟨.src, 0⟩ } : State).rest
      = progText pre ++ (l.text ++ (progText post ++ [NUL])) := by
    simp [State.rest, State.from, State.mem, hm.s, hs, progText_append, progText]
  have hfind := gotolnLoop_finds ln pre n { stE with c := ⟨.src, 0⟩ } l (progText post ++ [NUL])
    (fun x hx => ⟨(hwfpre x hx).1, hpre x hx⟩) hwfl hl hrest hn
  have hadv : ({ stE with c := ⟨.src, 0⟩ } : State).adv (progText pre).length
      = { stE with c := ⟨.src, (progText pre).length⟩ } := by
    simp [State.adv]
  have hrest2 : ({ stE with c := ⟨.src, (progText pre).length⟩ } : State).rest
      = l.text ++ (progText post ++ [NUL]) := by
    rw [← hadv]
    exact rest_adv_append hrest
  unfold f_goto
  rw [he]
  simp only [Res.bind_ok, gotoln, hln, if_false]
  rw [hfind, hadv]
  simp only [Res.bind_ok]
  rw [hrest2, atoi_line l _ hwfl]
  by_cases heq : (l.number : Int) = ln
  · simp [heq]
  · simp [heq]


/-- The loop of `gotoln` on a target above every line number passes every
line, reads the terminator as the number 0 and leaves the source array looking
for a newline. -/
theorem gotolnLoop_beyond (ln : Int) (hln : 0 < ln) (pre : List Line) :
    ∀ (n : Nat) (st : State),
      (∀ x ∈ pre, x.WF ∧ (x.number : Int) < ln) →
      st.rest = progText pre ++ [NUL] → pre.length < n →
      gotolnLoop n ln st = .ub := by
  induction pre with
  | nil =>
    intro n st _ h hn
    obtain ⟨n, rfl⟩ : ∃ m, n = m + 1 := ⟨n - 1, by simp at hn; omega⟩
    have h' : st.rest = [NUL] := by simpa [progText] using h
    have ha : atoi [NUL] = some 0 := by decide
    have hs : scan (fun ch => ch != '\n') [NUL] = none := by decide
    unfold gotolnLoop
    rw [h', ha]
    simp only [hln, if_true, skpto, skipWhile, h', hs, Res.bind_ub]
  | cons x pre ih =>
    intro n st hpre h hn
    obtain ⟨n, rfl⟩ : ∃ m, n = m + 1 := ⟨n - 1, by simp at hn; omega⟩
    obtain ⟨hx, hlt⟩ := hpre x (List.mem_cons_self _ _)
    have h' : st.rest = x.text ++ (progText pre ++ [NUL]) := by
      rw [h]
      simp [progText]
    have hr : ((st.adv (x.num.length + x.body.length)).adv 1).rest = progText pre ++ [NUL] := by
      rw [State.adv_adv, ← length_line_text]
      exact rest_adv_append h'
    unfold gotolnLoop
    rw [h', atoi_line x _ hx]
    simp only [hlt, if_true]
    rw [skpto_nl_line st x _ hx h']
    simp only [Res.bind_ok]
    exact ih n _ (fun y hy => hpre y (List.mem_cons_of_mem _ hy)) hr (by simp at hn; omega)

/-- GOTO with a target above every line number of the program is undefined behaviour. -/
theorem f_goto_beyond (n : Nat) (st stE : State) (ln : Int) (p : List Line)
    (hp : IsProgram p) (hs : st.s = progText p ++ [NUL])
    (he : expr n st = .ok ln stE) (hln : 0 < ln)
    (hall : ∀ x ∈ p, (x.number : Int) < ln) (hn : p.length < n) :
    f_goto n st = .ub := by
  have hm := expr_moved he
  have hrest : ({ stE with c := ⟨.src, 0⟩ } : State).rest = progText p ++ [NUL] := by
    simp [State.rest, State.from, State.mem, hm.s, hs]
  have := gotolnLoop_beyond ln hln p n { stE with c := ⟨.src, 0⟩ }
    (fun x hx => ⟨hp.1 x hx, hall x hx⟩) hrest hn
  unfold f_goto
  rw [he]
  simp only [Res.bind_ok, gotoln, ne_of_gt hln, if_false, this, Res.bind_ub]

/-- GOTO with a non-zero target that is no line number, when some line has a
greater number, ends the run with status 37. -/
theorem f_goto_missing (n : Nat) (st stE : State) (ln : Int) (pre : List Line) (l : Line)
    (post : List Line) (hp : IsProgram (pre ++ l :: post))
    (hs : st.s = progText (pre ++ l :: post) ++ [NUL])
    (he : expr n st = .ok ln stE) (hln : ln ≠ 0)
    (hpre : ∀ x ∈ pre, (x.number : Int) < ln) (hl : ln < (l.number : Int))
    (hn : pre.length < n) :
    f_goto n st = .exit 37 { stE with c := ⟨.src, (progText pre).length⟩ } := by
  rw [f_goto_eval n st stE ln pre l post hp hs he hln hpre (le_of_lt hl) hn,
    if_neg (ne_of_gt hl)]

/-- C5: with lines 10, 20, 30, `GOTO 25` ends the run with status 37, but
`GOTO 40`, whose target is above every line number, does not, with any fuel
from 10 on: the loop of `gotoln` reads past the end of the source array, which
is undefined behaviour. -/
theorem goto_beyond_last_line (m : Nat) :
    (main (m + 10) "10 GOTO 25\n20 END\n30 END\n".toList [] (fun _ => 0)).status = some 37 ∧
    (main (m + 10) "10 GOTO 40\n20 END\n30 END\n".toList [] (fun _ => 0)).status = none ∧
    (main (m + 10) "10 GOTO 40\n20 END\n30 END\n".toList [] (fun _ => 0)).undefined = true := by
  have h1 : (main 10 "10 GOTO 25\n20 END\n30 END\n".toList [] (fun _ => 0)).status = some 37 := by
    decide
  have h2 : (main 10 "10 GOTO 40\n20 END\n30 END\n".toList [] (fun _ => 0)).undefined = true := by
    decide
  have hm1 : main (m + 10) "10 GOTO 25\n20 END\n30 END\n".toList [] (fun _ => 0)
      = main 10 "10 GOTO 25\n20 END\n30 END\n".toList [] (fun _ => 0) :=
    mainLoop_mono rfl (fun h => by rw [h] at h1; cases h1) (by omega)
  have hm2 : main (m + 10) "10 GOTO 40\n20 END\n30 END\n".toList [] (fun _ => 0)
      = main 10 "10 GOTO 40\n20 END\n30 END\n".toList [] (fun _ => 0) :=
    mainLoop_mono rfl (fun h => by rw [h] at h2; cases h2) (by omega)
  rw [hm1, hm2]
  refine ⟨h1, ?_, h2⟩
  revert h2
  cases main 10 "10 GOTO 40\n20 END\n30 END\n".toList [] (fun _ => 0) <;> simp [Res.undefined, Res.status]

/-- C6: in a newline-terminated program with increasing line numbers, GOTO
with an argument that evaluates to the number of a line, not 0, returns with
the cursor on the first character of that line, every earlier line having a
smaller number, and with variables, call stack and output unchanged; GOTO with
an argument that evaluates to 0 ends the run with status 9. -/
theorem f_goto_finds_line :
    (∀ (n : Nat) (st stE : State) (pre : List Line) (l : Line) (post : List Line),
      IsProgram (pre ++ l :: post) →
      st.s = progText (pre ++ l :: post) ++ [NUL] →
      expr n st = .ok (l.number : Int) stE → 0 < l.number → pre.length < n →
      ∃ fin, f_goto n st = .ok () fin ∧
        fin.c = ⟨.src, (progText pre).length⟩ ∧
        fin.rest = l.text ++ (progText post ++ [NUL]) ∧
        (∀ x ∈ pre, x.number < l.number) ∧
        fin.vars = st.vars ∧ fin.callstack = st.callstack ∧ fin.out = st.out) ∧
    (∀ (n : Nat) (st stE : State), expr n st = .ok 0 stE → f_goto n st = .exit 9 stE) := by
  constructor
  · intro n st stE pre l post hp hs he hpos hn
    obtain ⟨hwfpre, _, _⟩ := lines_before_lt pre l post hp
    have hm := expr_moved he
    have hev := f_goto_eval n st stE l.number pre l post hp hs he
      (by exact_mod_cast (Nat.pos_iff_ne_zero.1 hpos))
      (fun x hx => by exact_mod_cast (hwfpre x hx).2) (le_refl _) hn
    rw [if_pos rfl] at hev
    refine ⟨_, hev, rfl, ?_, fun x hx => (hwfpre x hx).2, hm.vars, hm.callstack, hm.out⟩
    simp [State.rest, State.from, State.mem, hm.s, hs, progText_append, progText]
  · intro n st stE he
    unfold f_goto
    rw [he]
    simp [gotoln]

/-- C6 on `GOTO 30` in the program with lines 10, 20, 30, after the keyword. -/
theorem f_goto_finds_line_witness :
    ∃ fin, f_goto 3 ((progState "10 GOTO 30\n20 END\n30 END\n".toList).adv 7) = .ok () fin ∧
      fin.c = ⟨.src, (progText [⟨"10".toList, " GOTO 30".toList⟩,
        ⟨"20".toList, " END".toList⟩]).length⟩ ∧
      fin.rest = (Line.mk "30".toList " END".toList).text ++ (progText [] ++ [NUL]) ∧
      (∀ x ∈ [Line.mk "10".toList " GOTO 30".toList, ⟨"20".toList, " END".toList⟩],
        x.number < (Line.mk "30".toList " END".toList).number) ∧
      fin.vars = ((progState "10 GOTO 30\n20 END\n30 END\n".toList).adv 7).vars ∧
      fin.callstack = ((progState "10 GOTO 30\n20 END\n30 END\n".toList).adv 7).callstack ∧
      fin.out = ((progState "10 GOTO 30\n20 END\n30 END\n".toList).adv 7).out :=
  f_goto_finds_line.1 3 ((progState "10 GOTO 30\n20 END\n30 END\n".toList).adv 7)
    ((progState "10 GOTO 30\n20 END\n30 END\n".toList).adv 10)
    [⟨"10".toList, " GOTO 30".toList⟩, ⟨"20".toList, " END".toList⟩]
    ⟨"30".toList, " END".toList⟩ [] (by decide) (by decide) (by rfl) (by decide) (by decide)


/-! ## C2: a three-line program, end to end -/

theorem digitChar_isDigit (m : Nat) (h : m < 10) : (Nat.digitChar m).isDigit = true := by
  interval_cases m <;> decide

theorem digitChar_val (m : Nat) (h : m < 10) : (Nat.digitChar m).toNat - 48 = m := by
  interval_cases m <;> decide

theorem toDigitsCore_spec (fuel : Nat) : ∀ (n : Nat) (ds : List Char), n < fuel →
    (∀ ch ∈ ds, ch.isDigit = true) →
    (∀ ch ∈ Nat.toDigitsCore 10 fuel n ds, ch.isDigit = true) ∧
    Nat.toDigitsCore 10 fuel n ds ≠ [] ∧
    (Nat.toDigitsCore 10 fuel n ds).foldl (fun a ch => a * 10 + (ch.toNat - 48)) 0
      = ds.foldl (fun a ch => a * 10 + (ch.toNat - 48)) n := by
  induction fuel with
  | zero => intro n ds h; omega
  | succ fuel ih =>
    intro n ds hn hds
    have hd := digitChar_isDigit (n % 10) (Nat.mod_lt _ (by decide))
    have hv := digitChar_val (n % 10) (Nat.mod_lt _ (by decide))
    unfold Nat.toDigitsCore
    simp only
    split_ifs with h0
    · refine ⟨?_, by simp, ?_⟩
      · intro ch hch
        rcases List.mem_cons.1 hch with rfl | h'
        · exact hd
        · exact hds ch h'
      · simp only [List.foldl_cons, Nat.zero_mul, Nat.zero_add, hv]
        have : n % 10 = n := by omega
        rw [this]
    · have hlt : n / 10 < fuel := by omega
      obtain ⟨h1, h2, h3⟩ := ih (n / 10) (Nat.digitChar (n % 10) :: ds) hlt (by
        intro ch hch
        rcases List.mem_cons.1 hch with rfl | h'
        · exact hd
        · exact hds ch h')
      refine ⟨h1, h2, ?_⟩
      rw [h3]
      simp only [List.foldl_cons, hv]
      have : n / 10 * 10 + n % 10 = n := by omega
      rw [this]

/-- The decimal text of a number is a literal whose value is the number. -/
theorem toDigits_literal (k : Nat) :
    IsLiteral (Nat.toDigits 10 k) ∧ decVal (Nat.toDigits 10 k) = k := by
  obtain ⟨h1, h2, h3⟩ := toDigitsCore_spec (k + 1) k [] (Nat.lt_succ_self k) (by simp)
  exact ⟨⟨h2, h1⟩, by simpa [decVal, Nat.toDigits] using h3⟩

/-- One round of the loop of `f_pr`: an expression that ends at the newline. -/
theorem prLoop_expr_line (ex : State → Res Int) (n : Nat) (st st' : State) (val : Int)
    (x : Char) (u t : List Char) (h : st.rest = x :: u) (hx1 : x ≠ '\n') (hx2 : x ≠ DQUOTE)
    (he : ex st = .ok val st') (h' : st'.rest = '\n' :: t) :
    prLoop ex (n + 1) st
      = .ok () { st' with col := 0, out := st'.out ++ printf_hd val ++ ['\r', '\n'] } := by
  unfold prLoop
  rw [h]
  simp only [hx1, hx2, if_false, he, Res.bind_ok]
  have hs : skipWhile (fun x => x != ',' && x != ';' && x != ':' && x != '\n')
      { st' with col := st'.col + (printf_hd val).length, out := st'.out ++ printf_hd val }
      = .ok () { st' with col := st'.col + (printf_hd val).length,
                          out := st'.out ++ printf_hd val } := by
    have hr : ({ st' with col := st'.col + (printf_hd val).length,
                          out := st'.out ++ printf_hd val } : State).rest = '\n' :: t := h'
    simp [skipWhile, hr, scan]
  rw [hs]
  simp only [Res.bind_ok]
  have hr : ({ st' with col := st'.col + (printf_hd val).length,
                        out := st'.out ++ printf_hd val } : State).rest = '\n' :: t := h'
  rw [hr]
  simp [prEnd]


theorem letPrintEnd_rest (k : Nat) (input : List Char) (rnd : Nat → Nat) :
    (initState (letPrintEnd k) input rnd).rest
      = '1' :: '0' :: ' ' :: 'L' :: 'E' :: 'T' :: ' ' :: 'A' :: '=' :: (Nat.toDigits 10 k ++
          '\n' :: '2' :: '0' :: ' ' :: 'P' :: 'R' :: 'I' :: 'N' :: 'T' :: ' ' :: 'A' ::
          '\n' :: '3' :: '0' :: ' ' :: 'E' :: 'N' :: 'D' :: '\n' :: [NUL]) := by
  simp [State.rest, State.from, State.mem, initState, read_prog, letPrintEnd]

/-- C2: for every `k` from 0 to 32767, the program `10 LET A=k`, `20 PRINT A`,
`30 END` run by the driver loop from the start of the buffer, on any input and
any random sequence, ends through END with status 0, and what it has written
is the decimal digits of `k` followed by one line break (carriage return and
newline). -/
theorem let_print_end (k : Nat) (hk : k ≤ 32767) (input : List Char) (rnd : Nat → Nat)
    (m : Nat) :
    ∃ fin, main (m + 5) (letPrintEnd k) input rnd = .exit 0 fin ∧
      fin.out = Nat.toDigits 10 k ++ ['\r', '\n'] := by
  obtain ⟨hlit, hval⟩ := toDigits_literal k
  have h0 := letPrintEnd_rest k input rnd
  generalize hst0 : initState (letPrintEnd k) input rnd = st0 at h0
  have hout0 : st0.out = [] := by rw [← hst0]; rfl
  have hpf : printf_hd (k : Int) = Nat.toDigits 10 k := by
    simp [printf_hd]
  generalize Nat.toDigits 10 k = D at *
  -- first line
  have hsk1 : skipWhile (fun ch => !ch.isUpper) st0 = .ok () (st0.adv 3) := by
    simp [skipWhile, h0, scan]
  have hr1 : (st0.adv 3).rest = 'L' :: 'E' :: 'T' :: ' ' :: 'A' :: '=' :: (D ++
      '\n' :: '2' :: '0' :: ' ' :: 'P' :: 'R' :: 'I' :: 'N' :: 'T' :: ' ' :: 'A' ::
      '\n' :: '3' :: '0' :: ' ' :: 'E' :: 'N' :: 'D' :: '\n' :: [NUL]) := by
    simp [h0]
  have hr2 : (st0.adv 6).rest = spaces 1 ++ 'A' :: (spaces 0 ++ '=' :: (D ++
      '\n' :: '2' :: '0' :: ' ' :: 'P' :: 'R' :: 'I' :: 'N' :: 'T' :: ' ' :: 'A' ::
      '\n' :: '3' :: '0' :: ' ' :: 'E' :: 'N' :: 'D' :: '\n' :: [NUL])) := by
    simp [h0, spaces]
  have hr3 : (st0.adv 9).rest = (ExprTxt.mk ⟨⟨0, D, 0⟩, []⟩ []).text ++ '\n' ::
      ('2' :: '0' :: ' ' :: 'P' :: 'R' :: 'I' :: 'N' :: 'T' :: ' ' :: 'A' ::
      '\n' :: '3' :: '0' :: ' ' :: 'E' :: 'N' :: 'D' :: '\n' :: [NUL]) := by
    simp [h0, spaces, ExprTxt.text, TermTxt.text, LitTxt.text, mulText, addText]
  have he := expr_text (ExprTxt.mk ⟨⟨0, D, 0⟩, []⟩ []) (m + 3) (st0.adv 9) '\n' _
    ⟨⟨⟨hlit, by rw [hval]; exact hk⟩, by simp⟩, by simp⟩ hr3
    (by decide) (by decide) (by decide) (by decide) (by decide) (by decide)
    (by simp [ExprTxt.ops])
  have hev : (ExprTxt.mk ⟨⟨0, D, 0⟩, []⟩ []).val = (k : Int) := by
    simp [ExprTxt.val, TermTxt.val, hval]
  have hel : (ExprTxt.mk ⟨⟨0, D, 0⟩, []⟩ []).text.length = D.length := by
    simp [spaces, ExprTxt.text, TermTxt.text, LitTxt.text, mulText, addText]
  rw [hev, hel] at he
  obtain ⟨hlet, _⟩ := f_let_stores (m + 3) (st0.adv 6) _ 1 0 'A' _ (k : Int) (by decide) hr2
    (by simpa using he)
  have hadv : (st0.adv 9).adv D.length = st0.adv (9 + D.length) := State.adv_adv _ _ _
  have hr5 : (st0.adv (9 + D.length)).rest = '\n' :: '2' :: '0' :: ' ' :: 'P' :: 'R' :: 'I' ::
      'N' :: 'T' :: ' ' :: 'A' :: '\n' :: '3' :: '0' :: ' ' :: 'E' :: 'N' :: 'D' :: '\n' :: [NUL] := by
    rw [← hadv, State.rest_adv, hr3, hel.symm]
    exact List.drop_left _ _
  -- the state after the first line
  generalize hs1 : ({ st0.adv (9 + D.length) with
      vars := Function.update (st0.adv 6).vars ('A'.toNat - 65) (k : Int) } : State) = s1 at hlet
  have hs1rest : s1.rest = '\n' :: '2' :: '0' :: ' ' :: 'P' :: 'R' :: 'I' ::
      'N' :: 'T' :: ' ' :: 'A' :: '\n' :: '3' :: '0' :: ' ' :: 'E' :: 'N' :: 'D' :: '\n' :: [NUL] := by
    rw [← hs1]
    exact hr5
  have hs1out : s1.out = [] := by
    rw [← hs1]
    exact hout0
  have hs1var : s1.vars 0 = (k : Int) := by
    rw [← hs1]
    simp [Function.update]
  -- second line
  have hsk2 : skipWhile (fun ch => !ch.isUpper) s1 = .ok () (s1.adv 4) := by
    simp [skipWhile, hs1rest, scan]
  have hr6 : (s1.adv 4).rest = 'P' :: 'R' :: 'I' :: 'N' :: 'T' :: ' ' :: 'A' :: '\n' ::
      '3' :: '0' :: ' ' :: 'E' :: 'N' :: 'D' :: '\n' :: [NUL] := by
    simp [hs1rest]
  have hr7 : (s1.adv 9).rest = spaces 1 ++ 'A' :: '\n' ::
      '3' :: '0' :: ' ' :: 'E' :: 'N' :: 'D' :: '\n' :: [NUL] := by
    simp [hs1rest, spaces]
  have hr8 : (s1.adv 10).rest = 'A' :: '\n' ::
      '3' :: '0' :: ' ' :: 'E' :: 'N' :: 'D' :: '\n' :: [NUL] := by
    simp [hs1rest]
  have hr9 : (s1.adv 11).rest = '\n' ::
      '3' :: '0' :: ' ' :: 'E' :: 'N' :: 'D' :: '\n' :: [NUL] := by
    simp [hs1rest]
  have hex := expr_var m (s1.adv 10) 'A' '\n' _ hr8 (by decide) (by decide) (by decide)
    (by decide) (by decide) (by decide) (by decide) (by decide)
  have hwk : wrap16 (k : Int) = (k : Int) := wrap16_of_range (by omega) (by omega)
  have hex' : expr (m + 2) (s1.adv 10) = .ok (k : Int) (s1.adv 11) := by
    rw [hex]
    have hv10 : (s1.adv 10).vars 0 = (k : Int) := hs1var
    simp [hv10, hwk]
  have hpr := prLoop_expr_line (expr (m + 2)) (m + 1) (s1.adv 10) (s1.adv 11) (k : Int) 'A' _ _
    hr8 (by decide) (by decide) hex' hr9
  have hfpr : f_pr (m + 2) (s1.adv 9)
      = .ok () { s1.adv 11 with col := 0, out := (s1.adv 11).out ++ printf_hd k ++ ['\r', '\n'] } := by
    unfold f_pr
    rw [skpspc_spaces _ 1 'A' _ hr7 (by decide)]
    simp only [Res.bind_ok, State.adv_adv]
    exact hpr
  generalize hs2 : ({ s1.adv 11 with
      col := 0, out := (s1.adv 11).out ++ printf_hd k ++ ['\r', '\n'] } : State) = s2 at hfpr
  have hs2rest : s2.rest = '\n' :: '3' :: '0' :: ' ' :: 'E' :: 'N' :: 'D' :: '\n' :: [NUL] := by
    rw [← hs2]
    exact hr9
  have hs2out : s2.out = D ++ ['\r', '\n'] := by
    rw [← hs2]
    show s1.out ++ printf_hd k ++ ['\r', '\n'] = _
    rw [hs1out, hpf]
    rfl
  -- third line
  have hsk3 : skipWhile (fun ch => !ch.isUpper) s2 = .ok () (s2.adv 4) := by
    simp [skipWhile, hs2rest, scan]
  have hr10 : (s2.adv 4).rest = 'E' :: 'N' :: 'D' :: '\n' :: [NUL] := by
    simp [hs2rest]
  refine ⟨(s2.adv 4).adv 3, ?_, hs2out⟩
  unfold main
  rw [hst0]
  unfold mainLoop
  rw [hsk1]
  simp only [Res.bind_ok]
  rw [stmt_LET _ _ _ hr1]
  simp only [State.adv_adv]
  rw [hlet]
  simp only [Res.bind_ok]
  unfold mainLoop
  rw [hsk2]
  simp only [Res.bind_ok]
  rw [stmt_PRINT _ _ _ hr6]
  simp only [State.adv_adv]
  rw [hfpr]
  simp only [Res.bind_ok]
  unfold mainLoop
  rw [hsk3]
  simp only [Res.bind_ok]
  rw [stmt_END _ _ _ hr10]
  rfl

/-- C2 for `k = 3`: the output is `3` and a line break. -/
theorem let_print_end_witness :
    ∃ fin, main 5 "10 LET A=3\n20 PRINT A\n30 END\n".toList [] (fun _ => 0) = .exit 0 fin ∧
      fin.out = ['3', '\r', '\n'] :=
  let_print_end 3 (by decide) [] (fun _ => 0) 0



/-! ## C13: listing the whole program -/

theorem takeWhile_not_nul (file t : List Char) (h : NUL ∉ file) :
    (file ++ NUL :: t).takeWhile (fun x => x != NUL) = file := by
  induction file with
  | nil => simp [List.takeWhile]
  | cons x l ih =>
    have hx : x ≠ NUL := fun hx => h (hx ▸ List.mem_cons_self _ _)
    have hl : NUL ∉ l := fun hl => h (List.mem_cons_of_mem _ hl)
    have hb : (x != NUL) = true := by simpa using hx
    simp [List.takeWhile, hb, ih hl]

/-- C13: when the source buffer holds a program text without NUL bytes, LIST
with no argument (any spaces, then the newline) appends exactly the program
text to the output and changes nothing else but the cursor, which it leaves on
the newline. -/
theorem f_list_whole_program (n : Nat) (file : List Char) (st : State) (k : Nat)
    (t : List Char) (hnul : NUL ∉ file) (hs : st.s = read_prog file)
    (h : st.rest = spaces k ++ '\n' :: t) :
    f_list n st = .ok () { st.adv k with out := st.out ++ file } := by
  have hr : (st.adv k).rest = '\n' :: t := rest_adv_spaces h
  have hmem : NUL ∈ st.s := by
    rw [hs]
    simp [read_prog]
  have htw : st.s.takeWhile (fun x => x != NUL) = file := by
    rw [hs]
    exact takeWhile_not_nul file [] hnul
  unfold f_list
  rw [skpspc_spaces st k '\n' t h (by decide)]
  simp only [Res.bind_ok]
  rw [hr]
  have hs' : (st.adv k).s = st.s := rfl
  have ho' : (st.adv k).out = st.out := rfl
  simp only [if_true, hs', hmem, htw, ho']

/-- C13 on the LIST of the program `10 LIST`, `20 END`, after the keyword. -/
theorem f_list_whole_program_witness :
    f_list 1 ((progState "10 LIST\n20 END\n".toList).adv 7)
      = .ok () { ((progState "10 LIST\n20 END\n".toList).adv 7).adv 0 with
          out := ((progState "10 LIST\n20 END\n".toList).adv 7).out
            ++ "10 LIST\n20 END\n".toList } :=
  f_list_whole_program 1 "10 LIST\n20 END\n".toList
    ((progState "10 LIST\n20 END\n".toList).adv 7) 0 "20 END\n\x00".toList
    (by decide) rfl (by decide)

/-! ## C19: the order of the table -/

theorem dispatch_first_match (pre : List (List Char × (State → Res Unit))) :
    ∀ (kw : List Char) (f : State → Res Unit) (post : List (List Char × (State → Res Unit)))
      (st : State) (len : Nat),
      (∀ e ∈ pre, strspccmp e.1 st.rest = some (-1)) →
      strspccmp kw st.rest = some (len : Int) →
      dispatch (pre ++ (kw, f) :: post) st = f (st.adv len) := by
  induction pre with
  | nil =>
    intro kw f post st len _ h
    simp [dispatch, h]
  | cons e pre ih =>
    intro kw f post st len hpre h
    obtain ⟨ke, fe⟩ := e
    have he := hpre (ke, fe) (List.mem_cons_self _ _)
    simp only at he
    simp only [List.cons_append, dispatch, he]
    simp only [ge_iff_le, Int.reduceNeg, Int.reduceLE, if_false]
    exact ih kw f post st len (fun x hx => hpre x (List.mem_cons_of_mem _ hx)) h

/-- C19: the dispatcher runs the handler of the first entry of the table, in
the order of the source, whose pattern matches the text at the cursor, with the
cursor advanced by the length the match consumed; `PRINT 5` and `P R I N T 5`
go to the PRINT handler with the cursor after the T (not after `PR`); and when
none of the eleven keywords matches, the assignment handler runs with the
cursor unmoved. -/
theorem stmt_first_match :
    (∀ (n : Nat) (st : State) (pre : List (List Char × (State → Res Unit))) (kw : List Char)
        (f : State → Res Unit) (post : List (List Char × (State → Res Unit))) (len : Nat),
      KEYWORDS (stmt n) n = pre ++ (kw, f) :: post →
      (∀ e ∈ pre, strspccmp e.1 st.rest = some (-1)) →
      strspccmp kw st.rest = some (len : Int) →
      stmt (n + 1) st = f (st.adv len)) ∧
    (KEYWORDS (fun st => .ok () st) 0).map Prod.fst =
      ["PRINT".toList, "PR".toList, "INPUT".toList, "LET".toList, "GOTO".toList,
       "GOSUB".toList, "RETURN".toList, "IF".toList, "REM".toList, "LIST".toList,
       "END".toList, []] ∧
    (∀ (n : Nat) (st : State) (t : List Char),
      st.rest = 'P' :: 'R' :: 'I' :: 'N' :: 'T' :: ' ' :: '5' :: t →
      stmt (n + 1) st = f_pr n (st.adv 5)) ∧
    (∀ (n : Nat) (st : State) (t : List Char),
      st.rest = 'P' :: ' ' :: 'R' :: ' ' :: 'I' :: ' ' :: 'N' :: ' ' :: 'T' :: ' ' :: '5' :: t →
      stmt (n + 1) st = f_pr n (st.adv 9)) ∧
    (∀ (n : Nat) (st : State),
      (∀ kw ∈ keywordTexts, strspccmp kw st.rest = some (-1)) →
      stmt (n + 1) st = f_let n (st.adv 0)) := by
  refine ⟨?_, by decide, ?_, ?_, ?_⟩
  · intro n st pre kw f post len htab hpre hkw
    unfold stmt
    rw [htab]
    exact dispatch_first_match pre kw f post st len hpre hkw
  · intro n st t h
    simp [stmt, dispatch, KEYWORDS, h, strspccmp, strspccmpFrom, scan]
  · intro n st t h
    simp [stmt, dispatch, KEYWORDS, h, strspccmp, strspccmpFrom, scan]
  · intro n st hkw
    exact stmt_no_keyword n st hkw

/-- C19 on the statement `GOTO 10`: four entries are passed, the fifth matches. -/
theorem stmt_first_match_witness :
    stmt 3 (progState "GOTO 10\n".toList) = f_goto 2 ((progState "GOTO 10\n".toList).adv 4) :=
  stmt_first_match.1 2 (progState "GOTO 10\n".toList)
    [("PRINT".toList, f_pr 2), ("PR".toList, f_pr 2), ("INPUT".toList, f_in 2),
     ("LET".toList, f_let 2)]
    "GOTO".toList (f_goto 2)
    [("GOSUB".toList, f_gosub 2), ("RETURN".toList, f_ret), ("IF".toList, f_if (stmt 2) 2),
     ("REM".toList, f_rem), ("LIST".toList, f_list 2), ("END".toList, f_end), ([], f_let 2)]
    4 (by rfl) (by decide) (by decide)


/-! ## C20: the leading sign -/

/-- `unsigned_expr` on a well-formed expression without sign and parentheses
returns the value of the specification and leaves the cursor on the character
that follows. -/
theorem unsigned_expr_text (ex : State → Res Int) (e : ExprTxt) (n : Nat) (st : State)
    (ch : Char) (t : List Char) (hwf : e.WF) (h : st.rest = e.text ++ ch :: t)
    (h1 : ch ≠ ' ') (h2 : ch ≠ '+') (h3 : ch ≠ '-') (h4 : ch ≠ '*') (h5 : ch ≠ '/')
    (h6 : ch.isDigit = false) (hn : e.ops < n) :
    unsigned_expr ex n st = .ok e.val (st.adv e.text.length) := by
  have hlit := hwf.1.1.1
  obtain ⟨d, ds, hds⟩ : ∃ d ds, e.first.first.digits = d :: ds := by
    cases hd : e.first.first.digits with
    | nil => exact absurd hd hlit.1
    | cons d ds => exact ⟨d, ds, rfl⟩
  have hdd : d.isDigit = true := hlit.2 d (by rw [hds]; exact List.mem_cons_self _ _)
  have hd1 : d ≠ ' ' := by
    rintro rfl
    exact absurd hdd (by decide)
  let tm : TermTxt := ⟨⟨0, e.first.first.digits, e.first.first.post⟩, e.first.more⟩
  have htmwf : tm.WF := hwf.1
  have htmval : tm.val = e.first.val := rfl
  have htxt : e.first.text = spaces e.first.first.pre ++ tm.text := by
    simp [TermTxt.text, LitTxt.text, tm, spaces]
  obtain ⟨y, v, hyv, hy⟩ := addText_head e.more ch t
  have hy1 : y ≠ ' ' ∧ y ≠ '*' ∧ y ≠ '/' ∧ y.isDigit = false := by
    rcases hy with rfl | ⟨o, rfl⟩
    · exact ⟨h1, h4, h5, h6⟩
    · cases o <;> exact ⟨by decide, by decide, by decide, by decide⟩
  have h' : st.rest = spaces e.first.first.pre ++ d :: (ds ++ (spaces e.first.first.post
      ++ (mulText e.first.more ++ (addText e.more ++ ch :: t)))) := by
    rw [h]
    simp [ExprTxt.text, TermTxt.text, LitTxt.text, hds]
  have hr1 : (st.adv e.first.first.pre).rest = tm.text ++ y :: v := by
    rw [rest_adv_spaces h', ← hyv]
    simp [TermTxt.text, LitTxt.text, tm, spaces, hds]
  have hops1 : e.first.more.length < n := by
    unfold ExprTxt.ops at hn
    omega
  have hops2 : e.more.length < n := by
    unfold ExprTxt.ops at hn
    omega
  have hops3 : ∀ x ∈ e.more, x.2.more.length < n := by
    intro x hx
    have := le_sum_of_mem_nat (e.more.map fun x => x.2.more.length) x.2.more.length
      (List.mem_map.2 ⟨x, hx, rfl⟩)
    unfold ExprTxt.ops at hn
    omega
  have hterm := term_text ex tm n (st.adv e.first.first.pre) y v htmwf hr1
    hy1.1 hy1.2.1 hy1.2.2.1 hy1.2.2.2 hops1
  have hr2 : ((st.adv e.first.first.pre).adv tm.text.length).rest = addText e.more ++ ch :: t := by
    rw [hyv]
    exact rest_adv_append hr1
  have hloop := unsignedLoop_addText ex n e.more n tm.val _ ch t hwf.2 hops3 hr2
    h1 h2 h3 h4 h5 h6 hops2
  unfold unsigned_expr
  rw [skpspc_spaces st e.first.first.pre d _ h' hd1]
  simp only [Res.bind_ok]
  rw [hterm]
  simp only [Res.bind_ok]
  rw [hloop, htmval]
  rw [show List.foldl (fun a x => x.1.apply a x.2.val) e.first.val e.more = e.val from rfl]
  simp only [State.adv_adv]
  rw [show e.first.first.pre + tm.text.length + (addText e.more).length = e.text.length by
    simp [ExprTxt.text, htxt]; omega]

/-! ## Values of the evaluator are of the type `short` -/

theorem Res.okAll_bind {α β : Type} {P : α → State → Prop} {Q : β → State → Prop} {r : Res α}
    {k : α → State → Res β} (h : r.okAll P) (hk : ∀ a st, P a st → (k a st).okAll Q) :
    (r.bind k).okAll Q := by
  cases r with
  | ok a st => exact hk a st h
  | exit m st => trivial
  | ub => trivial
  | oof => trivial

theorem skipWhile_short (p : Char → Bool) (st : State) (h : st.shortVars) :
    (skipWhile p st).okAll (fun _ s => s.shortVars) := by
  unfold skipWhile
  split
  · trivial
  · exact h

theorem factor_short {ex : State → Res Int} (hex : ∀ s, s.shortVars → (ex s).okAll shortRes)
    (st : State) (h : st.shortVars) : (factor ex st).okAll shortRes := by
  unfold factor skpto
  refine Res.okAll_bind (skipWhile_short _ _ h) ?_
  intro _ s hs
  cases s.rest with
  | nil => trivial
  | cons ch t =>
    dsimp only
    split_ifs
    · refine Res.okAll_bind (hex _ hs) ?_
      intro val s2 h2
      refine Res.okAll_bind (skipWhile_short _ _ h2.2) ?_
      intro _ s3 h3
      exact ⟨h2.1, h3⟩
    · cases strncmpEq ['R', 'N', 'D'] (ch :: t) with
      | none => trivial
      | some b =>
        cases b with
        | true =>
          dsimp only
          refine Res.okAll_bind (skipWhile_short _ _ hs) ?_
          intro _ s2 h2
          refine Res.okAll_bind (hex _ h2) ?_
          intro mx s3 h3
          split_ifs
          · trivial
          · refine Res.okAll_bind (skipWhile_short _ _ h3.2) ?_
            intro _ s4 h4
            exact ⟨wrap16_range _, h4⟩
        | false =>
          dsimp only
          cases strncmpEq ['U', 'S', 'R'] (ch :: t) with
          | none => trivial
          | some b2 =>
            cases b2 with
            | true => trivial
            | false => exact ⟨hs _, hs⟩
    · split
      · exact ⟨wrap16_range _, hs⟩
      · trivial
    · trivial

theorem termLoop_short {ex : State → Res Int}
    (hex : ∀ s, s.shortVars → (ex s).okAll shortRes) (n : Nat) :
    ∀ (f : Int) (st : State), shortRes f st → (termLoop ex n f st).okAll shortRes := by
  induction n with
  | zero => intro f st _; trivial
  | succ n ih =>
    intro f st h
    unfold termLoop
    refine Res.okAll_bind (skipWhile_short _ _ h.2) ?_
    intro _ s hs
    cases s.rest with
    | nil => trivial
    | cons ch t =>
      dsimp only
      split_ifs
      · refine Res.okAll_bind (factor_short hex _ hs) ?_
        intro g s2 h2
        exact ih _ _ ⟨wrap16_range _, h2.2⟩
      · refine Res.okAll_bind (factor_short hex _ hs) ?_
        intro g s2 h2
        split_ifs
        · trivial
        · exact ih _ _ ⟨wrap16_range _, h2.2⟩
      · exact ⟨h.1, hs⟩

theorem term_short {ex : State → Res Int} (hex : ∀ s, s.shortVars → (ex s).okAll shortRes)
    (n : Nat) (st : State) (h : st.shortVars) : (term ex n st).okAll shortRes := by
  unfold term
  refine Res.okAll_bind (skipWhile_short _ _ h) ?_
  intro _ s hs
  refine Res.okAll_bind (factor_short hex _ hs) ?_
  intro f s2 h2
  exact termLoop_short hex n f s2 h2

theorem unsignedLoop_short {ex : State → Res Int}
    (hex : ∀ s, s.shortVars → (ex s).okAll shortRes) (m n : Nat) :
    ∀ (f : Int) (st : State), shortRes f st → (unsignedLoop ex m n f st).okAll shortRes := by
  induction n with
  | zero => intro f st _; trivial
  | succ n ih =>
    intro f st h
    unfold unsignedLoop
    refine Res.okAll_bind (skipWhile_short _ _ h.2) ?_
    intro _ s hs
    cases s.rest with
    | nil => trivial
    | cons ch t =>
      dsimp only
      split_ifs
      · refine Res.okAll_bind (term_short hex _ _ hs) ?_
        intro g s2 h2
        exact ih _ _ ⟨wrap16_range _, h2.2⟩
      · refine Res.okAll_bind (term_short hex _ _ hs) ?_
        intro g s2 h2
        exact ih _ _ ⟨wrap16_range _, h2.2⟩
      · exact ⟨h.1, hs⟩

theorem unsigned_expr_short {ex : State → Res Int}
    (hex : ∀ s, s.shortVars → (ex s).okAll shortRes) (n : Nat) (st : State)
    (h : st.shortVars) : (unsigned_expr ex n st).okAll shortRes := by
  unfold unsigned_expr
  refine Res.okAll_bind (skipWhile_short _ _ h) ?_
  intro _ s hs
  refine Res.okAll_bind (term_short hex _ _ hs) ?_
  intro f s2 h2
  exact unsignedLoop_short hex n n f s2 h2

theorem expr_short (n : Nat) : ∀ st : State, st.shortVars → (expr n st).okAll shortRes := by
  induction n with
  | zero => intro st _; trivial
  | succ n ih =>
    intro st h
    unfold expr
    refine Res.okAll_bind (skipWhile_short _ _ h) ?_
    intro _ s hs
    cases s.rest with
    | nil => trivial
    | cons ch t =>
      dsimp only
      refine Res.okAll_bind (unsigned_expr_short ih n _ ?_) ?_
      · split_ifs
        · exact hs
        · exact hs
      · intro u s2 h2
        exact ⟨wrap16_range _, h2.2⟩

/-- With variables of the type `short`, what `unsigned_expr` returns is of
that type. -/
theorem unsigned_expr_range {n : Nat} {st st' : State} {v : Int} (hv : st.shortVars)
    (h : unsigned_expr (expr n) n st = .ok v st') : -32768 ≤ v ∧ v ≤ 32767 := by
  have := unsigned_expr_short (expr_short n) n st hv
  rw [h] at this
  exact this.1


/-- What `expr` does with a leading sign, whatever follows it. -/
theorem expr_sign (n : Nat) (st : State) (a : Nat) (sg : Char) (t : List Char)
    (h : st.rest = spaces a ++ sg :: t) (hsg : sg = '+' ∨ sg = '-') :
    expr (n + 1) st = (unsigned_expr (expr n) n (st.adv (a + 1))).bind fun u s =>
      .ok (wrap16 ((if sg = '-' then -1 else 1) * u)) s := by
  have hsp : sg ≠ ' ' := by
    rcases hsg with rfl | rfl <;> decide
  conv => lhs; unfold expr
  rw [skpspc_spaces st a sg t h hsp]
  simp only [Res.bind_ok]
  rw [rest_adv_spaces h]
  simp only [hsg, if_true, State.adv_adv]

/-- C20: on every text `u` on which `unsigned_expr` returns, with value `v`
(literals, variables, parentheses, RND, joined by any operators), `expr` on
`-u` returns the 16-bit wrapped negation of `v` and `expr` on `+u` returns `v`
as a 16-bit value, which is `v` itself when the variables hold values of the
type `short`; both end where `unsigned_expr` ended, so the sign is applied to
the value of the whole of `u`.  For the texts of the grammar of literals the
value is the one of the left-to-right evaluator.  So `-2+3` evaluates to -5 and
`-2*3+1` to -7. -/
theorem expr_leading_sign :
    (∀ (n : Nat) (st st' : State) (a : Nat) (t : List Char) (v : Int),
      st.rest = spaces a ++ '-' :: t →
      unsigned_expr (expr n) n (st.adv (a + 1)) = .ok v st' →
      expr (n + 1) st = .ok (wrap16 (-v)) st') ∧
    (∀ (n : Nat) (st st' : State) (a : Nat) (t : List Char) (v : Int),
      st.rest = spaces a ++ '+' :: t →
      unsigned_expr (expr n) n (st.adv (a + 1)) = .ok v st' →
      expr (n + 1) st = .ok (wrap16 v) st' ∧ (st.shortVars → wrap16 v = v)) ∧
    (∀ (n : Nat) (st : State) (a : Nat) (e : ExprTxt) (ch : Char) (t : List Char),
      e.WF → st.rest = spaces a ++ '-' :: (e.text ++ ch :: t) →
      ch ≠ ' ' → ch ≠ '+' → ch ≠ '-' → ch ≠ '*' → ch ≠ '/' → ch.isDigit = false →
      e.ops < n →
      expr (n + 1) st = .ok (wrap16 (-e.val)) (st.adv (a + 1 + e.text.length)) ∧
      unsigned_expr (expr n) n (st.adv (a + 1))
        = .ok e.val (st.adv (a + 1 + e.text.length))) ∧
    (∀ (n : Nat) (st : State) (a : Nat) (e : ExprTxt) (ch : Char) (t : List Char),
      e.WF → st.rest = spaces a ++ '+' :: (e.text ++ ch :: t) →
      ch ≠ ' ' → ch ≠ '+' → ch ≠ '-' → ch ≠ '*' → ch ≠ '/' → ch.isDigit = false →
      e.ops < n →
      expr (n + 1) st = .ok e.val (st.adv (a + 1 + e.text.length))) ∧
    (∀ (n : Nat) (st : State) (t : List Char),
      st.rest = '-' :: '2' :: '+' :: '3' :: '\n' :: t →
      expr (n + 3) st = .ok (-5) (st.adv 4)) ∧
    (∀ (n : Nat) (st : State) (t : List Char),
      st.rest = '-' :: '2' :: '*' :: '3' :: '+' :: '1' :: '\n' :: t →
      expr (n + 4) st = .ok (-7) (st.adv 6)) := by
  have hminus : ∀ (n : Nat) (st : State) (a : Nat) (e : ExprTxt) (ch : Char) (t : List Char),
      e.WF → st.rest = spaces a ++ '-' :: (e.text ++ ch :: t) →
      ch ≠ ' ' → ch ≠ '+' → ch ≠ '-' → ch ≠ '*' → ch ≠ '/' → ch.isDigit = false →
      e.ops < n →
      expr (n + 1) st = .ok (wrap16 (-e.val)) (st.adv (a + 1 + e.text.length)) ∧
      unsigned_expr (expr n) n (st.adv (a + 1))
        = .ok e.val (st.adv (a + 1 + e.text.length)) := by
    intro n st a e ch t hwf h h1 h2 h3 h4 h5 h6 hn
    have hr : (st.adv (a + 1)).rest = e.text ++ ch :: t := by
      rw [← State.adv_adv]
      exact rest_adv_one (rest_adv_spaces h)
    have hu := unsigned_expr_text (expr n) e n (st.adv (a + 1)) ch t hwf hr h1 h2 h3 h4 h5 h6 hn
    refine ⟨?_, by rw [hu, State.adv_adv]⟩
    rw [expr_sign n st a '-' _ h (Or.inr rfl), hu]
    simp [State.adv_adv]
  refine ⟨?_, ?_, hminus, ?_, ?_, ?_⟩
  · intro n st st' a t v h hu
    rw [expr_sign n st a '-' t h (Or.inr rfl), hu]
    simp
  · intro n st st' a t v h hu
    refine ⟨?_, fun hv => ?_⟩
    · rw [expr_sign n st a '+' t h (Or.inl rfl), hu]
      simp
    · have hr := unsigned_expr_range (show (st.adv (a + 1)).shortVars from hv) hu
      exact wrap16_of_range hr.1 hr.2
  · intro n st a e ch t hwf h h1 h2 h3 h4 h5 h6 hn
    have hr : (st.adv (a + 1)).rest = e.text ++ ch :: t := by
      rw [← State.adv_adv]
      exact rest_adv_one (rest_adv_spaces h)
    have hu := unsigned_expr_text (expr n) e n (st.adv (a + 1)) ch t hwf hr h1 h2 h3 h4 h5 h6 hn
    have hv := exprTxt_val_range e hwf
    rw [expr_sign n st a '+' _ h (Or.inl rfl), hu]
    simp [State.adv_adv, wrap16_of_range hv.1 hv.2]
  · intro n st t h
    have := (hminus (n + 2) st 0
      ⟨⟨⟨0, ['2'], 0⟩, []⟩, [(AddOp.add, ⟨⟨0, ['3'], 0⟩, []⟩)]⟩ '\n' t (by decide)
      (by simpa [spaces] using h) (by decide) (by decide) (by decide) (by decide) (by decide)
      (by decide) (by simp [ExprTxt.ops])).1
    rw [this]
    rfl
  · intro n st t h
    have := (hminus (n + 3) st 0
      ⟨⟨⟨0, ['2'], 0⟩, [(MulOp.mul, ⟨0, ['3'], 0⟩)]⟩, [(AddOp.add, ⟨⟨0, ['1'], 0⟩, []⟩)]⟩
      '\n' t (by decide)
      (by simpa [spaces] using h) (by decide) (by decide) (by decide) (by decide) (by decide)
      (by decide) (by simp [ExprTxt.ops])).1
    rw [this]
    rfl

/-- C20 on `-A+3` with 2 in every variable: the value is -(2+3), not (-2)+3. -/
theorem expr_leading_sign_witness :
    expr 4 { progState "-A+3\n".toList with vars := fun _ => 2 }
      = .ok (wrap16 (-5)) ({ progState "-A+3\n".toList with vars := fun _ => 2 }.adv 4) :=
  expr_leading_sign.1 3 { progState "-A+3\n".toList with vars := fun _ => 2 }
    ({ progState "-A+3\n".toList with vars := fun _ => 2 }.adv 4) 0 ("A+3\n".toList ++ [NUL]) 5
    (by decide) (by rfl)


/-! ## C17: RND -/

theorem Res.bind_eq_ok {α β : Type} {r : Res α} {k : α → State → Res β} {b : β} {s : State}
    (h : r.bind k = .ok b s) : ∃ a s0, r = .ok a s0 ∧ k a s0 = .ok b s := by
  cases r with
  | ok a s0 => exact ⟨a, s0, rfl, h⟩
  | exit n s0 => cases h
  | ub => cases h
  | oof => cases h

/-- What `expr` returns is a signed 16-bit value. -/
theorem expr_range {n : Nat} {st st' : State} {v : Int} (h : expr n st = .ok v st') :
    -32768 ≤ v ∧ v ≤ 32767 := by
  cases n with
  | zero => cases h
  | succ n =>
    unfold expr at h
    obtain ⟨_, s0, _, h1⟩ := Res.bind_eq_ok h
    cases hr : s0.rest with
    | nil => rw [hr] at h1; cases h1
    | cons ch t =>
      rw [hr] at h1
      dsimp only at h1
      obtain ⟨u, s1, _, h2⟩ := Res.bind_eq_ok h1
      simp only [Res.ok.injEq] at h2
      rw [← h2.1]
      exact wrap16_range _

/-- The factor `RND(...)`: what `factor` does once the bound is evaluated. -/
theorem factor_rnd (ex : State → Res Int) (st st1 : State) (a : Nat) (t : List Char)
    (mx : Int) (h : st.rest = 'R' :: 'N' :: 'D' :: (spaces a ++ '(' :: t))
    (he : ex (st.adv (3 + a + 1)) = .ok mx st1) :
    (mx = 0 → factor ex st = .exit 259 st1) ∧
    (∀ (b : Nat) (t2 : List Char), mx ≠ 0 → st1.rest = spaces b ++ ')' :: t2 →
      factor ex st = .ok (wrap16 (Int.tmod (st1.rnd st1.rndi) mx))
        ({ st1 with rndi := st1.rndi + 1 }.adv (b + 1))) := by
  have hsk : skpspc st = .ok () st := skpspc_head st 'R' _ h (by decide)
  have hcmp : strncmpEq ['R', 'N', 'D'] st.rest = some true := by
    rw [h]
    simp [strncmpEq]
  have hto : skpto '(' st = .ok () (st.adv (3 + a)) := by
    have h' : st.rest = ('R' :: 'N' :: 'D' :: spaces a) ++ '(' :: t := by
      rw [h]
      simp
    have := skipWhile_append (p := fun ch => ch != '(') st ('R' :: 'N' :: 'D' :: spaces a) '(' t h'
      (fun y hy => by
        have hy' : y ≠ '(' := by
          rintro rfl
          simp only [List.mem_cons] at hy
          rcases hy with hy | hy | hy | hy
          · exact absurd hy (by decide)
          · exact absurd hy (by decide)
          · exact absurd hy (by decide)
          · exact absurd (mem_spaces hy) (by decide)
        simpa using hy')
      (by simp)
    rw [skpto, this]
    congr 1
    simp
    exact congrArg st.adv (by omega)
  have hfront : factor ex st = (ex (st.adv (3 + a + 1))).bind fun max s =>
      if max = 0 then .exit 259 s
      else
        (skpto ')' { s with rndi := s.rndi + 1 }).bind fun _ s2 =>
          .ok (wrap16 (Int.tmod (s.rnd s.rndi) max)) (s2.adv 1) := by
    unfold factor
    rw [hsk]
    simp only [Res.bind_ok]
    rw [hcmp, h]
    simp only [show ('R' : Char) ≠ '(' by decide, if_false, show 'R'.isUpper = true by decide,
      if_true]
    rw [hto]
    simp only [Res.bind_ok, State.adv_adv]
  constructor
  · intro h0
    rw [hfront, he]
    simp [h0]
  · intro b t2 hne hr
    have hr' : ({ st1 with rndi := st1.rndi + 1 } : State).rest = spaces b ++ ')' :: t2 := hr
    have hto2 : skpto ')' { st1 with rndi := st1.rndi + 1 }
        = .ok () ({ st1 with rndi := st1.rndi + 1 }.adv b) := by
      have := skipWhile_append (p := fun ch => ch != ')') _ (spaces b) ')' t2 hr'
        (fun y hy => by rw [mem_spaces hy]; decide) (by simp)
      simpa [skpto] using this
    rw [hfront, he]
    simp only [Res.bind_ok, hne, if_false, hto2, State.adv_adv]

/-- C17: when the bound of `RND(...)` evaluates to a positive `mx`, the factor
evaluates to the next value of the random generator modulo `mx`, which is at
least 0 and below `mx`, and one random number is drawn; when the bound
evaluates to 0 the run ends with status 259 in the state in which the
evaluation of the bound left it, so no random number is drawn for the modulus;
`RND(1)` evaluates to 0 whatever the generator returns. -/
theorem factor_rnd_mod :
    (∀ (n : Nat) (st st1 : State) (a b : Nat) (t t2 : List Char) (mx : Int),
      st.rest = 'R' :: 'N' :: 'D' :: (spaces a ++ '(' :: t) →
      expr n (st.adv (3 + a + 1)) = .ok mx st1 →
      st1.rest = spaces b ++ ')' :: t2 → 0 < mx →
      ∃ fin, factor (expr n) st = .ok ((st1.rnd st1.rndi : Int) % mx) fin ∧
        0 ≤ (st1.rnd st1.rndi : Int) % mx ∧ (st1.rnd st1.rndi : Int) % mx < mx ∧
        fin.rest = t2 ∧ fin.rndi = st1.rndi + 1 ∧ fin.vars = st.vars ∧ fin.out = st.out) ∧
    (∀ (n : Nat) (st st1 : State) (a : Nat) (t : List Char),
      st.rest = 'R' :: 'N' :: 'D' :: (spaces a ++ '(' :: t) →
      expr n (st.adv (3 + a + 1)) = .ok 0 st1 →
      factor (expr n) st = .exit 259 st1) ∧
    (∀ (n : Nat) (st : State) (t : List Char),
      st.rest = 'R' :: 'N' :: 'D' :: '(' :: '1' :: ')' :: t →
      ∃ fin, factor (expr (n + 2)) st = .ok 0 fin ∧ fin.rest = t) := by
  have hpos : ∀ (n : Nat) (st st1 : State) (a b : Nat) (t t2 : List Char) (mx : Int),
      st.rest = 'R' :: 'N' :: 'D' :: (spaces a ++ '(' :: t) →
      expr n (st.adv (3 + a + 1)) = .ok mx st1 →
      st1.rest = spaces b ++ ')' :: t2 → 0 < mx →
      ∃ fin, factor (expr n) st = .ok ((st1.rnd st1.rndi : Int) % mx) fin ∧
        0 ≤ (st1.rnd st1.rndi : Int) % mx ∧ (st1.rnd st1.rndi : Int) % mx < mx ∧
        fin.rest = t2 ∧ fin.rndi = st1.rndi + 1 ∧ fin.vars = st.vars ∧ fin.out = st.out := by
    intro n st st1 a b t t2 mx h he hr hmx
    have hm := (Moved.adv st (3 + a + 1)).trans (expr_moved he)
    have hrange := expr_range he
    have h0 : 0 ≤ (st1.rnd st1.rndi : Int) % mx := Int.emod_nonneg _ (ne_of_gt hmx)
    have h1 : (st1.rnd st1.rndi : Int) % mx < mx := Int.emod_lt_of_pos _ hmx
    have hval : wrap16 (Int.tmod (st1.rnd st1.rndi) mx) = (st1.rnd st1.rndi : Int) % mx := by
      rw [Int.tmod_eq_emod (Int.ofNat_nonneg _) (le_of_lt hmx)]
      exact wrap16_of_range (by omega) (by omega)
    have := (factor_rnd (expr n) st st1 a t mx h he).2 b t2 (ne_of_gt hmx) hr
    rw [hval] at this
    refine ⟨_, this, h0, h1, ?_, rfl, hm.vars, hm.out⟩
    have hr' : ({ st1 with rndi := st1.rndi + 1 } : State).rest = spaces b ++ ')' :: t2 := hr
    rw [← State.adv_adv]
    exact rest_adv_one (rest_adv_spaces hr')
  refine ⟨hpos, ?_, ?_⟩
  · intro n st st1 a t h he
    exact (factor_rnd (expr n) st st1 a t 0 h he).1 rfl
  · intro n st t h
    have hr : (st.adv (3 + 0 + 1)).rest
        = (ExprTxt.mk ⟨⟨0, ['1'], 0⟩, []⟩ []).text ++ ')' :: t := by
      simp [h, ExprTxt.text, TermTxt.text, LitTxt.text, mulText, addText, spaces]
    have he := expr_text (ExprTxt.mk ⟨⟨0, ['1'], 0⟩, []⟩ []) (n + 2) (st.adv (3 + 0 + 1)) ')' t
      (by decide) hr (by decide) (by decide) (by decide) (by decide) (by decide) (by decide)
      (by simp [ExprTxt.ops])
    have hr1 : ((st.adv (3 + 0 + 1)).adv (ExprTxt.mk ⟨⟨0, ['1'], 0⟩, []⟩ []).text.length).rest
        = spaces 0 ++ ')' :: t := by
      rw [rest_adv_append hr]
      simp [spaces]
    obtain ⟨fin, hf, _, _, hrest, _⟩ := hpos (n + 2) st _ 0 0 ('1' :: ')' :: t) t
      (ExprTxt.mk ⟨⟨0, ['1'], 0⟩, []⟩ []).val (by simpa [spaces] using h) he hr1 (by decide)
    refine ⟨fin, ?_, hrest⟩
    rw [hf]
    congr 1
    have : (ExprTxt.mk ⟨⟨0, ['1'], 0⟩, []⟩ []).val = 1 := by decide
    rw [this]
    exact Int.emod_one _

/-- C17 on `RND(5)` with a generator whose next value is 7. -/
theorem factor_rnd_mod_witness :
    ∃ fin, factor (expr 2) (initState "RND(5)\n".toList [] (fun _ => 7))
        = .ok (((initState "RND(5)\n".toList [] (fun _ => 7)).adv 5).rnd
            ((initState "RND(5)\n".toList [] (fun _ => 7)).adv 5).rndi % 5) fin ∧
      0 ≤ (((initState "RND(5)\n".toList [] (fun _ => 7)).adv 5).rnd
            ((initState "RND(5)\n".toList [] (fun _ => 7)).adv 5).rndi : Int) % 5 ∧
      (((initState "RND(5)\n".toList [] (fun _ => 7)).adv 5).rnd
            ((initState "RND(5)\n".toList [] (fun _ => 7)).adv 5).rndi : Int) % 5 < 5 ∧
      fin.rest = ['\n', NUL] ∧
      fin.rndi = ((initState "RND(5)\n".toList [] (fun _ => 7)).adv 5).rndi + 1 ∧
      fin.vars = (initState "RND(5)\n".toList [] (fun _ => 7)).vars ∧
      fin.out = (initState "RND(5)\n".toList [] (fun _ => 7)).out :=
  factor_rnd_mod.1 2 (initState "RND(5)\n".toList [] (fun _ => 7))
    ((initState "RND(5)\n".toList [] (fun _ => 7)).adv 5) 0 0 "5)\n\x00".toList ['\n', NUL] 5
    (by decide) (by rfl) (by decide) (by decide)


/-! ## C14: listing one line -/

theorem printf_s_line (l : Line) (t : List Char) (hl : l.WF) (hnul : NUL ∉ l.body) :
    printf_s (l.num.length + l.body.length) (l.text ++ t) = l.num ++ l.body := by
  have hnum : NUL ∉ l.num := fun h => absurd (hl.1.2 _ h) (by decide)
  have htake : (l.text ++ t).take (l.num.length + l.body.length) = l.num ++ l.body := by
    have : l.text ++ t = (l.num ++ l.body) ++ ('\n' :: t) := by simp [Line.text]
    rw [this, ← List.length_append]
    exact List.take_left _ _
  unfold printf_s
  rw [htake]
  apply List.takeWhile_eq_self_iff.2
  intro x hx
  have : x ≠ NUL := by
    rintro rfl
    rcases List.mem_append.1 hx with h | h
    · exact hnum h
    · exact hnul h
  simpa using this

/-- What `f_list` does with one argument that is not 0: it writes the first
line whose number is not below the argument. -/
theorem f_list_one (n : Nat) (st stE : State) (ln : Int) (b : Nat) (t : List Char)
    (pre : List Line) (l : Line) (post : List Line) (hp : IsProgram (pre ++ l :: post))
    (hs : st.s = progText (pre ++ l :: post) ++ [NUL]) (hnul : NUL ∉ l.body)
    (he : expr n st = .ok ln stE) (hr : stE.rest = spaces b ++ '\n' :: t) (hln : ln ≠ 0)
    (hpre : ∀ x ∈ pre, (x.number : Int) < ln) (hl : ln ≤ (l.number : Int))
    (hn : pre.length < n) :
    f_list n st = .ok () { stE.adv b with out := st.out ++ l.text } := by
  obtain ⟨hwfpre, hwfl, _⟩ := lines_before_lt pre l post hp
  obtain ⟨st0, hs0, he0, hm0⟩ := skpspc_then_expr he
  have hm := expr_moved he
  -- the text at the cursor starts an expression
  obtain ⟨x, u, hxu⟩ : ∃ x u, st0.rest = x :: u := by
    cases hr0 : st0.rest with
    | nil =>
      cases n with
      | zero => simp [expr] at he0
      | succ n => simp [expr, skpspc, skipWhile, hr0, scan] at he0
    | cons x u => exact ⟨x, u, rfl⟩
  have hx : x ≠ '\n' := by
    have := expr_ok_head he0 hxu
    rintro rfl
    revert this
    decide
  have hsk : skpspc stE = .ok () (stE.adv b) := skpspc_spaces stE b '\n' t hr (by decide)
  have hr2 : (stE.adv b).rest = '\n' :: t := rest_adv_spaces hr
  have hrest : ({ stE.adv b with c := ⟨.src, 0⟩ } : State).rest
      = progText pre ++ (l.text ++ (progText post ++ [NUL])) := by
    simp [State.rest, State.from, State.mem, State.adv, hm.s, hs, progText_append, progText]
  have hfind := gotolnLoop_finds ln pre n { stE.adv b with c := ⟨.src, 0⟩ } l
    (progText post ++ [NUL]) (fun x hx => ⟨(hwfpre x hx).1, hpre x hx⟩) hwfl hl hrest hn
  have hrest2 : (({ stE.adv b with c := ⟨.src, 0⟩ } : State).adv (progText pre).length).rest
      = l.text ++ (progText post ++ [NUL]) := rest_adv_append hrest
  have hto := skpto_nl_line _ l _ hwfl hrest2
  have hpf := printf_s_line l (progText post ++ [NUL]) hwfl hnul
  unfold f_list
  rw [hs0]
  simp only [Res.bind_ok]
  rw [hxu]
  simp only [hx, if_false]
  rw [he0]
  simp only [Res.bind_ok, hln, if_false]
  rw [hsk]
  simp only [Res.bind_ok]
  rw [hr2]
  simp only [ne_eq, show ('\n' : Char) ≠ ',' by decide, not_false_eq_true, if_true, gotoln, hln,
    if_false]
  rw [hfind]
  simp only [Res.bind_ok]
  rw [hto]
  simp only [Res.bind_ok]
  rw [hrest2]
  simp only [State.adv, Nat.zero_add, Nat.add_sub_cancel_left, hpf]
  have ho : stE.out = st.out := hm.out
  simp [ho, Line.text]

/-- C14 as stated fails: with lines 10 and 20 and no line 15, `LIST 15` writes
the text of line 20. -/
theorem f_list_one_counterexample :
    IsProgram [⟨"10".toList, " LIST 15".toList⟩, ⟨"20".toList, " END".toList⟩] ∧
    (15 ∉ [Line.mk "10".toList " LIST 15".toList, ⟨"20".toList, " END".toList⟩].map
      Line.number) ∧
    progText [⟨"10".toList, " LIST 15".toList⟩, ⟨"20".toList, " END".toList⟩]
      = "10 LIST 15\n20 END\n".toList ∧
    (f_list 3 ((progState "10 LIST 15\n20 END\n".toList).adv 7)).output
      = some "20 END\n".toList := by
  refine ⟨by decide, by decide, by decide, by decide⟩

/-- C14, amended: in a newline-terminated program of plain text with
increasing line numbers, LIST with one argument that evaluates to `ln`, not 0,
when some line has a number that is not below `ln`, writes the text of the
first such line, from its line number to its newline, and the text of no other
line: the line numbered `ln` when there is one.  The cursor is left on the
newline of the LIST statement.  LIST with an argument that evaluates to 0 ends
the run with status 154. -/
theorem f_list_single_line :
    (∀ (n : Nat) (st stE : State) (ln : Int) (b : Nat) (t : List Char)
        (pre : List Line) (l : Line) (post : List Line),
      IsProgram (pre ++ l :: post) →
      st.s = progText (pre ++ l :: post) ++ [NUL] → NUL ∉ l.body →
      expr n st = .ok ln stE → stE.rest = spaces b ++ '\n' :: t → ln ≠ 0 →
      (∀ x ∈ pre, (x.number : Int) < ln) → ln ≤ (l.number : Int) → pre.length < n →
      ∃ fin, f_list n st = .ok () fin ∧ fin.out = st.out ++ l.text ∧
        fin.rest = '\n' :: t) ∧
    (∀ (n : Nat) (st stE : State), expr n st = .ok 0 stE →
      f_list n st = .exit 154 stE) := by
  constructor
  · intro n st stE ln b t pre l post hp hs hnul he hr hln hpre hl hn
    refine ⟨_, f_list_one n st stE ln b t pre l post hp hs hnul he hr hln hpre hl hn, rfl, ?_⟩
    exact rest_adv_spaces hr
  · intro n st stE he
    obtain ⟨st0, hs0, he0, _⟩ := skpspc_then_expr he
    obtain ⟨x, u, hxu⟩ : ∃ x u, st0.rest = x :: u := by
      cases hr0 : st0.rest with
      | nil =>
        cases n with
        | zero => simp [expr] at he0
        | succ n => simp [expr, skpspc, skipWhile, hr0, scan] at he0
      | cons x u => exact ⟨x, u, rfl⟩
    have hx : x ≠ '\n' := by
      have := expr_ok_head he0 hxu
      rintro rfl
      revert this
      decide
    unfold f_list
    rw [hs0]
    simp only [Res.bind_ok]
    rw [hxu]
    simp only [hx, if_false]
    rw [he0]
    simp

/-- C14, amended, on `LIST 20` in the program with lines 10 and 20, after the keyword. -/
theorem f_list_single_line_witness :
    ∃ fin, f_list 3 ((progState "10 LIST 20\n20 END\n".toList).adv 7) = .ok () fin ∧
      fin.out = ((progState "10 LIST 20\n20 END\n".toList).adv 7).out
        ++ (Line.mk "20".toList " END".toList).text ∧
      fin.rest = '\n' :: "20 END\n\x00".toList :=
  f_list_single_line.1 3 ((progState "10 LIST 20\n20 END\n".toList).adv 7)
    ((progState "10 LIST 20\n20 END\n".toList).adv 10) 20 0 "20 END\n\x00".toList
    [⟨"10".toList, " LIST 20".toList⟩] ⟨"20".toList, " END".toList⟩ []
    (by decide) (by decide) (by decide) (by rfl) (by decide) (by decide) (by decide)
    (by decide) (by decide)


/-! ## C15: listing restores the cursor -/

theorem skipWhile_moved {p : Char → Bool} {st st' : State} (h : skipWhile p st = .ok () st') :
    Moved st st' := by
  unfold skipWhile at h
  split at h
  · cases h
  · cases h
    exact Moved.adv st _

theorem listLoop_moved (n : Nat) : ∀ (ln : Int) (st st' : State),
    listLoop n ln st = .ok () st' → Moved st st' := by
  induction n with
  | zero => intro ln st st' h; cases h
  | succ n ih =>
    intro ln st st' h
    unfold listLoop at h
    cases ha : atoi st.rest with
    | none => rw [ha] at h; cases h
    | some v =>
      rw [ha] at h
      dsimp only at h
      split_ifs at h with hv
      · exact skipWhile_moved h
      · obtain ⟨_, s1, h1, h2⟩ := Res.bind_eq_ok h
        exact ((skipWhile_moved h1).trans (Moved.adv s1 1)).trans (ih _ _ _ h2)

/-- C15: after a LIST statement that returns, with no, one or two arguments,
the cursor is where parsing the arguments of the statement left it, and the
variables, the call stack and the source buffer are unchanged. -/
theorem f_list_restores_cursor (n : Nat) (st fin : State) (h : f_list n st = .ok () fin) :
    listArgsEnd n st = some fin.c ∧ fin.vars = st.vars ∧ fin.callstack = st.callstack ∧
      fin.s = st.s := by
  unfold f_list at h
  unfold listArgsEnd
  obtain ⟨_, s0, h0, h⟩ := Res.bind_eq_ok h
  have m0 := skipWhile_moved h0
  rw [show skpspc st = Res.ok () s0 from h0]
  dsimp only
  cases hr0 : s0.rest with
  | nil => rw [hr0] at h; cases h
  | cons ch t =>
    rw [hr0] at h
    dsimp only at h ⊢
    by_cases hch : ch = '\n'
    · simp only [hch, if_true] at h ⊢
      split_ifs at h
      cases h
      exact ⟨rfl, m0.vars, m0.callstack, m0.s⟩
    · simp only [hch, if_false] at h ⊢
      obtain ⟨ln0, s1, h1, h⟩ := Res.bind_eq_ok h
      have m1 := m0.trans (expr_moved h1)
      rw [h1]
      dsimp only
      split_ifs at h with hz
      obtain ⟨_, s2, h2, h⟩ := Res.bind_eq_ok h
      have m2 := m1.trans (skipWhile_moved h2)
      rw [show skpspc s1 = Res.ok () s2 from h2]
      dsimp only
      cases hr2 : s2.rest with
      | nil => rw [hr2] at h; cases h
      | cons sep u =>
        rw [hr2] at h
        dsimp only at h ⊢
        by_cases hsep : sep = ','
        · simp only [hsep, ne_eq, not_true_eq_false, if_false] at h ⊢
          obtain ⟨ln1, s3, h3, h⟩ := Res.bind_eq_ok h
          have m3 := (m2.trans (Moved.adv s2 1)).trans (expr_moved h3)
          rw [h3]
          dsimp only
          obtain ⟨_, s4, h4, h⟩ := Res.bind_eq_ok h
          have f4 := gotoln_frame h4
          obtain ⟨_, s5, h5, h⟩ := Res.bind_eq_ok h
          have m5 := listLoop_moved n ln1 s4 s5 h5
          cases h
          exact ⟨rfl, (m5.vars.trans f4.2.1).trans m3.vars,
            (m5.callstack.trans f4.2.2.1).trans m3.callstack, (m5.s.trans f4.1).trans m3.s⟩
        · simp only [hsep, ne_eq, not_false_eq_true, if_true] at h ⊢
          obtain ⟨_, s4, h4, h⟩ := Res.bind_eq_ok h
          have f4 := gotoln_frame h4
          obtain ⟨_, s5, h5, h⟩ := Res.bind_eq_ok h
          have m5 := skipWhile_moved h5
          cases h
          exact ⟨rfl, (m5.vars.trans f4.2.1).trans m2.vars,
            (m5.callstack.trans f4.2.2.1).trans m2.callstack, (m5.s.trans f4.1).trans m2.s⟩

/-- C15 on `LIST 10,20` in a three-line program, after the keyword. -/
theorem f_list_restores_cursor_witness :
    listArgsEnd 4 ((progState "10 LIST 10,20\n20 REM X\n30 END\n".toList).adv 7)
        = some (({ (progState "10 LIST 10,20\n20 REM X\n30 END\n".toList) with
            c := ⟨.src, 13⟩,
            out := "10 LIST 10,20\n20 REM X\n".toList } : State)).c ∧
      (({ (progState "10 LIST 10,20\n20 REM X\n30 END\n".toList) with
            c := ⟨.src, 13⟩,
            out := "10 LIST 10,20\n20 REM X\n".toList } : State)).vars
        = ((progState "10 LIST 10,20\n20 REM X\n30 END\n".toList).adv 7).vars ∧
      (({ (progState "10 LIST 10,20\n20 REM X\n30 END\n".toList) with
            c := ⟨.src, 13⟩,
            out := "10 LIST 10,20\n20 REM X\n".toList } : State)).callstack
        = ((progState "10 LIST 10,20\n20 REM X\n30 END\n".toList).adv 7).callstack ∧
      (({ (progState "10 LIST 10,20\n20 REM X\n30 END\n".toList) with
            c := ⟨.src, 13⟩,
            out := "10 LIST 10,20\n20 REM X\n".toList } : State)).s
        = ((progState "10 LIST 10,20\n20 REM X\n30 END\n".toList).adv 7).s :=
  f_list_restores_cursor 4 ((progState "10 LIST 10,20\n20 REM X\n30 END\n".toList).adv 7)
    { (progState "10 LIST 10,20\n20 REM X\n30 END\n".toList) with
        c := ⟨.src, 13⟩,
        out := "10 LIST 10,20\n20 REM X\n".toList }
    (by rfl)


/-! ## C16: the comma of PRINT -/

theorem scan_spaces_some : ∀ (t : List Char) (j : Nat), scan (fun ch => ch == ' ') t = some j →
    ∃ ch t', t = spaces j ++ ch :: t' ∧ ch ≠ ' ' := by
  intro t
  induction t with
  | nil => intro j h; simp [scan] at h
  | cons x t ih =>
    intro j h
    by_cases hx : x = ' '
    · subst hx
      simp only [scan, beq_self_eq_true, if_true, Option.map_eq_some'] at h
      obtain ⟨m, hm, rfl⟩ := h
      obtain ⟨ch, t', ht, hch⟩ := ih m hm
      exact ⟨ch, t', by rw [ht]; rfl, hch⟩
    · have : (x == ' ') = false := by simpa using hx
      simp only [scan, this] at h
      cases h
      exact ⟨x, t, rfl, hx⟩

theorem scan_spaces_none : ∀ (t : List Char), scan (fun ch => ch == ' ') t = none →
    ∀ x ∈ t, x = ' ' := by
  intro t
  induction t with
  | nil => intro _ x hx; cases hx
  | cons y t ih =>
    intro h x hx
    by_cases hy : y = ' '
    · subst hy
      simp only [scan, beq_self_eq_true, if_true, Option.map_eq_none'] at h
      rcases List.mem_cons.1 hx with rfl | hx
      · rfl
      · exact ih h x hx
    · have : (y == ' ') = false := by simpa using hy
      simp [scan, this] at h

theorem filter_spaces (j : Nat) : (spaces j).filter (fun ch => ch != ' ') = [] := by
  apply List.filter_eq_nil_iff.2
  intro x hx
  simp [mem_spaces hx]

theorem matches_nil (t : List Char) (k : Nat) : Matches [] t k ↔ k = 0 := by
  constructor
  · rintro ⟨hk, hf, hl⟩
    by_contra h0
    have hne : t.take k ≠ [] := by
      intro he
      have := congrArg List.length he
      rw [List.length_take, List.length_nil] at this
      omega
    obtain ⟨x, hx⟩ : ∃ x, (t.take k).getLast? = some x := by
      cases hg : (t.take k).getLast? with
      | none => exact (hne (List.getLast?_eq_none_iff.1 hg)).elim
      | some x => exact ⟨x, rfl⟩
    have hmem : x ∈ t.take k := List.mem_of_getLast?_eq_some hx
    have := (List.filter_eq_nil_iff.1 hf) x hmem
    have hx' : x = ' ' := by simpa using this
    rw [hx, hx'] at hl
    exact hl rfl
  · rintro rfl
    exact ⟨Nat.zero_le _, rfl, by simp⟩

theorem take_spaces_append (j m : Nat) (ch : Char) (t : List Char) :
    (spaces j ++ ch :: t).take (j + 1 + m) = spaces j ++ ch :: t.take m := by
  have h := @List.take_append Char (spaces j) (ch :: t) (1 + m)
  rw [length_spaces, ← Nat.add_assoc] at h
  rw [h, Nat.add_comm 1 m, List.take_succ_cons]

theorem getLast_spaces_cons (j : Nat) (ch : Char) (w : List Char) (hch : ch ≠ ' ') :
    (spaces j ++ ch :: w).getLast? ≠ some ' ' ↔ w.getLast? ≠ some ' ' := by
  rw [List.getLast?_append, List.getLast?_cons]
  cases hw : w.getLast? with
  | none => simp [hch]
  | some x => simp

theorem matches_cons_spaces (p : Char) (ps : List Char) (j : Nat) (ch : Char) (t : List Char)
    (k : Nat) (hch : ch ≠ ' ') :
    Matches (p :: ps) (spaces j ++ ch :: t) k
      ↔ p = ch ∧ j + 1 ≤ k ∧ Matches ps t (k - (j + 1)) := by
  by_cases hk : j + 1 ≤ k
  · obtain ⟨m, rfl⟩ := Nat.exists_eq_add_of_le hk
    have hb : (ch != ' ') = true := by simpa using hch
    simp only [Matches, take_spaces_append, List.filter_append, filter_spaces, List.nil_append,
      List.filter_cons, hb, if_true, List.cons.injEq, getLast_spaces_cons j ch _ hch,
      Nat.add_sub_cancel_left, List.length_append, length_spaces, List.length_cons]
    constructor
    · rintro ⟨h1, ⟨h2, h3⟩, h4⟩
      exact ⟨h2.symm, hk, by omega, h3, h4⟩
    · rintro ⟨h1, _, h2, h3, h4⟩
      exact ⟨by omega, ⟨h1.symm, h3⟩, h4⟩
  · constructor
    · rintro ⟨_, hf, _⟩
      have ht : (spaces j ++ ch :: t).take k = spaces k := by
        rw [List.take_append_of_le_length (by simp; omega)]
        simp [spaces, List.take_replicate]
        omega
      rw [ht, filter_spaces] at hf
      cases hf
    · rintro ⟨_, h, _⟩
      exact (hk h).elim

theorem matches_all_spaces (p : Char) (ps t : List Char) (k : Nat) (h : ∀ x ∈ t, x = ' ') :
    ¬ Matches (p :: ps) t k := by
  rintro ⟨_, hf, _⟩
  have : (t.take k).filter (fun ch => ch != ' ') = [] := by
    apply List.filter_eq_nil_iff.2
    intro x hx
    simp [h x (List.mem_of_mem_take hx)]
  rw [this] at hf
  cases hf

theorem strspccmpFrom_ge : ∀ (p t : List Char) (i r : Int), strspccmpFrom p t i = some r →
    r = -1 ∨ i ≤ r := by
  intro p
  induction p with
  | nil =>
    intro t i r h
    simp only [strspccmpFrom, Option.some.injEq] at h
    exact Or.inr (by omega)
  | cons p ps ih =>
    intro t i r h
    unfold strspccmpFrom at h
    split at h
    · cases h
    · split at h
      · cases h
      · split at h
        · cases h
          exact Or.inl rfl
        · rcases ih _ _ _ h with h1 | h1
          · exact Or.inl h1
          · exact Or.inr (by omega)

theorem strspccmpFrom_matches : ∀ (p t : List Char) (i : Int) (k : Nat), 0 ≤ i →
    (strspccmpFrom p t i = some (i + k) ↔ Matches p t k) := by
  intro p
  induction p with
  | nil =>
    intro t i k _
    rw [matches_nil]
    simp only [strspccmpFrom, Option.some.injEq]
    omega
  | cons p ps ih =>
    intro t i k hi
    cases hs : scan (fun ch => ch == ' ') t with
    | none =>
      have hm := matches_all_spaces p ps t k (scan_spaces_none t hs)
      simp [strspccmpFrom, hs, hm]
    | some j =>
      obtain ⟨ch, t', rfl, hch⟩ := scan_spaces_some t j hs
      rw [matches_cons_spaces p ps j ch t' k hch]
      have hd : List.drop j (spaces j ++ ch :: t') = ch :: t' := by
        simp
      simp only [strspccmpFrom, hs, hd]
      by_cases hp : p = ch
      · subst hp
        simp only [ne_eq, not_true_eq_false, if_false, true_and]
        by_cases hk : j + 1 ≤ k
        · obtain ⟨m, rfl⟩ := Nat.exists_eq_add_of_le hk
          have := ih t' (i + j + 1) m (by omega)
          simp only [hk, true_and, Nat.add_sub_cancel_left]
          rw [← this]
          have e : (i + j + 1 + (m : Int)) = i + ((j + 1 + m : Nat) : Int) := by
            push_cast
            omega
          rw [e]
        · simp only [hk, false_and, iff_false]
          intro h
          rcases strspccmpFrom_ge _ _ _ _ h with h1 | h1
          · omega
          · omega
      · simp only [ne_eq, hp, not_false_eq_true, if_true, false_and, iff_false, Option.some.injEq]
        omega

/-- On a text that holds a NUL, a pattern without one is compared without
leaving the text. -/
theorem strspccmpFrom_returns : ∀ (p t : List Char) (i : Int), NUL ∉ p → NUL ∈ t →
    strspccmpFrom p t i ≠ none := by
  intro p
  induction p with
  | nil => intro t i _ _; simp [strspccmpFrom]
  | cons p ps ih =>
    intro t i hp ht
    cases hs : scan (fun ch => ch == ' ') t with
    | none =>
      have := scan_spaces_none t hs NUL ht
      exact absurd this (by decide)
    | some j =>
      obtain ⟨ch, t', rfl, hch⟩ := scan_spaces_some t j hs
      have hd : List.drop j (spaces j ++ ch :: t') = ch :: t' := by
        simp
      simp only [strspccmpFrom, hs, hd]
      by_cases hpc : p = ch
      · subst hpc
        simp only [ne_eq, not_true_eq_false, if_false]
        apply ih
        · exact fun h => hp (List.mem_cons_of_mem _ h)
        · rcases List.mem_append.1 ht with h | h
          · exact absurd (mem_spaces h) (by decide)
          · rcases List.mem_cons.1 h with h | h
            · exact (hp (by rw [h]; exact List.mem_cons_self _ _)).elim
            · exact h
      · simp [hpc]

/-- No shorter prefix of the text has the pattern as its characters other than
spaces. -/
theorem matches_shortest (p t : List Char) (k k' : Nat) (h : Matches p t k)
    (hf : (t.take k').filter (fun ch => ch != ' ') = p) : k ≤ k' := by
  obtain ⟨hk, hp, hl⟩ := h
  by_contra hlt
  have hlt : k' < k := by omega
  have htake : (t.take k).take k' = t.take k' := by
    rw [List.take_take]
    congr 1
    omega
  have hsplit : t.take k = t.take k' ++ (t.take k).drop k' := by
    rw [← htake]
    exact (List.take_append_drop k' (t.take k)).symm
  have hfd : ((t.take k).drop k').filter (fun ch => ch != ' ') = [] := by
    have h1 := hp
    rw [hsplit, List.filter_append, hf] at h1
    exact List.append_right_eq_self.1 h1
  have hne : (t.take k).drop k' ≠ [] := by
    intro he
    have := congrArg List.length he
    rw [List.length_drop, List.length_take, List.length_nil] at this
    omega
  obtain ⟨x, hx⟩ : ∃ x, ((t.take k).drop k').getLast? = some x := by
    cases hg : ((t.take k).drop k').getLast? with
    | none => exact (hne (List.getLast?_eq_none_iff.1 hg)).elim
    | some x => exact ⟨x, rfl⟩
  have hx' : x = ' ' := by
    have := (List.filter_eq_nil_iff.1 hfd) x (List.mem_of_getLast?_eq_some hx)
    simpa using this
  apply hl
  rw [hsplit, List.getLast?_append, hx, hx']
  rfl

/-- C18: for a pattern and a text as C strings (no NUL in the pattern, a NUL in
the text), `strspccmp` returns; it returns k >= 0 exactly when the first k
characters of the text with their spaces removed are the pattern and the k-th
is the character matched against the last character of the pattern, which is
the shortest prefix with these characters, and 0 for the empty pattern; in
every other case it returns -1. `GOTO` against `G O T O 10` gives 7 and
against `GOSUB 10` gives -1. -/
theorem strspccmp_matches (p t : List Char) (hp : NUL ∉ p) (ht : NUL ∈ t) :
    (∀ k : Nat, strspccmp p t = some (k : Int) ↔ Matches p t k) ∧
      ((¬ ∃ k, Matches p t k) → strspccmp p t = some (-1)) ∧
      (∀ k k' : Nat, Matches p t k →
        (t.take k').filter (fun ch => ch != ' ') = p → k ≤ k') ∧
      (p = [] → strspccmp p t = some 0) ∧
      strspccmp "GOTO".toList ("G O T O 10".toList ++ [NUL]) = some 7 ∧
      strspccmp "GOTO".toList ("GOSUB 10".toList ++ [NUL]) = some (-1) := by
  have hm : ∀ k : Nat, strspccmp p t = some (k : Int) ↔ Matches p t k := by
    intro k
    have := strspccmpFrom_matches p t 0 k (le_refl 0)
    rw [Int.zero_add] at this
    exact this
  refine ⟨hm, ?_, fun k k' h hf => matches_shortest p t k k' h hf, ?_, by decide,
    by decide⟩
  · intro hno
    cases hr : strspccmp p t with
    | none => exact (strspccmpFrom_returns p t 0 hp ht hr).elim
    | some r =>
      rcases strspccmpFrom_ge p t 0 r hr with h | h
      · rw [h]
      · exfalso
        apply hno
        refine ⟨r.toNat, (hm r.toNat).1 ?_⟩
        rw [hr, Int.toNat_of_nonneg h]
  · rintro rfl
    rfl

theorem strspccmp_matches_witness :
    (∀ k : Nat, strspccmp "THEN".toList ("T HEN 5".toList ++ [NUL]) = some (k : Int)
        ↔ Matches "THEN".toList ("T HEN 5".toList ++ [NUL]) k) ∧
      ((¬ ∃ k, Matches "THEN".toList ("T HEN 5".toList ++ [NUL]) k) →
        strspccmp "THEN".toList ("T HEN 5".toList ++ [NUL]) = some (-1)) ∧
      (∀ k k' : Nat, Matches "THEN".toList ("T HEN 5".toList ++ [NUL]) k →
        (("T HEN 5".toList ++ [NUL]).take k').filter (fun ch => ch != ' ') = "THEN".toList →
        k ≤ k') ∧
      ("THEN".toList = [] → strspccmp "THEN".toList ("T HEN 5".toList ++ [NUL]) = some 0) ∧
      strspccmp "GOTO".toList ("G O T O 10".toList ++ [NUL]) = some 7 ∧
      strspccmp "GOTO".toList ("GOSUB 10".toList ++ [NUL]) = some (-1) :=
  strspccmp_matches "THEN".toList ("T HEN 5".toList ++ [NUL]) (by decide) (by decide)


/-! ## C11: the statuses a run can end with -/

theorem Res.exitsIn_bind {α β : Type} {r : Res α} {k : α → State → Res β}
    (h : r.exitsIn) (hk : ∀ a st, (k a st).exitsIn) : (r.bind k).exitsIn := by
  cases r with
  | ok a st => exact hk a st
  | exit m st => exact h
  | ub => trivial
  | oof => trivial

theorem skipWhile_exitsIn (p : Char → Bool) (st : State) : (skipWhile p st).exitsIn := by
  unfold skipWhile
  split <;> trivial

theorem factor_exitsIn {ex : State → Res Int} (he : ∀ st, (ex st).exitsIn) (st : State) :
    (factor ex st).exitsIn := by
  unfold factor
  repeat' first
    | exact trivial
    | exact skipWhile_exitsIn _ _
    | exact he _
    | (show (_ : Nat) ∈ statuses; decide)
    | apply Res.exitsIn_bind
    | intro _ _
    | split

theorem termLoop_exitsIn {ex : State → Res Int} (he : ∀ st, (ex st).exitsIn) (n : Nat) :
    ∀ (f : Int) (st : State), (termLoop ex n f st).exitsIn := by
  induction n with
  | zero => intro f st; trivial
  | succ n ih =>
    intro f st
    unfold termLoop
    repeat' first
      | exact trivial
      | exact skipWhile_exitsIn _ _
      | exact factor_exitsIn he _
      | exact ih _ _
      | apply Res.exitsIn_bind
      | intro _ _
      | split

theorem term_exitsIn {ex : State → Res Int} (he : ∀ st, (ex st).exitsIn) (n : Nat)
    (st : State) : (term ex n st).exitsIn := by
  unfold term
  repeat' first
    | exact skipWhile_exitsIn _ _
    | exact factor_exitsIn he _
    | exact termLoop_exitsIn he _ _ _
    | apply Res.exitsIn_bind
    | intro _ _

theorem unsignedLoop_exitsIn {ex : State → Res Int} (he : ∀ st, (ex st).exitsIn) (m n : Nat) :
    ∀ (f : Int) (st : State), (unsignedLoop ex m n f st).exitsIn := by
  induction n with
  | zero => intro f st; trivial
  | succ n ih =>
    intro f st
    unfold unsignedLoop
    repeat' first
      | exact trivial
      | exact skipWhile_exitsIn _ _
      | exact term_exitsIn he _ _
      | exact ih _ _
      | apply Res.exitsIn_bind
      | intro _ _
      | split

theorem unsigned_expr_exitsIn {ex : State → Res Int} (he : ∀ st, (ex st).exitsIn) (n : Nat)
    (st : State) : (unsigned_expr ex n st).exitsIn := by
  unfold unsigned_expr
  repeat' first
    | exact skipWhile_exitsIn _ _
    | exact term_exitsIn he _ _
    | exact unsignedLoop_exitsIn he _ _ _ _
    | apply Res.exitsIn_bind
    | intro _ _

theorem expr_exitsIn (n : Nat) : ∀ st : State, (expr n st).exitsIn := by
  induction n with
  | zero => intro st; trivial
  | succ n ih =>
    intro st
    unfold expr
    repeat' first
      | exact trivial
      | exact skipWhile_exitsIn _ _
      | exact unsigned_expr_exitsIn ih _ _
      | apply Res.exitsIn_bind
      | intro _ _
      | split

theorem gotolnLoop_exitsIn (n : Nat) : ∀ (ln : Int) (st : State),
    (gotolnLoop n ln st).exitsIn := by
  induction n with
  | zero => intro ln st; trivial
  | succ n ih =>
    intro ln st
    unfold gotolnLoop skpto
    repeat' first
      | exact trivial
      | exact skipWhile_exitsIn _ _
      | exact ih _ _
      | exact ih _
      | apply Res.exitsIn_bind
      | intro _ _
      | split

theorem gotoln_exitsIn (n : Nat) (ln : Int) (st : State) : (gotoln n ln st).exitsIn := by
  unfold gotoln
  split
  · show (_ : Nat) ∈ statuses
    decide
  · exact gotolnLoop_exitsIn _ _ _

theorem prLoop_exitsIn {ex : State → Res Int} (he : ∀ st, (ex st).exitsIn) (n : Nat) :
    ∀ st : State, (prLoop ex n st).exitsIn := by
  induction n with
  | zero => intro st; trivial
  | succ n ih =>
    intro st
    unfold prLoop prEnd skpspc
    repeat' first
      | exact trivial
      | exact skipWhile_exitsIn _ _
      | exact he _
      | exact ih _
      | apply Res.exitsIn_bind
      | intro _ _
      | split

theorem f_pr_exitsIn (n : Nat) (st : State) : (f_pr n st).exitsIn := by
  unfold f_pr
  exact Res.exitsIn_bind (skipWhile_exitsIn _ _) (fun _ _ => prLoop_exitsIn (expr_exitsIn n) _ _)

theorem inLoop_exitsIn {ex : State → Res Int} (he : ∀ st, (ex st).exitsIn) (n : Nat) :
    ∀ st : State, (inLoop ex n st).exitsIn := by
  induction n with
  | zero => intro st; trivial
  | succ n ih =>
    intro st
    unfold inLoop skpspc
    repeat' first
      | exact trivial
      | exact skipWhile_exitsIn _ _
      | exact he _
      | exact ih _
      | (show (_ : Nat) ∈ statuses; decide)
      | apply Res.exitsIn_bind
      | intro _ _
      | split

theorem f_in_exitsIn (n : Nat) (st : State) : (f_in n st).exitsIn := by
  unfold f_in
  exact Res.exitsIn_bind (skipWhile_exitsIn _ _) (fun _ _ => inLoop_exitsIn (expr_exitsIn n) _ _)

theorem f_let_exitsIn (n : Nat) (st : State) : (f_let n st).exitsIn := by
  unfold f_let skpspc
  repeat' first
    | exact trivial
    | exact skipWhile_exitsIn _ _
    | exact expr_exitsIn _ _
    | (show (_ : Nat) ∈ statuses; decide)
    | apply Res.exitsIn_bind
    | intro _ _
    | split

theorem f_goto_exitsIn (n : Nat) (st : State) : (f_goto n st).exitsIn := by
  unfold f_goto
  repeat' first
    | exact trivial
    | exact skipWhile_exitsIn _ _
    | exact expr_exitsIn _ _
    | exact gotoln_exitsIn _ _ _
    | (show (_ : Nat) ∈ statuses; decide)
    | apply Res.exitsIn_bind
    | intro _ _
    | split

theorem f_gosub_exitsIn (n : Nat) (st : State) : (f_gosub n st).exitsIn := by
  unfold f_gosub
  repeat' first
    | exact trivial
    | exact skipWhile_exitsIn _ _
    | exact expr_exitsIn _ _
    | exact gotoln_exitsIn _ _ _
    | (show (_ : Nat) ∈ statuses; decide)
    | apply Res.exitsIn_bind
    | intro _ _
    | split

theorem f_ret_exitsIn (st : State) : (f_ret st).exitsIn := by
  unfold f_ret
  repeat' first
    | exact trivial
    | exact skipWhile_exitsIn _ _
    | (show (_ : Nat) ∈ statuses; decide)
    | apply Res.exitsIn_bind
    | intro _ _
    | split

theorem relHolds_some (op0 op1 : Char) (e0 e1 : Int)
    (h : op0 = '<' ∨ op0 = '=' ∨ op0 = '>') : relHolds op0 op1 e0 e1 ≠ none := by
  unfold relHolds
  rcases h with rfl | rfl | rfl <;> simp <;> split_ifs <;> simp

theorem scan_stops (p : Char → Bool) : ∀ (l : List Char) (k : Nat), scan p l = some k →
    ∃ ch t, l.drop k = ch :: t ∧ p ch = false := by
  intro l
  induction l with
  | nil => intro k h; simp [scan] at h
  | cons x l ih =>
    intro k h
    by_cases hx : p x = true
    · simp only [scan, hx, if_true, Option.map_eq_some'] at h
      obtain ⟨j, hj, rfl⟩ := h
      simpa using ih j hj
    · simp only [scan, hx, Bool.false_eq_true, if_false, Option.some.injEq] at h
      subst h
      exact ⟨x, l, rfl, by simpa using hx⟩

theorem char_of_toNat {ch : Char} {k : Nat} (h : ch.toNat = k) : ch = Char.ofNat k := by
  rw [← h, Char.ofNat_toNat]

/-- Where the operator scan of `f_if` stops there is `<`, `=` or `>`. -/
theorem operator_scan_stops {ch : Char}
    (h : (decide (ch.toNat < 60) || decide (ch.toNat > 62)) = false) :
    ch = '<' ∨ ch = '=' ∨ ch = '>' := by
  have h3 : ch.toNat = 60 ∨ ch.toNat = 61 ∨ ch.toNat = 62 := by
    simp only [Bool.or_eq_false_iff, decide_eq_false_iff_not] at h
    omega
  rcases h3 with h3 | h3 | h3
  · exact Or.inl (char_of_toNat h3)
  · exact Or.inr (Or.inl (char_of_toNat h3))
  · exact Or.inr (Or.inr (char_of_toNat h3))

/-- The handler `f_if` ends a run only through its expressions or the statement
it runs: the operator scan stops on `<`, `=` or `>`, so the default case of the
switch, status 330, is never taken. -/
theorem f_if_exitsIn {stmtF : State → Res Unit} (hs : ∀ st, (stmtF st).exitsIn) (n : Nat)
    (st : State) : (f_if stmtF n st).exitsIn := by
  unfold f_if
  refine Res.exitsIn_bind (skipWhile_exitsIn _ _) (fun _ s1 => ?_)
  refine Res.exitsIn_bind (expr_exitsIn _ _) (fun e0 s2 => ?_)
  unfold skipWhile
  cases hsc : scan (fun ch => decide (ch.toNat < 60) || decide (ch.toNat > 62)) s2.rest with
  | none => trivial
  | some k =>
    obtain ⟨ch, t, hd, hp⟩ := scan_stops _ _ _ hsc
    have hr : (s2.adv k).rest = ch :: t := by rw [State.rest_adv, hd]
    simp only [Res.bind_ok]
    rw [hr]
    cases t with
    | nil => trivial
    | cons op1 t2 =>
      dsimp only
      refine Res.exitsIn_bind (expr_exitsIn _ _) (fun e1 s3 => ?_)
      refine Res.exitsIn_bind (skipWhile_exitsIn _ _) (fun _ s4 => ?_)
      cases strspccmp ['T', 'H', 'E', 'N'] s4.rest with
      | none => trivial
      | some eq =>
        dsimp only
        refine Res.exitsIn_bind (skipWhile_exitsIn _ _) (fun _ s5 => ?_)
        have hrel := relHolds_some ch op1 e0 e1 (operator_scan_stops hp)
        cases hb : relHolds ch op1 e0 e1 with
        | none => exact (hrel hb).elim
        | some b =>
          cases b with
          | true => exact hs _
          | false => exact skipWhile_exitsIn _ _

theorem listLoop_exitsIn (n : Nat) : ∀ (ln : Int) (st : State),
    (listLoop n ln st).exitsIn := by
  induction n with
  | zero => intro ln st; trivial
  | succ n ih =>
    intro ln st
    unfold listLoop skpto
    repeat' first
      | exact trivial
      | exact skipWhile_exitsIn _ _
      | exact ih _ _
      | apply Res.exitsIn_bind
      | intro _ _
      | split

theorem f_list_exitsIn (n : Nat) (st : State) : (f_list n st).exitsIn := by
  unfold f_list skpspc skpto
  repeat' first
    | exact trivial
    | exact skipWhile_exitsIn _ _
    | exact expr_exitsIn _ _
    | exact gotoln_exitsIn _ _ _
    | exact listLoop_exitsIn _ _ _
    | (show (_ : Nat) ∈ statuses; decide)
    | apply Res.exitsIn_bind
    | intro _ _
    | split

theorem dispatch_exitsIn : ∀ (tbl : List (List Char × (State → Res Unit))) (st : State),
    (∀ e ∈ tbl, ∀ s, (e.2 s).exitsIn) → (dispatch tbl st).exitsIn := by
  intro tbl
  induction tbl with
  | nil => intro st _; trivial
  | cons e tbl ih =>
    intro st h
    obtain ⟨kw, f⟩ := e
    unfold dispatch
    split
    · trivial
    · split
      · exact h (kw, f) (List.mem_cons_self _ _) _
      · exact ih st (fun e he => h e (List.mem_cons_of_mem _ he))

theorem stmt_exitsIn (n : Nat) : ∀ st : State, (stmt n st).exitsIn := by
  induction n with
  | zero => intro st; trivial
  | succ n ih =>
    intro st
    unfold stmt
    apply dispatch_exitsIn
    intro e he s
    simp only [KEYWORDS, List.mem_cons, List.mem_singleton, List.not_mem_nil, or_false] at he
    rcases he with rfl | rfl | rfl | rfl | rfl | rfl | rfl | rfl | rfl | rfl | rfl | rfl
    · exact f_pr_exitsIn _ _
    · exact f_pr_exitsIn _ _
    · exact f_in_exitsIn _ _
    · exact f_let_exitsIn _ _
    · exact f_goto_exitsIn _ _
    · exact f_gosub_exitsIn _ _
    · exact f_ret_exitsIn _
    · exact f_if_exitsIn ih _ _
    · exact skipWhile_exitsIn _ _
    · exact f_list_exitsIn _ _
    · show (0 : Nat) ∈ statuses
      decide
    · exact f_let_exitsIn _ _

theorem mainLoop_exitsIn (n : Nat) : ∀ st : State, (mainLoop n st).exitsIn := by
  induction n with
  | zero => intro st; trivial
  | succ n ih =>
    intro st
    unfold mainLoop
    exact Res.exitsIn_bind (skipWhile_exitsIn _ _)
      (fun _ _ => Res.exitsIn_bind (stmt_exitsIn _ _) (fun _ _ => ih _))

/-- C11: status 330 is not among the statuses a run can end with, whatever the
program, the input and the fuel, and `f_if` itself exits only with one of the
others: its scan for the operator passes every character that is not `<`, `=`
or `>`. On `10 IF 1 # 2 THEN PRINT 5` followed by `20 END` the scan leaves the
source array (undefined behaviour); followed by `20 IF 1=1 THEN PRINT 9` it
takes the `=` of line 20 as the operator, PRINT 9 is executed and the run ends
with status 0. -/
theorem if_bad_operator_not_330 (m n : Nat) (file input : List Char) (rnd : Nat → Nat)
    (st : State) :
    (main n file input rnd).exitsIn ∧ (f_if (stmt n) n st).exitsIn ∧
      statuses.contains 330 = false ∧
      (main (m + 10) "10 IF 1 # 2 THEN PRINT 5\n20 END\n".toList [] (fun _ => 0)).undefined
        = true ∧
      (main (m + 10) "10 IF 1 # 2 THEN PRINT 5\n20 IF 1=1 THEN PRINT 9\n30 END\n".toList []
        (fun _ => 0)).status = some 0 ∧
      (main (m + 10) "10 IF 1 # 2 THEN PRINT 5\n20 IF 1=1 THEN PRINT 9\n30 END\n".toList []
        (fun _ => 0)).output = some "9\r\n".toList := by
  have h1 : (main 10 "10 IF 1 # 2 THEN PRINT 5\n20 END\n".toList [] (fun _ => 0)).undefined
      = true := by decide
  have h2 : (main 10 "10 IF 1 # 2 THEN PRINT 5\n20 IF 1=1 THEN PRINT 9\n30 END\n".toList []
      (fun _ => 0)).status = some 0 := by decide
  have h3 : (main 10 "10 IF 1 # 2 THEN PRINT 5\n20 IF 1=1 THEN PRINT 9\n30 END\n".toList []
      (fun _ => 0)).output = some "9\r\n".toList := by decide
  have hm1 : main (m + 10) "10 IF 1 # 2 THEN PRINT 5\n20 END\n".toList [] (fun _ => 0)
      = main 10 "10 IF 1 # 2 THEN PRINT 5\n20 END\n".toList [] (fun _ => 0) :=
    mainLoop_mono rfl (fun h => by rw [h] at h1; cases h1) (by omega)
  have hm2 : main (m + 10) "10 IF 1 # 2 THEN PRINT 5\n20 IF 1=1 THEN PRINT 9\n30 END\n".toList
        [] (fun _ => 0)
      = main 10 "10 IF 1 # 2 THEN PRINT 5\n20 IF 1=1 THEN PRINT 9\n30 END\n".toList []
        (fun _ => 0) :=
    mainLoop_mono rfl (fun h => by rw [h] at h2; cases h2) (by omega)
  rw [hm1, hm2]
  exact ⟨mainLoop_exitsIn _ _, f_if_exitsIn (stmt_exitsIn n) _ _, by decide, h1, h2, h3⟩


/-! ## C12: INPUT -/

/-- C12: with the input `5`, the program `10 INPUT A`, `20 END` writes the
prompt, stores 5 in A and ends with status 123 instead of going on to line 20:
after a variable `f_in` requires a comma before it tests for the end of the
line. With the input `5,6`, `INPUT A,B` stores 5 and 6 and ends with status 123
as well. With a comma after the last variable, `INPUT A,` followed by
`20 PRINT A` and `30 END` completes, prints 5 and ends with status 0. -/
theorem input_last_variable_exits (m : Nat) :
    (main (m + 10) "10 INPUT A\n20 END\n".toList "5\n".toList (fun _ => 0)).status = some 123 ∧
      (main (m + 10) "10 INPUT A\n20 END\n".toList "5\n".toList (fun _ => 0)).state.map
        (fun st => st.vars 0) = some 5 ∧
      (main (m + 10) "10 INPUT A\n20 END\n".toList "5\n".toList (fun _ => 0)).output
        = some ['?', XON] ∧
      (main (m + 10) "10 INPUT A,B\n20 END\n".toList "5,6\n".toList (fun _ => 0)).status
        = some 123 ∧
      (main (m + 10) "10 INPUT A,B\n20 END\n".toList "5,6\n".toList (fun _ => 0)).state.map
        (fun st => (st.vars 0, st.vars 1)) = some (5, 6) ∧
      (main (m + 10) "10 INPUT A,\n20 PRINT A\n30 END\n".toList "5\n".toList
        (fun _ => 0)).status = some 0 ∧
      (main (m + 10) "10 INPUT A,\n20 PRINT A\n30 END\n".toList "5\n".toList
        (fun _ => 0)).output = some (['?', XON] ++ "5\r\n".toList) := by
  have h1 : (main 10 "10 INPUT A\n20 END\n".toList "5\n".toList (fun _ => 0)).status
      = some 123 := by decide
  have h2 : (main 10 "10 INPUT A\n20 END\n".toList "5\n".toList (fun _ => 0)).state.map
      (fun st => st.vars 0) = some 5 := by decide
  have h3 : (main 10 "10 INPUT A\n20 END\n".toList "5\n".toList (fun _ => 0)).output
      = some ['?', XON] := by decide
  have h4 : (main 10 "10 INPUT A,B\n20 END\n".toList "5,6\n".toList (fun _ => 0)).status
      = some 123 := by decide
  have h5 : (main 10 "10 INPUT A,B\n20 END\n".toList "5,6\n".toList (fun _ => 0)).state.map
      (fun st => (st.vars 0, st.vars 1)) = some (5, 6) := by decide
  have h6 : (main 10 "10 INPUT A,\n20 PRINT A\n30 END\n".toList "5\n".toList
      (fun _ => 0)).status = some 0 := by decide
  have h7 : (main 10 "10 INPUT A,\n20 PRINT A\n30 END\n".toList "5\n".toList
      (fun _ => 0)).output = some (['?', XON] ++ "5\r\n".toList) := by decide
  have hm1 : main (m + 10) "10 INPUT A\n20 END\n".toList "5\n".toList (fun _ => 0)
      = main 10 "10 INPUT A\n20 END\n".toList "5\n".toList (fun _ => 0) :=
    mainLoop_mono rfl (fun h => by rw [h] at h1; cases h1) (by omega)
  have hm2 : main (m + 10) "10 INPUT A,B\n20 END\n".toList "5,6\n".toList (fun _ => 0)
      = main 10 "10 INPUT A,B\n20 END\n".toList "5,6\n".toList (fun _ => 0) :=
    mainLoop_mono rfl (fun h => by rw [h] at h4; cases h4) (by omega)
  have hm3 : main (m + 10) "10 INPUT A,\n20 PRINT A\n30 END\n".toList "5\n".toList (fun _ => 0)
      = main 10 "10 INPUT A,\n20 PRINT A\n30 END\n".toList "5\n".toList (fun _ => 0) :=
    mainLoop_mono rfl (fun h => by rw [h] at h6; cases h6) (by omega)
  rw [hm1, hm2, hm3]
  exact ⟨h1, h2, h3, h4, h5, h6, h7⟩

theorem inpln_s (st : State) : (inpln st).s = st.s := by
  unfold inpln
  dsimp only
  split <;> rfl

theorem rest_src {st : State} (h : st.c.r = .src) : st.rest = st.s.drop st.c.i := by
  simp only [State.rest, State.from, h, State.mem]

theorem skpspc_decomp {st st' : State} (h : skpspc st = .ok () st') :
    ∃ a ch t, st.rest = spaces a ++ ch :: t ∧ ch ≠ ' ' ∧ st' = st.adv a := by
  unfold skpspc skipWhile at h
  cases hs : scan (fun ch => ch == ' ') st.rest with
  | none => rw [hs] at h; cases h
  | some a =>
    rw [hs] at h
    simp only [Res.ok.injEq, true_and] at h
    obtain ⟨ch, t, ht, hch⟩ := scan_spaces_some _ _ hs
    exact ⟨a, ch, t, ht, hch, h.symm⟩

/-- The loop of `f_in` returns only at a newline that is the first character it
sees or follows a comma, spaces apart. -/
theorem inLoop_returns_after_comma (ex : State → Res Int)
    (hex : ∀ s v s', ex s = .ok v s' → s'.s = s.s) (n : Nat) :
    ∀ st fin : State, st.c.r = .src → inLoop ex n st = .ok () fin →
      ∃ w t, st.rest = w ++ '\n' :: t ∧ fin.c = ⟨.src, st.c.i + w.length⟩ ∧ fin.s = st.s ∧
        (w = [] ∨ (w.filter (fun ch => ch != ' ')).getLast? = some ',') := by
  induction n with
  | zero => intro st fin _ h; cases h
  | succ n ih =>
    intro st fin hr h
    unfold inLoop at h
    cases hT : st.rest with
    | nil => rw [hT] at h; cases h
    | cons ch T1 =>
      rw [hT] at h
      dsimp only at h
      by_cases hnl : ch = '\n'
      · rw [if_pos hnl] at h
        simp only [Res.ok.injEq, true_and] at h
        subst h
        subst hnl
        refine ⟨[], T1, rfl, ?_, rfl, Or.inl rfl⟩
        rw [← hr]
        rfl
      · rw [if_neg hnl] at h
        by_cases hu : ch.isUpper = true
        · simp only [hu, Bool.not_true, Bool.false_eq_true, if_false] at h
          cases hl : st.from st.loc with
          | nil => rw [hl] at h; cases h
          | cons l lt =>
            rw [hl] at h
            dsimp only at h
            obtain ⟨_, st2, h2, h⟩ := Res.bind_eq_ok h
            cases hx : st2.rest with
            | nil => rw [hx] at h; cases h
            | cons x xt =>
              rw [hx] at h
              dsimp only at h
              obtain ⟨val, st3, h3, h⟩ := Res.bind_eq_ok h
              obtain ⟨_, st4, h4, h⟩ := Res.bind_eq_ok h
              obtain ⟨_, st5, h5, h⟩ := Res.bind_eq_ok h
              cases hy : st5.rest with
              | nil => rw [hy] at h; cases h
              | cons y yt =>
                rw [hy] at h
                dsimp only at h
                by_cases hc : y = ','
                · subst hc
                  simp only [ne_eq, not_true_eq_false, if_false] at h
                  obtain ⟨_, st6, h6, h⟩ := Res.bind_eq_ok h
                  -- the source array is the same all along
                  have e2 : st2.s = st.s := by
                    rw [(skipWhile_moved h2).s]
                    show (if l = NUL ∨ l = '\n' then { inpln st with loc := ⟨.inp, 0⟩ }
                      else st).s = st.s
                    split
                    · exact inpln_s st
                    · rfl
                  have e3 : st3.s = st2.s := by
                    split at h3
                    · cases h3
                      rfl
                    · exact hex _ _ _ h3
                  have e4 : st4.s = st.s := by
                    rw [(skipWhile_moved h4).s]
                    exact e3.trans e2
                  -- the cursor goes back to the statement
                  obtain ⟨a, y', t5, hX, _, rfl⟩ := skpspc_decomp h5
                  have hXr : ({ st4 with loc := st4.c, c := ⟨st.c.r, st.c.i + 1⟩ } : State).rest
                      = T1 := by
                    have hT' := hT
                    rw [rest_src hr] at hT'
                    have hX0 : ({ st4 with loc := st4.c, c := ⟨st.c.r, st.c.i + 1⟩ } :
                        State).rest = st4.s.drop (st.c.i + 1) := rest_src hr
                    rw [hX0]
                    show st4.s.drop (st.c.i + 1) = T1
                    have hd : st.s.drop (st.c.i + 1) = (st.s.drop st.c.i).drop 1 := by
                      simp [List.drop_drop, Nat.add_comm]
                    rw [e4, hd, hT']
                    rfl
                  rw [hXr] at hX
                  have hy' : (({ st4 with loc := st4.c, c := ⟨st.c.r, st.c.i + 1⟩ } :
                      State).adv a).rest = y' :: t5 := by
                    rw [State.rest_adv, hXr, hX]
                    simp
                  rw [hy'] at hy
                  cases hy
                  obtain ⟨b, z, t6, hZ, _, rfl⟩ := skpspc_decomp h6
                  have hZr : ((({ st4 with loc := st4.c, c := ⟨st.c.r, st.c.i + 1⟩ } :
                      State).adv a).adv 1).rest = yt := rest_adv_one hy'
                  rw [hZr] at hZ
                  obtain ⟨w, t, hw, hfc, hfs, hlast⟩ := ih _ fin (by exact hr) h
                  have h6r : (((({ st4 with loc := st4.c, c := ⟨st.c.r, st.c.i + 1⟩ } :
                      State).adv a).adv 1).adv b).rest = z :: t6 := by
                    rw [State.rest_adv, hZr, hZ]
                    simp
                  rw [h6r] at hw
                  refine ⟨ch :: (spaces a ++ ',' :: (spaces b ++ w)), t, ?_, ?_, ?_, Or.inr ?_⟩
                  · rw [hX, hZ, hw]
                    simp
                  · rw [hfc]
                    simp only [State.adv, List.length_cons, List.length_append, length_spaces]
                    congr 1
                    omega
                  · rw [hfs]
                    exact e4
                  · have hb : (ch != ' ') = true := by
                      have : ch ≠ ' ' := by
                        rintro rfl
                        exact absurd hu (by decide)
                      simpa using this
                    have hcomma : ((',' : Char) != ' ') = true := by decide
                    simp only [List.filter_cons, hb, if_true, List.filter_append, filter_spaces,
                      List.nil_append, hcomma]
                    rcases hlast with rfl | hlast
                    · rfl
                    · rw [List.getLast?_cons_cons, List.getLast?_cons]
                      rw [hlast]
                      rfl
                · simp only [ne_eq, hc, not_false_eq_true, if_true] at h
                  cases h
        · simp only [hu, Bool.not_false, if_true] at h
          cases h

/-- A run of `f_in` from the program text returns only when the text up to the
newline holds nothing but spaces or has a comma as its last character other than
a space; after a last variable without a comma it does not return. -/
theorem f_in_returns_after_comma (n : Nat) (st fin : State) (hr : st.c.r = .src)
    (h : f_in n st = .ok () fin) :
    ∃ w t, st.rest = w ++ '\n' :: t ∧ fin.c = ⟨.src, st.c.i + w.length⟩ ∧
      (w.filter (fun ch => ch != ' ') = [] ∨
        (w.filter (fun ch => ch != ' ')).getLast? = some ',') := by
  unfold f_in at h
  obtain ⟨_, s0, h0, h⟩ := Res.bind_eq_ok h
  obtain ⟨a, ch, t0, hS, _, rfl⟩ := skpspc_decomp h0
  obtain ⟨w, t, hw, hfc, _, hlast⟩ := inLoop_returns_after_comma (expr n)
    (fun s v s' he => (expr_moved he).s) n (st.adv a) fin hr h
  rw [rest_adv_spaces hS] at hw
  refine ⟨spaces a ++ w, t, ?_, ?_, ?_⟩
  · rw [hS, hw]
    simp
  · rw [hfc]
    simp only [State.adv, List.length_append, length_spaces]
    congr 1
    omega
  · rw [List.filter_append, filter_spaces, List.nil_append]
    rcases hlast with rfl | hlast
    · exact Or.inl rfl
    · exact Or.inr hlast


end TinyBASIC
